import Mathlib

/-!
# TCP relay over UDP: FIFO queue, CRC-8 and packet header

A shallow embedding of `fq.c`, `crc.c`, `relay.h` and the packet handling of
`relay.c`, followed by the properties proved about them.

Conventions of the embedding.

* A C `int` is an `Int`; an `unsigned char` is a `Nat` (a byte value).
* A C pointer that may be `NULL` is an `Option`; `none` is `NULL`.
* A function whose C body can perform an undefined memory access (a read or
  write outside a buffer, a dereference of `NULL`) returns an `Option`, and
  `none` stands for that undefined behaviour.
-/

/-! ## `fq.h` / `fq.c`: the FIFO queue -/

/-- Error codes of the FQ module (`fq_err_t` in `fq.h`). -/
inductive fq_err_t where
  | FQ_OK
  | FQ_BAD_PARAMETER
  | FQ_OUT_OF_MEMORY
  | FQ_ITEM_DISCARDED
  | FQ_POSIX_MUTEX_FAILURE
  | FQ_POSIX_COND_FAILURE
  | FQ_QUEUE_EMPTY
  | FQ_INADEQUATE_SPACE
  deriving DecidableEq, Repr

open fq_err_t

/-- Limit on queue length, `FQ_MAX_QUEUE_LEN` in `fq.h`. -/
def FQ_MAX_QUEUE_LEN : Int := 256

/-- Limit on item length, `FQ_MAX_ITEM_LEN` in `fq.h`. -/
def FQ_MAX_ITEM_LEN : Int := 32768

/-- The queue record, `struct fq_t` in `fq.c`.  `length` and `data` are the two
heap blocks the structure points to. -/
structure fq_t where
  queue_len : Int
  item_len : Int
  head : Int
  tail : Int
  length : List Int
  data : List Nat
  deriving DecidableEq, Repr

/-- The outcome of the three `malloc` calls of `fq_create`: whether the record
itself was allocated, and for the two blocks either `none` (`malloc` returned
`NULL`) or the indeterminate initial content of the block, byte by byte. -/
structure heap_t where
  fq_block : Bool
  data_block : Option (Nat → Nat)
  length_block : Option (Nat → Int)

/-- The C library `memcpy (dst + doff, src + soff, n)` on buffers of known
size; `none` when the copy would leave either buffer. -/
def memcpy (dst : List Nat) (doff : Int) (src : List Nat) (soff : Int) (n : Int) :
    Option (List Nat) :=
  if 0 ≤ doff ∧ 0 ≤ soff ∧ 0 ≤ n ∧ doff + n ≤ dst.length ∧ soff + n ≤ src.length then
    some (dst.take doff.toNat ++ (src.drop soff.toNat).take n.toNat
      ++ dst.drop (doff + n).toNat)
  else none

/-- Read `a[i]` of an `int` array; `none` outside the array. -/
def arr_get (a : List Int) (i : Int) : Option Int :=
  if 0 ≤ i ∧ i < a.length then a.get? i.toNat else none

/-- Write `a[i] = v` of an `int` array; `none` outside the array. -/
def arr_set (a : List Int) (i : Int) (v : Int) : Option (List Int) :=
  if 0 ≤ i ∧ i < a.length then some (a.set i.toNat v) else none

/-- Translation of `fq_create (new_fq, queue_len, item_len)`.  `new_fq_null` says
whether the output pointer is `NULL`; the second component of the result is the
queue stored through `new_fq` (none when nothing is stored). -/
def fq_create (new_fq_null : Bool) (queue_len item_len : Int) (heap : heap_t) :
    fq_err_t × Option fq_t :=
  if new_fq_null = true ∨ queue_len < 1 ∨ queue_len > FQ_MAX_QUEUE_LEN ∨
      item_len < 1 ∨ item_len > FQ_MAX_ITEM_LEN then
    (FQ_BAD_PARAMETER, none)
  else if heap.fq_block = false then (FQ_OUT_OF_MEMORY, none)
  else
    match heap.data_block with
    | none => (FQ_OUT_OF_MEMORY, none)
    | some data_block =>
      match heap.length_block with
      | none => (FQ_OUT_OF_MEMORY, none)
      | some length_block =>
        (FQ_OK, some
          { queue_len := queue_len + 1
            item_len := item_len
            head := 0
            tail := 0
            length := (List.range (queue_len + 1).toNat).map length_block
            data := (List.range ((queue_len + 1) * item_len).toNat).map data_block })

/-- The return values of the pthread calls `fq_enqueue` may make. -/
structure pthread_env where
  mutex_lock : Int
  cond_signal : Int
  mutex_unlock : Int
  deriving DecidableEq, Repr

/-- A pthread call made on a mutex or condition variable (named by address). -/
inductive pthread_call where
  | lock (m : Nat)
  | signal (c : Nat)
  | unlock (m : Nat)
  deriving DecidableEq, Repr

/-- What `fq_enqueue` leaves behind: the return value, the queue, and the
pthread calls it made, in order. -/
structure enq_out where
  rv : fq_err_t
  fq : Option fq_t
  calls : List pthread_call
  deriving DecidableEq, Repr

/-- The wake-up part of `fq_enqueue`: lock (if given), signal, unlock. -/
def fq_signal (q : fq_t) (cond : Nat) (lock : Option Nat) (env : pthread_env) : enq_out :=
  match lock with
  | none =>
    if env.cond_signal ≠ 0 then ⟨FQ_POSIX_COND_FAILURE, some q, [.signal cond]⟩
    else ⟨FQ_OK, some q, [.signal cond]⟩
  | some l =>
    if env.mutex_lock ≠ 0 then ⟨FQ_POSIX_MUTEX_FAILURE, some q, [.lock l]⟩
    else if env.cond_signal ≠ 0 then
      ⟨FQ_POSIX_COND_FAILURE, some q, [.lock l, .signal cond, .unlock l]⟩
    else if env.mutex_unlock ≠ 0 then
      ⟨FQ_POSIX_MUTEX_FAILURE, some q, [.lock l, .signal cond, .unlock l]⟩
    else ⟨FQ_OK, some q, [.lock l, .signal cond, .unlock l]⟩

/-- Translation of `fq_enqueue (fq, buf, buf_len, cond, lock)`. -/
def fq_enqueue (fq : Option fq_t) (buf : Option (List Nat)) (buf_len : Int)
    (cond lock : Option Nat) (env : pthread_env) : Option enq_out :=
  match fq, buf with
  | none, _ => some ⟨FQ_BAD_PARAMETER, none, []⟩
  | some q, none => some ⟨FQ_BAD_PARAMETER, some q, []⟩
  | some q, some b =>
    if buf_len < 0 ∨ buf_len > q.item_len then some ⟨FQ_BAD_PARAMETER, some q, []⟩
    else if Int.tmod (q.tail + 1) q.queue_len = q.head then
      some ⟨FQ_ITEM_DISCARDED, some q, []⟩
    else
      match memcpy q.data (q.tail * q.item_len) b 0 buf_len with
      | none => none
      | some data =>
        match arr_set q.length q.tail buf_len with
        | none => none
        | some length =>
          let q1 : fq_t := { q with data := data, length := length }
          let q2 : fq_t := { q1 with tail := Int.tmod (q1.tail + 1) q1.queue_len }
          match cond with
          | none => some ⟨FQ_OK, some q2, []⟩
          | some c =>
            if Int.tmod (q2.head + 1) q2.queue_len = q2.tail then
              some (fq_signal q2 c lock env)
            else some ⟨FQ_OK, some q2, []⟩

/-- What `fq_dequeue` leaves behind: the return value, the queue, the caller's
buffer and the caller's `*buf_len`. -/
structure deq_out where
  rv : fq_err_t
  fq : Option fq_t
  buf : Option (List Nat)
  buf_len : Option Int
  deriving DecidableEq, Repr

/-- Translation of `fq_dequeue (fq, buf, buf_len)`.  With `fq` and `buf` non-null
and `buf_len == NULL` the parameter check evaluates `*buf_len`, a dereference of
`NULL`. -/
def fq_dequeue (fq : Option fq_t) (buf : Option (List Nat)) (buf_len : Option Int) :
    Option deq_out :=
  match fq, buf, buf_len with
  | none, _, _ => some ⟨FQ_BAD_PARAMETER, none, buf, buf_len⟩
  | some q, none, _ => some ⟨FQ_BAD_PARAMETER, some q, none, buf_len⟩
  | some _, some _, none => none
  | some q, some b, some bl =>
    if bl < 0 then some ⟨FQ_BAD_PARAMETER, some q, some b, some bl⟩
    else if q.head = q.tail then some ⟨FQ_QUEUE_EMPTY, some q, some b, some bl⟩
    else
      match arr_get q.length q.head with
      | none => none
      | some len =>
        if len > bl then some ⟨FQ_INADEQUATE_SPACE, some q, some b, some bl⟩
        else
          match memcpy b 0 q.data (q.head * q.item_len) len with
          | none => none
          | some b1 =>
            some ⟨FQ_OK, some { q with head := Int.tmod (q.head + 1) q.queue_len },
              some b1, some len⟩

/-! ### Sequences of calls on one queue -/

/-- One call made on a queue: the arguments other than the queue itself. -/
inductive fq_call where
  | enqueue (buf : Option (List Nat)) (buf_len : Int) (cond lock : Option Nat)
      (env : pthread_env)
  | dequeue (buf : Option (List Nat)) (buf_len : Option Int)
  deriving DecidableEq, Repr

/-- What a call left behind. -/
inductive fq_ret where
  | enq (o : enq_out)
  | deq (o : deq_out)
  deriving DecidableEq, Repr

/-- Perform one call on the queue `q`; the result and the queue afterwards. -/
def fq_step (q : fq_t) : fq_call → Option (fq_ret × fq_t)
  | .enqueue buf buf_len cond lock env =>
    (fq_enqueue (some q) buf buf_len cond lock env).map fun o => (.enq o, o.fq.getD q)
  | .dequeue buf buf_len =>
    (fq_dequeue (some q) buf buf_len).map fun o => (.deq o, o.fq.getD q)

/-- Perform the calls one after another; the trace of calls with their results
and the final queue.  `none` if a call has undefined behaviour. -/
def fq_run (q : fq_t) : List fq_call → Option (List (fq_call × fq_ret) × fq_t)
  | [] => some ([], q)
  | c :: cs =>
    match fq_step q c with
    | none => none
    | some (r, q1) =>
      match fq_run q1 cs with
      | none => none
      | some (tr, q2) => some ((c, r) :: tr, q2)

/-- An item as the caller sees it: its length and its bytes. -/
abbrev fq_item := Int × List Nat

/-- The item handed to an `fq_enqueue` call whose return value satisfies `p`. -/
def enq_item_if (p : fq_err_t → Bool) : fq_call × fq_ret → Option fq_item
  | (.enqueue (some b) n _ _ _, .enq o) => if p o.rv then some (n, b.take n.toNat) else none
  | _ => none

/-- The items handed to the `fq_enqueue` calls of a trace that returned `FQ_OK`. -/
def enqueued_ok (tr : List (fq_call × fq_ret)) : List fq_item :=
  tr.filterMap (enq_item_if fun rv => rv = FQ_OK)

/-- The items handed to the `fq_enqueue` calls of a trace that stored their
item: those that returned `FQ_OK` or, after the item was stored, one of the two
POSIX failure codes. -/
def enqueued_stored (tr : List (fq_call × fq_ret)) : List fq_item :=
  tr.filterMap (enq_item_if fun rv =>
    rv = FQ_OK ∨ rv = FQ_POSIX_MUTEX_FAILURE ∨ rv = FQ_POSIX_COND_FAILURE)

/-- The item returned by an `fq_dequeue` call that returned `FQ_OK`: the length
written through `buf_len` and that many bytes of `buf`. -/
def deq_item : fq_call × fq_ret → Option fq_item
  | (.dequeue _ _, .deq ⟨FQ_OK, _, some b, some n⟩) => some (n, b.take n.toNat)
  | _ => none

/-- The items returned by the `fq_dequeue` calls of a trace that returned
`FQ_OK`. -/
def dequeued_ok (tr : List (fq_call × fq_ret)) : List fq_item :=
  tr.filterMap deq_item

/-- A call whose buffers are as large as the call promises: an enqueue buffer
holds `buf_len` bytes; a dequeue passes a non-null `buf_len` and a buffer of at
least `item_len` bytes. -/
def fq_call_valid (item_len : Int) : fq_call → Prop
  | .enqueue (some b) buf_len _ _ _ => buf_len ≤ b.length
  | .enqueue none _ _ _ _ => True
  | .dequeue (some b) (some _) => item_len ≤ b.length
  | .dequeue none (some _) => True
  | .dequeue _ none => False

instance (item_len : Int) (c : fq_call) : Decidable (fq_call_valid item_len c) := by
  unfold fq_call_valid
  split <;> infer_instance

/-- No pthread call made for this call fails: it passes no condition variable,
or every pthread call returns 0. -/
def fq_call_pthread_ok : fq_call → Prop
  | .enqueue _ _ cond _ env =>
    cond = none ∨ (env.mutex_lock = 0 ∧ env.cond_signal = 0 ∧ env.mutex_unlock = 0)
  | .dequeue _ _ => True

instance (c : fq_call) : Decidable (fq_call_pthread_ok c) := by
  unfold fq_call_pthread_ok
  split <;> infer_instance

/-- Number of stored items, `(tail - head) mod queue_len`. -/
def fq_count (q : fq_t) : Int := (q.tail - q.head) % q.queue_len

/-- The slot holding the `j`-th stored item, counted from the head. -/
def fq_slot (q : fq_t) (j : Nat) : Int := (q.head + j) % q.queue_len

/-- The item stored in slot `s`: its recorded length and that many bytes of the
slot. -/
def fq_item_at (q : fq_t) (s : Int) : fq_item :=
  (q.length.getD s.toNat 0,
    (q.data.drop (s * q.item_len).toNat).take (q.length.getD s.toNat 0).toNat)

/-- The stored items, oldest first. -/
def fq_items (q : fq_t) : List fq_item :=
  (List.range (fq_count q).toNat).map fun j => fq_item_at q (fq_slot q j)

/-- The representation invariant of a queue. -/
def fq_wf (q : fq_t) : Prop :=
  2 ≤ q.queue_len ∧ 1 ≤ q.item_len ∧ 0 ≤ q.head ∧ q.head < q.queue_len ∧
  0 ≤ q.tail ∧ q.tail < q.queue_len ∧ (q.length.length : Int) = q.queue_len ∧
  (q.data.length : Int) = q.queue_len * q.item_len ∧
  ∀ j : Nat, (j : Int) < fq_count q →
    0 ≤ (fq_item_at q (fq_slot q j)).1 ∧ (fq_item_at q (fq_slot q j)).1 ≤ q.item_len

/-- The queues reachable from `q0` by `fq_enqueue` and `fq_dequeue` calls. -/
inductive fq_reachable (q0 : fq_t) : fq_t → Prop where
  | init : fq_reachable q0 q0
  | step (q : fq_t) (c : fq_call) (r : fq_ret) (q1 : fq_t) :
      fq_reachable q0 q → fq_step q c = some (r, q1) → fq_reachable q0 q1

/-- The queue after the item `(b, n)` has been stored at the tail: what a
successful `fq_enqueue` leaves. -/
def fq_push (q : fq_t) (b : List Nat) (n : Int) : fq_t :=
  { q with
    data := q.data.take (q.tail * q.item_len).toNat ++ (b.drop (0 : Int).toNat).take n.toNat
      ++ q.data.drop (q.tail * q.item_len + n).toNat
    length := q.length.set q.tail.toNat n
    tail := Int.tmod (q.tail + 1) q.queue_len }

/-- The queue after the head item has been removed: what a successful
`fq_dequeue` leaves. -/
def fq_pop (q : fq_t) : fq_t :=
  { q with head := Int.tmod (q.head + 1) q.queue_len }

/-- The return value of a call. -/
def fq_ret.rv : fq_ret → fq_err_t
  | .enq o => o.rv
  | .deq o => o.rv

/-- A heap on which every allocation succeeds; the blocks come filled with
the byte `0xEE` and the `int` `-1`. -/
def heap_ok : heap_t := ⟨true, some fun _ => 0xEE, some fun _ => -1⟩

/-- Every pthread call returns 0. -/
def env_ok : pthread_env := ⟨0, 0, 0⟩

/-- The scenario of the specification: `{0x41}` then `{0x42,0x43}` enqueued
into a 2-slot queue, then three dequeues into 2-byte buffers. -/
def scenario_calls : List fq_call :=
  [.enqueue (some [0x41]) 1 none none env_ok,
   .enqueue (some [0x42, 0x43]) 2 none none env_ok,
   .dequeue (some [0, 0]) (some 2),
   .dequeue (some [0, 0]) (some 2),
   .dequeue (some [0, 0]) (some 2)]

/-- As `scenario_calls`, but the first enqueue passes a condition variable
whose `pthread_cond_signal` fails (returns `EINVAL`, 22). -/
def failing_signal_calls : List fq_call :=
  [.enqueue (some [0x41]) 1 (some 0) none ⟨0, 22, 0⟩,
   .enqueue (some [0x42, 0x43]) 2 none none env_ok,
   .dequeue (some [0, 0]) (some 2)]

/-- The queue `fq_create (&fq, 2, 2)` yields on `heap_ok`. -/
def fresh_2_2 : fq_t :=
  { queue_len := 3, item_len := 2, head := 0, tail := 0,
    length := [-1, -1, -1], data := [0xEE, 0xEE, 0xEE, 0xEE, 0xEE, 0xEE] }

/-- An enqueue call with a valid item: a non-null buffer of at least `buf_len`
bytes and `0 ≤ buf_len ≤ item_len`. -/
def fq_call_valid_item (item_len : Int) : fq_call → Prop
  | .enqueue (some b) n _ _ _ => 0 ≤ n ∧ n ≤ item_len ∧ n ≤ b.length
  | _ => False

instance (item_len : Int) (c : fq_call) : Decidable (fq_call_valid_item item_len c) := by
  unfold fq_call_valid_item
  split <;> infer_instance

/-- The return value is one with which `fq_enqueue` has stored its item. -/
def fq_rv_stored (rv : fq_err_t) : Prop :=
  rv = FQ_OK ∨ rv = FQ_POSIX_MUTEX_FAILURE ∨ rv = FQ_POSIX_COND_FAILURE

instance (rv : fq_err_t) : Decidable (fq_rv_stored rv) := by
  unfold fq_rv_stored
  infer_instance

/-- The queue `fq_create (&fq, 1, 1)` yields on `heap_ok`. -/
def fresh_1_1 : fq_t :=
  { queue_len := 2, item_len := 1, head := 0, tail := 0, length := [-1, -1], data := [0xEE, 0xEE] }

/-- The queue `fresh_2_2` after `{0x42,0x43}` has been enqueued. -/
def one_item_2_2 : fq_t :=
  { queue_len := 3, item_len := 2, head := 0, tail := 1,
    length := [2, -1, -1], data := [0x42, 0x43, 0xEE, 0xEE, 0xEE, 0xEE] }

/-- Two enqueues into a 1-slot queue, the first passing a condition variable
whose `pthread_cond_signal` fails (returns `EINVAL`, 22). -/
def capacity_failing_calls : List fq_call :=
  [.enqueue (some [0x41]) 1 (some 0) none ⟨0, 22, 0⟩,
   .enqueue (some [0x42]) 1 none none env_ok]

/-! ## `crc.c`: CRC-8 -/

/-- The value `((unsigned)*buf & (1 << i)) >> i` for the `char` value `c`: the
conversion to `unsigned` is the value modulo `2 ^ 32`. -/
def crc8_bit (c : Int) (i : Nat) : Nat :=
  ((c % 2 ^ 32).toNat &&& (1 <<< i)) >>> i

/-- One turn of the inner loop of `calculate_crc8`, on `unsigned` (32 bits):
`bits = (bits << 1) | bit; if (bits >= 0x100) bits ^= 0x107;`. -/
def crc8_shift (bits bit : Nat) : Nat :=
  if ((bits <<< 1) % 2 ^ 32 ||| bit) ≥ 0x100 then ((bits <<< 1) % 2 ^ 32 ||| bit) ^^^ 0x107
  else (bits <<< 1) % 2 ^ 32 ||| bit

/-- The inner loop `for (i = 8; --i >= 0; )` over one `char`: `i` runs 7, 6, .., 0. -/
def crc8_byte (bits : Nat) (c : Int) : Nat :=
  [7, 6, 5, 4, 3, 2, 1, 0].foldl (fun bits i => crc8_shift bits (crc8_bit c i)) bits

/-- The loop `while (length-- > 0)` over the buffer.  Reading past the end of
`buf` is undefined in C; the model stops there. -/
def crc8_bytes : List Int → Nat → Nat → Nat
  | _, 0, bits => bits
  | [], _ + 1, bits => bits
  | c :: buf, length + 1, bits => crc8_bytes buf length (crc8_byte bits c)

/-- One turn of the final loop: `bits <<= 1; if (bits >= 0x100) bits ^= 0x107;`. -/
def crc8_shift_zero (bits : Nat) : Nat :=
  if (bits <<< 1) % 2 ^ 32 ≥ 0x100 then ((bits <<< 1) % 2 ^ 32) ^^^ 0x107
  else (bits <<< 1) % 2 ^ 32

/-- The final loop of `calculate_crc8`: eight zero bits are shifted in. -/
def crc8_zeroes (bits : Nat) : Nat :=
  [7, 6, 5, 4, 3, 2, 1, 0].foldl (fun bits _ => crc8_shift_zero bits) bits

/-- Translation of `calculate_crc8 (buf, length)`; a `char` of the buffer is an
`Int` (negative when `char` is signed and the top bit is set). -/
def calculate_crc8 (buf : List Int) (length : Nat) : Nat :=
  crc8_zeroes (crc8_bytes buf length 0)

/-- Product of two polynomials over GF(2), each encoded as the number whose
bit `i` is the coefficient of `x ^ i` (carry-less multiplication). -/
def gf2_mul (a b : Nat) : Nat :=
  if a = 0 then 0 else (if a % 2 = 1 then b else 0) ^^^ 2 * gf2_mul (a / 2) b
termination_by a
decreasing_by omega

/-- The polynomial `r` is the remainder of `p` divided by `g` over GF(2): its
degree is below that of `g` (a power of two lies above `r` and not above `g`) and `p = q * g + r` for some polynomial `q`
(addition of polynomials over GF(2) is `^^^`). -/
def gf2_is_remainder (p g r : Nat) : Prop :=
  (∃ k, r < 2 ^ k ∧ 2 ^ k ≤ g) ∧ ∃ q, p = gf2_mul q g ^^^ r

/-- The GF(2) polynomial whose coefficients are the bits of the byte string
taken most significant bit first, a byte being the 8-bit pattern of the `char`
(its value modulo 256): the first byte carries the highest powers. -/
def msg_poly (buf : List Int) : Nat :=
  buf.foldl (fun p c => p * 2 ^ 8 + (c % 256).toNat) 0

/-! ## `relay.h`: packet header macros -/

/-- Limit on UDP packet length, `MAX_PKT_LEN`. -/
def MAX_PKT_LEN : Nat := 256

/-- Number of UDP channels supported, `MAX_CHANNELS`. -/
def MAX_CHANNELS : Nat := 16

/-- The macro `PKT_IS_LAST (p)`, `(((p)[0] & 0x80) == 0x80)`, as the C `int` 0 or 1.
The packet `p` is a buffer of at least two bytes. -/
def PKT_IS_LAST (p : List Nat) : Int :=
  if p.getD 0 0 &&& 0x80 = 0x80 then 1 else 0

/-- The macro `PKT_SEQ_NUM (p)`, `((int)((p)[0] & 0x7F))`. -/
def PKT_SEQ_NUM (p : List Nat) : Int :=
  ((p.getD 0 0 &&& 0x7F : Nat) : Int)

/-- The macro `PKT_EPOCH (p)`, `((int)((p)[1]))`. -/
def PKT_EPOCH (p : List Nat) : Int :=
  ((p.getD 1 0 : Nat) : Int)

/-- The macro `PKT_MAKE_HEADER (p, is_last, seq_num, epoch)` of `relay.h`:
`(p)[0] = ((is_last) << 7) | (seq_num); (p)[1] = (epoch);`.  The arguments are
non-negative `int`s; a store into an `unsigned char` keeps the value modulo 256. -/
def PKT_MAKE_HEADER (p : List Nat) (is_last seq_num epoch : Nat) : List Nat :=
  (p.set 0 (((is_last <<< 7) ||| seq_num) % 256)).set 1 (epoch % 256)

/-- The macro `PREV_SEQ_NUM (n)`, `(((n) + 0x7F) & 0x7F)`. -/
def PREV_SEQ_NUM (n : Int) : Int := Int.land (n + 0x7F) 0x7F

/-- The macro `NEXT_SEQ_NUM (n)`, `(((n) + 0x01) & 0x7F)`. -/
def NEXT_SEQ_NUM (n : Int) : Int := Int.land (n + 0x01) 0x7F

/-- The macro `EPOCH_IS_EARLIER (e, f)`,
`(((((unsigned)(f)) - ((unsigned)(e))) & 0xFF) <= 0x80)`: the conversions to
`unsigned` and the subtraction are modulo `2 ^ 32`. -/
def EPOCH_IS_EARLIER (e f : Int) : Bool :=
  decide ((((f % 2 ^ 32 - e % 2 ^ 32) % 2 ^ 32).toNat &&& 0xFF) ≤ 0x80)

/-- Modes of the relay, `relay_mode_t`. -/
inductive relay_mode_t where
  | MODE_TCP_TARGET
  | MODE_TCP_FORWARD
  deriving DecidableEq, Repr

open relay_mode_t

/-- The flag `CLOSE_CHANNEL_NONE` of `channel_state_t`. -/
def CLOSE_CHANNEL_NONE : Nat := 0

/-- The flag `CLOSE_CHANNEL_HELPER` of `channel_state_t`. -/
def CLOSE_CHANNEL_HELPER : Nat := 1

/-- The flag `CLOSE_CHANNEL_RECEIVER` of `channel_state_t`. -/
def CLOSE_CHANNEL_RECEIVER : Nat := 2

/-- The flag `CLOSE_CHANNEL_SENDER` of `channel_state_t`. -/
def CLOSE_CHANNEL_SENDER : Nat := 4

/-- The flag `CLOSE_CHANNEL_ALL` of `channel_state_t`. -/
def CLOSE_CHANNEL_ALL : Nat := 7

/-- The data fields of `struct channel_t` (thread ids, locks, condition
variables and the two UDP channels are left out).  `number` is the field
`ct->number` that `relay.c` passes to `PKT_MAKE_HEADER`; its declaration is not
in `relay.h`. -/
structure channel_t where
  epoch : Int
  fd : Int
  active : Int
  channel_state : Nat
  need_help : Int
  has_data : Int
  number : Int
  deriving DecidableEq, Repr

/-! ## `relay.c`: channel deactivation and packet handling -/

/-- Sliding window protocol buffer size, `SWP_BUFFER_SIZE`. -/
def SWP_BUFFER_SIZE : Nat := 32

/-- The value of `EINTR` in `errno.h`. -/
def EINTR : Int := 4

/-- What a worker thread does to the world outside its own variables and the
channel record. -/
inductive relay_event where
  | close (fd : Int)
  | sem_post
  | wake_threads (ignore : Nat)
  | tcp_write (fd : Int) (bytes : List Nat)
  | tcp_connect (fd : Int)
  | udp_send (bytes : List Nat)
  deriving DecidableEq, Repr

/-- Translation of `deactivate_channel (ct, flag)`, run under `channel_lock`.
`ct->epoch++` is on an `int`: the model adds one on `Int`, which is what the C
statement does while the epoch is below `INT_MAX` (`2 ^ 31 - 1`); at `INT_MAX`
the increment overflows in C and the model does not describe it. -/
def deactivate_channel (mode : relay_mode_t) (ct : channel_t) (flag : Nat) :
    channel_t × List relay_event :=
  let was_first := decide (ct.channel_state = CLOSE_CHANNEL_NONE)
  let ct1 : channel_t := { ct with channel_state := ct.channel_state ||| flag }
  let wake := if was_first then [relay_event.wake_threads flag] else []
  if ct1.channel_state = CLOSE_CHANNEL_ALL then
    let ct2 : channel_t := { ct1 with epoch := ct1.epoch + 1 }
    if mode = MODE_TCP_TARGET then
      ({ ct2 with active := 0 }, [.close ct1.fd, .sem_post] ++ wake)
    else (ct2, [.close ct1.fd] ++ wake)
  else (ct1, wake)

/-- Conversion of a `size_t` to `int` (`return n` in `my_write`): the low 32
bits, read as a signed number. -/
def int_of_size_t (n : Nat) : Int :=
  ((n : Int) + 2 ^ 31) % 2 ^ 32 - 2 ^ 31

/-- Conversion of an `int` to `size_t` (64 bits). -/
def size_t_of_int (i : Int) : Nat :=
  (i % 2 ^ 64).toNat

/-- The loop of `my_write (fd, buf, n)`: `written` bytes are out, the list holds
the return values of the `write` calls still to come (`-1` or a number of
bytes).  A `write` that returns `-1` ends the loop with `-1` unless
`once == EINTR`, which compares the return value, not `errno`.  `none` when the
list is used up before the loop ends. -/
def my_write_loop (fd : Int) (buf : List Nat) (n : Nat) :
    Nat → List Int → Option (Int × List relay_event)
  | written, [] => if written < n then none else some (int_of_size_t n, [])
  | written, once :: rest =>
    if written < n then
      if once = -1 then
        if once = EINTR then my_write_loop fd buf n written rest
        else some (-1, [])
      else
        match my_write_loop fd buf n (size_t_of_int (written + once)) rest with
        | none => none
        | some (rv, ev) =>
          some (rv, .tcp_write fd ((buf.drop written).take once.toNat) :: ev)
    else some (int_of_size_t n, [])

/-- Translation of `my_write (fd, buf, n)`; `writes` holds the return values of
the successive `write` calls. -/
def my_write (fd : Int) (buf : List Nat) (n : Nat) (writes : List Int) :
    Option (Int × List relay_event) :=
  my_write_loop fd buf n 0 writes

/-- The loop `for (i = 0; i < SWP_BUFFER_SIZE - 1; i += 1)` that moves the
buffers down: `buffer[MAX_PKT_LEN*i] = buffer[MAX_PKT_LEN*(i+1)];
bufferValid[i] = bufferValid[i+1];`, then `bufferValid[SWP_BUFFER_SIZE-1] = 0`. -/
def move_buffers_down (buffer bufferValid : List Nat) : List Nat × List Nat :=
  let r := (List.range (SWP_BUFFER_SIZE - 1)).foldl
    (fun (bv : List Nat × List Nat) i =>
      (bv.1.set (MAX_PKT_LEN * i) (bv.1.getD (MAX_PKT_LEN * (i + 1)) 0),
        bv.2.set i (bv.2.getD (i + 1) 0)))
    (buffer, bufferValid)
  (r.1, r.2.set (SWP_BUFFER_SIZE - 1) 0)

/-- The assignments `buffer[(k)*MAX_PKT_LEN] = packet; bufferValid[k] = 1;` with
`k` an `int` index.  `packet` is the address of the packet array, so the byte
stored is the low byte of that address.  `none` when `k` is outside
`0 .. SWP_BUFFER_SIZE - 1`, a write outside the two arrays. -/
def park_packet (buffer bufferValid : List Nat) (k : Int) (packet_addr : Nat) :
    Option (List Nat × List Nat) :=
  if 0 ≤ k ∧ k < SWP_BUFFER_SIZE then
    some (buffer.set (k.toNat * MAX_PKT_LEN) (packet_addr % 256), bufferValid.set k.toNat 1)
  else none

/-- The local variables of `tcp_sender`. -/
structure sender_t where
  packet : List Nat
  len : Int
  LAR : Int
  SEQ : Int
  seq_num : Int
  epoch : Int
  is_active : Int
  tcp_closed : Int
  timeout : Int
  buffer : List Nat
  bufferValid : List Nat
  deriving DecidableEq, Repr

/-- The end of the loop body of `tcp_sender`, from "Advance LAR by 1" on: the
ACK has passed the tests on its length, on `is_active` and on its epoch. -/
def tcp_sender_window (mode : relay_mode_t) (ct : channel_t) (s : sender_t)
    (packet_addr : Nat) : Option (channel_t × sender_t × List relay_event) :=
  let s2 : sender_t := { s with LAR := NEXT_SEQ_NUM s.LAR }
  let moved := move_buffers_down s2.buffer s2.bufferValid
  let s3 : sender_t := { s2 with buffer := moved.1, bufferValid := moved.2 }
  let s4 : sender_t := { s3 with seq_num := PKT_SEQ_NUM s3.packet }
  if s4.seq_num < s4.LAR ∨ s4.seq_num > s4.LAR + SWP_BUFFER_SIZE then
    let d := deactivate_channel mode ct CLOSE_CHANNEL_SENDER
    some (d.1, { s4 with is_active := 0 }, d.2)
  else
    let parked :=
      if s4.seq_num ≥ s4.LAR ∨ s4.seq_num < s4.LAR + SWP_BUFFER_SIZE then
        park_packet s4.buffer s4.bufferValid (s4.LAR - s4.seq_num) packet_addr
      else some (s4.buffer, s4.bufferValid)
    match parked with
    | none => none
    | some (buffer, bufferValid) =>
      let s5 : sender_t := { s4 with buffer := buffer, bufferValid := bufferValid }
      if PKT_IS_LAST s5.packet ≠ 0 ∧ s5.LAR = s5.seq_num then
        let d := deactivate_channel mode ct CLOSE_CHANNEL_SENDER
        some (d.1, { s5 with is_active := 0 }, d.2)
      else some (ct, s5, [])

/-- The part of the loop body of `tcp_sender` that handles a dequeued ACK, from
"Discard if too short" to the end of the body; `packet` and `len` are what
`fq_dequeue` delivered.  The result is the channel record, the local variables
and the events of this turn of the loop.  The test
`(epoch = PKT_EPOCH (packet)) != ct->epoch` assigns the local `epoch`. -/
def tcp_sender_ack (mode : relay_mode_t) (ct : channel_t) (s : sender_t) (packet_addr : Nat) :
    Option (channel_t × sender_t × List relay_event) :=
  if s.len < 2 then some (ct, s, [])
  else if s.is_active = 0 then some (ct, s, [])
  else if PKT_EPOCH s.packet ≠ ct.epoch then
    some (ct, { s with epoch := PKT_EPOCH s.packet }, [])
  else tcp_sender_window mode ct { s with epoch := PKT_EPOCH s.packet } packet_addr

/-- What one turn of a worker's loop in `relay.c` takes from its surroundings.

* `make_header` is the seven-argument macro `PKT_MAKE_HEADER (p, a, b, number,
  seq_num, epoch, len)` that `relay.c` uses; it is not the four-argument macro
  of `relay.h`, which has no definition of it.  It yields the packet after the
  header has been written.
* `packet_addr` is the address of the local array `packet`.
* `writes` holds the return values of the `write` calls.
* `connect_fd` is the descriptor `open_and_activate_channel` obtains from
  `socket` and `connect` (`-1` when either fails).
* `after_wait` is the channel record as the other workers leave it when the
  wait for `CLOSE_CHANNEL_ALL` ends. -/
structure relay_env where
  make_header : List Nat → Int → Int → Int → Int → Int → Int → List Nat
  packet_addr : Nat
  writes : List Int
  connect_fd : Int
  after_wait : channel_t → channel_t

/-- Translation of `open_and_activate_channel (ct)`. -/
def open_and_activate_channel (env : relay_env) (ct : channel_t) :
    channel_t × List relay_event :=
  ({ ct with fd := env.connect_fd, channel_state := CLOSE_CHANNEL_NONE },
    [.tcp_connect env.connect_fd, .wake_threads CLOSE_CHANNEL_RECEIVER])

/-- The local variables of `tcp_receiver`. -/
structure receiver_t where
  packet : List Nat
  len : Int
  NFE : Int
  seq_num : Int
  epoch : Int
  is_active : Int
  buffer : List Nat
  bufferValid : List Nat
  deriving DecidableEq, Repr

/-- The end of the loop body of `tcp_receiver`: build and send the ACK, then
test for the last packet.  `ev` holds the events of this turn so far. -/
def tcp_receiver_ack (mode : relay_mode_t) (env : relay_env) (ct : channel_t)
    (r : receiver_t) (ev : List relay_event) :
    Option (channel_t × receiver_t × List relay_event) :=
  let r1 : receiver_t :=
    { r with packet := env.make_header r.packet 1 0 ct.number r.seq_num r.epoch r.len }
  let ev1 := ev ++ [.udp_send (r1.packet.take 256)]
  if PKT_IS_LAST r1.packet ≠ 0 ∧ r1.NFE = r1.seq_num then
    let d := deactivate_channel mode ct CLOSE_CHANNEL_RECEIVER
    some (d.1, { r1 with is_active := 0 }, ev1 ++ d.2)
  else some (ct, r1, ev1)

/-- The middle of the loop body of `tcp_receiver`, from "Is the packet the one
we are expecting?" on: the window test, the write to the TCP socket or the
parking of the packet, then the ACK. -/
def tcp_receiver_deliver (mode : relay_mode_t) (env : relay_env) (ct : channel_t)
    (r : receiver_t) (ev : List relay_event) :
    Option (channel_t × receiver_t × List relay_event) :=
  let r1 : receiver_t := { r with seq_num := PKT_SEQ_NUM r.packet }
  if r1.seq_num ≥ r1.NFE ∧ r1.seq_num < r1.NFE + SWP_BUFFER_SIZE then
    if r1.NFE = r1.seq_num then
      let r2 : receiver_t := { r1 with NFE := NEXT_SEQ_NUM r1.seq_num }
      let moved := move_buffers_down r2.buffer r2.bufferValid
      let r3 : receiver_t := { r2 with buffer := moved.1, bufferValid := moved.2 }
      match my_write ct.fd (r3.packet.drop 4) (size_t_of_int (r3.len - 5)) env.writes with
      | none => none
      | some (rv, wev) =>
        if rv ≠ r3.len - 5 then
          let d := deactivate_channel mode ct CLOSE_CHANNEL_RECEIVER
          some (d.1, { r3 with is_active := 0 }, ev ++ wev ++ d.2)
        else tcp_receiver_ack mode env ct r3 (ev ++ wev)
    else
      match park_packet r1.buffer r1.bufferValid (r1.NFE - r1.seq_num) env.packet_addr with
      | none => none
      | some (buffer, bufferValid) =>
        tcp_receiver_ack mode env ct { r1 with buffer := buffer, bufferValid := bufferValid } ev
  else
    let p := env.make_header r1.packet 1 0 ct.number (PREV_SEQ_NUM r1.seq_num) r1.epoch r1.len
    tcp_receiver_ack mode env ct { r1 with packet := p } ev

/-- The forward-mode activation in `tcp_receiver`, reached when the packet is
not from an earlier epoch: on a newer epoch an active receiver deactivates the
channel, waits until all workers have done so and takes over the packet's
epoch; an inactive receiver (also one just deactivated) opens the TCP
connection, activates the channel and resets `NFE`.  `r.epoch` already holds
`PKT_EPOCH (packet)`. -/
def tcp_receiver_forward (mode : relay_mode_t) (env : relay_env) (ct : channel_t)
    (r : receiver_t) : Option (channel_t × receiver_t × List relay_event) :=
  let st : channel_t × receiver_t × List relay_event :=
    if r.epoch ≠ ct.epoch ∧ r.is_active ≠ 0 then
      let d := deactivate_channel mode ct CLOSE_CHANNEL_RECEIVER
      let ct1 := if d.1.channel_state = CLOSE_CHANNEL_ALL then d.1 else env.after_wait d.1
      ({ ct1 with epoch := r.epoch }, { r with is_active := 0 }, d.2)
    else (ct, r, [])
  let ct2 := st.1
  let r2 := st.2.1
  let ev2 := st.2.2
  if r2.is_active = 0 then
    let o := open_and_activate_channel env ct2
    tcp_receiver_deliver mode env o.1 { r2 with is_active := 1, NFE := 0 } (ev2 ++ o.2)
  else tcp_receiver_deliver mode env ct2 r2 ev2

/-- The part of the loop body of `tcp_receiver` that handles a dequeued packet,
from "Discard if too short" to the end of the body; `packet` and `len` are
what `fq_dequeue` delivered.  The result is the channel record, the local
variables and the events of this turn of the loop.  The tests
`(epoch = PKT_EPOCH (packet)) != ct->epoch` assign the local `epoch`. -/
def tcp_receiver_packet (mode : relay_mode_t) (env : relay_env) (ct : channel_t)
    (r : receiver_t) : Option (channel_t × receiver_t × List relay_event) :=
  if r.len < 2 then some (ct, r, [])
  else if mode = MODE_TCP_TARGET then
    if r.is_active = 0 then some (ct, r, [])
    else if PKT_EPOCH r.packet ≠ ct.epoch then
      some (ct, { r with epoch := PKT_EPOCH r.packet }, [])
    else tcp_receiver_deliver mode env ct { r with epoch := PKT_EPOCH r.packet } []
  else if PKT_EPOCH r.packet ≠ ct.epoch ∧
      EPOCH_IS_EARLIER (PKT_EPOCH r.packet) ct.epoch = true then
    some (ct, { r with epoch := PKT_EPOCH r.packet }, [])
  else tcp_receiver_forward mode env ct { r with epoch := PKT_EPOCH r.packet }

/-- An environment for examples: the header macro leaves the packet alone, the
packet array lies at address `0x1000`, no `write` is answered, `connect`
yields descriptor 9, and the wait for the other workers ends with
`CLOSE_CHANNEL_ALL` set. -/
def env_example : relay_env :=
  { make_header := fun p _ _ _ _ _ _ => p
    packet_addr := 0x1000
    writes := []
    connect_fd := 9
    after_wait := fun ct => { ct with channel_state := CLOSE_CHANNEL_ALL } }

/-- A channel in its sixth use: epoch 5, TCP descriptor 7, active, no worker has
deactivated. -/
def channel_example : channel_t :=
  { epoch := 5, fd := 7, active := 1, channel_state := CLOSE_CHANNEL_NONE,
    need_help := 0, has_data := 0, number := 3 }

/-- A packet of epoch 4 with sequence number 0: a straggler for `channel_example`. -/
def stale_packet : List Nat := [0, 4, 3, 1, 0x58]

/-- An active sender holding `stale_packet` as the dequeued ACK. -/
def sender_example : sender_t :=
  { packet := stale_packet, len := 256, LAR := 127, SEQ := 0, seq_num := 0, epoch := 5,
    is_active := 1, tcp_closed := 0, timeout := 0, buffer := [], bufferValid := [] }

/-- An active receiver holding `stale_packet` as the dequeued packet. -/
def receiver_example : receiver_t :=
  { packet := stale_packet, len := 256, NFE := 0, seq_num := 0, epoch := 5,
    is_active := 1, buffer := [], bufferValid := [] }

/-! ## `fq.c`: the wake-up at the end of `fq_enqueue` -/

/-- The last part of `fq_enqueue`, after the item is stored and the tail
advanced (queue `q2`): the wake-up of the reader and the return value. -/
def fq_enqueue_wake (q2 : fq_t) (cond lock : Option Nat) (env : pthread_env) : enq_out :=
  match cond with
  | none => ⟨FQ_OK, some q2, []⟩
  | some c =>
    if Int.tmod (q2.head + 1) q2.queue_len = q2.tail then fq_signal q2 c lock env
    else ⟨FQ_OK, some q2, []⟩

/-! ## `relay.c`: the channel table, the accept loop and the UDP receiver -/

/-- The channel table `chan_tab` and the value of `channel_semaphore` (target
mode). -/
structure relay_state where
  chan_tab : List channel_t
  channel_semaphore : Nat
  deriving DecidableEq, Repr

/-- Translation of `init_channels` in target mode, as far as the channel table
and the semaphore go: `sem_init (&channel_semaphore, 0, MAX_CHANNELS)`, and for
each channel `epoch = 0`, `fd = -1`, `active = 0`, `need_help = 0`,
`channel_state = CLOSE_CHANNEL_ALL`.  The fields `has_data` and `number` are not
assigned; `chan_tab` has static storage, so they start as 0.  Every call that
can fail ends the process and is taken to succeed. -/
def init_channels : relay_state :=
  { chan_tab := (List.range MAX_CHANNELS).map fun _ =>
      { epoch := 0, fd := -1, active := 0, channel_state := CLOSE_CHANNEL_ALL,
        need_help := 0, has_data := 0, number := 0 }
    channel_semaphore := MAX_CHANNELS }

/-- The scan `for (i = 0; chan_tab[i].active == 1; i++);` of the accept loop in
`main`, started at index `i` on the rest of the table: the first index whose
channel has `active != 1`.  `none` when the scan leaves the table. -/
def find_inactive : List channel_t → Nat → Option Nat
  | [], _ => none
  | ct :: rest, i => if ct.active = 1 then find_inactive rest (i + 1) else some i

/-- The assignments of the accept loop to the channel it has found:
`fd = cli_fd; need_help = 0; has_data = 0; active = 1;` under `channel_lock`,
then `channel_state = CLOSE_CHANNEL_NONE`. -/
def activate_channel (ct : channel_t) (cli_fd : Int) : channel_t :=
  { ct with fd := cli_fd, need_help := 0, has_data := 0, active := 1,
            channel_state := CLOSE_CHANNEL_NONE }

/-- One turn of the accept loop of `main` after `accept` has returned `cli_fd`:
`sem_wait`, the scan for an inactive channel, the activation of that channel
and `wake_threads (&chan_tab[i], CLOSE_CHANNEL_NONE)`.  `none` when `sem_wait`
does not return (the semaphore is 0) or the scan leaves the table. -/
def accept_channel (st : relay_state) (cli_fd : Int) :
    Option (relay_state × List relay_event) :=
  if st.channel_semaphore = 0 then none
  else
    match find_inactive st.chan_tab 0 with
    | none => none
    | some i =>
      match st.chan_tab[i]? with
      | none => none
      | some ct =>
        some ({ chan_tab := st.chan_tab.set i (activate_channel ct cli_fd)
                channel_semaphore := st.channel_semaphore - 1 },
          [.wake_threads CLOSE_CHANNEL_NONE])

/-- A call `deactivate_channel (&chan_tab[i], flag)` in target mode on the whole
state: each `sem_post` among its events adds one to the semaphore.  `none` when
`i` is not an index of the table. -/
def deactivate_at (st : relay_state) (i : Nat) (flag : Nat) :
    Option (relay_state × List relay_event) :=
  match st.chan_tab[i]? with
  | none => none
  | some ct =>
    let d := deactivate_channel MODE_TCP_TARGET ct flag
    some ({ chan_tab := st.chan_tab.set i d.1
            channel_semaphore := st.channel_semaphore + d.2.count .sem_post }, d.2)

/-- The number of channels of the table with `active == 1`. -/
def active_channels (st : relay_state) : Nat :=
  st.chan_tab.countP fun ct => decide (ct.active = 1)

/-- The states of the target relay between calls: `init_channels`, then
activations by the accept loop and calls of `deactivate_channel` by the three
workers of a channel, a worker acknowledging (with its own flag) only when its
flag is not yet in `channel_state`, that is at most once per activation. -/
inductive relay_reachable : relay_state → Prop where
  | init : relay_reachable init_channels
  | accept (st st1 : relay_state) (cli_fd : Int) (ev : List relay_event) :
      relay_reachable st → accept_channel st cli_fd = some (st1, ev) → relay_reachable st1
  | deactivate (st st1 : relay_state) (i flag : Nat) (ct : channel_t) (ev : List relay_event) :
      relay_reachable st →
      (flag = CLOSE_CHANNEL_HELPER ∨ flag = CLOSE_CHANNEL_RECEIVER ∨
        flag = CLOSE_CHANNEL_SENDER) →
      st.chan_tab[i]? = some ct → ct.channel_state &&& flag = 0 →
      deactivate_at st i flag = some (st1, ev) → relay_reachable st1

/-- A write to the record of one channel, as `relay.c` makes them after
`init_channels`:

* `activate fd`: the channel is activated with the TCP descriptor `fd`, by the
  accept loop of `main` in target mode and by `open_and_activate_channel` in
  forward mode;
* `deactivate flag`: a worker calls `deactivate_channel (ct, flag)`;
* `store_epoch e`: `tcp_receiver` comes to `ct->epoch = epoch` with the epoch
  `e` of a packet; the statement is in the `else` branch of
  `if (mode == MODE_TCP_TARGET)`, so it is executed in forward mode only;
* `set_need_help v`, `set_has_data v`: `tcp_helper` and `tcp_sender` assign
  `ct->need_help` and `ct->has_data`. -/
inductive channel_op where
  | activate (fd : Int)
  | deactivate (flag : Nat)
  | store_epoch (e : Int)
  | set_need_help (v : Int)
  | set_has_data (v : Int)
  deriving DecidableEq, Repr

/-- The channel record after one operation.  In target mode the activation is
that of the accept loop (`activate_channel`); in forward mode it is
`ct->fd = fd; ct->channel_state = CLOSE_CHANNEL_NONE;` of
`open_and_activate_channel`. -/
def channel_step (mode : relay_mode_t) (ct : channel_t) : channel_op → channel_t
  | .activate fd =>
    if mode = MODE_TCP_TARGET then activate_channel ct fd
    else { ct with fd := fd, channel_state := CLOSE_CHANNEL_NONE }
  | .deactivate flag => (deactivate_channel mode ct flag).1
  | .store_epoch e => if mode = MODE_TCP_TARGET then ct else { ct with epoch := e }
  | .set_need_help v => { ct with need_help := v }
  | .set_has_data v => { ct with has_data := v }

/-- The channel record after a sequence of operations. -/
def channel_run (mode : relay_mode_t) (ct : channel_t) (ops : List channel_op) : channel_t :=
  ops.foldl (channel_step mode) ct

/-- The number of full deactivations in a sequence of operations: the calls of
`deactivate_channel` that leave `channel_state == CLOSE_CHANNEL_ALL`. -/
def full_deactivations (mode : relay_mode_t) : channel_t → List channel_op → Nat
  | _, [] => 0
  | ct, .deactivate flag :: ops =>
    (if (channel_step mode ct (.deactivate flag)).channel_state = CLOSE_CHANNEL_ALL then 1 else 0)
      + full_deactivations mode (channel_step mode ct (.deactivate flag)) ops
  | ct, op :: ops => full_deactivations mode (channel_step mode ct op) ops

/-- Whether an operation is `tcp_receiver`'s store into `ct->epoch`. -/
def stores_epoch : channel_op → Bool
  | .store_epoch _ => true
  | _ => false

/-- One use of a channel: activation (descriptor 7), then the helper, the
receiver and the sender deactivate. -/
def channel_use : List channel_op :=
  [.activate 7, .deactivate CLOSE_CHANNEL_HELPER, .deactivate CLOSE_CHANNEL_RECEIVER,
   .deactivate CLOSE_CHANNEL_SENDER]

/-- The forward-mode history behind a change of epoch: the three workers
deactivate, `tcp_receiver` stores the epoch 7 of the packet that made it
deactivate, and the channel is activated again (descriptor 9). -/
def forward_epoch_change : List channel_op :=
  [.deactivate CLOSE_CHANNEL_RECEIVER, .deactivate CLOSE_CHANNEL_HELPER,
   .deactivate CLOSE_CHANNEL_SENDER, .store_epoch 7, .activate 9]

/-- A channel about to be closed: epoch 5, TCP descriptor 7, the helper and the
receiver have deactivated. -/
def channel_closing : channel_t :=
  { epoch := 5, fd := 7, active := 1,
    channel_state := CLOSE_CHANNEL_HELPER ||| CLOSE_CHANNEL_RECEIVER,
    need_help := 0, has_data := 0, number := 3 }

/-- A channel as `init_channels` leaves it. -/
def channel_init : channel_t :=
  { epoch := 0, fd := -1, active := 0, channel_state := CLOSE_CHANNEL_ALL,
    need_help := 0, has_data := 0, number := 0 }

/-- What one turn of the loop of `udp_receiver` leaves: the receive queues
`udpchans[i]->recv`, the pthread calls made and whether the process exits. -/
structure udp_turn_out where
  udpchans : List fq_t
  calls : List pthread_call
  exits : Bool
  deriving DecidableEq, Repr

/-- One turn of the loop of `udp_receiver`, after `mp3_recvfrom` has put a
datagram in `packet` and returned `len`.  `chan_num` is the macro
`PKT_CHAN_NUM`, which `relay.h` does not define.  The queue of channel `i` is
`udpchans[i]->recv`; its condition variable and mutex are named `i`.  The two
`printlog` calls, which evaluate `calculate_crc8 (packet, 255)`, change
nothing.  `none` when `chanNum` is not an index of `udpchans` or `fq_enqueue`
has no defined result. -/
def udp_receiver_turn (chan_num : List Nat → Int) (udpchans : List fq_t) (packet : List Nat)
    (len : Int) (env : pthread_env) : Option udp_turn_out :=
  if len ≥ 0 then
    let chanNum := chan_num packet
    if 0 ≤ chanNum ∧ chanNum < udpchans.length then
      match fq_enqueue udpchans[chanNum.toNat]? (some packet) len (some chanNum.toNat)
          (some chanNum.toNat) env with
      | none => none
      | some o =>
        match o.fq with
        | none => none
        | some q =>
          some { udpchans := udpchans.set chanNum.toNat q
                 calls := o.calls
                 exits := decide (o.rv ≠ FQ_OK ∧ o.rv ≠ FQ_ITEM_DISCARDED) }
    else none
  else some ⟨udpchans, [], false⟩

/-- The queue `udp_init` creates with `fq_create (&uct->recv, 32, MAX_PKT_LEN)`
when the heap blocks hold `-1` and `0xEE`. -/
def udp_recv_fresh : fq_t :=
  { queue_len := 33, item_len := 256, head := 0, tail := 0,
    length := (List.range 33).map fun _ => -1
    data := (List.range 8448).map fun _ => 0xEE }

/-- A datagram of 256 bytes: 255 zero bytes, then `0x01`. -/
def bad_crc_datagram : List Nat := List.replicate 255 0 ++ [1]

/-- The payload `"GET / HTTP/1.0\r\n\r\n"`, 18 bytes. -/
def get_payload : List Nat :=
  [0x47, 0x45, 0x54, 0x20, 0x2F, 0x20, 0x48, 0x54, 0x54, 0x50, 0x2F, 0x31, 0x2E, 0x30,
   0x0D, 0x0A, 0x0D, 0x0A]

/-- Bytes 0..254 of the frame that carries `get_payload` on channel 3 in epoch
5 with sequence number 0: the header `00 05 03 12`, the payload, zero fill. -/
def get_frame_body : List Nat :=
  [0x00, 0x05, 0x03, 0x12] ++ get_payload ++ List.replicate 233 0

/-- The 256-byte frame: `get_frame_body` and its CRC-8 in byte 255. -/
def get_frame : List Nat :=
  get_frame_body ++ [calculate_crc8 (get_frame_body.map Int.ofNat) 255]

/-- An active receiver that has dequeued `get_frame` (256 bytes) and expects
sequence number 0. -/
def receiver_get : receiver_t :=
  { packet := get_frame, len := 256, NFE := 0, seq_num := 0, epoch := 5,
    is_active := 1, buffer := [], bufferValid := [] }

/-- An environment in which the one `write` call takes all 251 bytes offered. -/
def env_write_all : relay_env := { env_example with writes := [251] }

/-- An active sender whose last acknowledged sequence number is 5 and that has
dequeued an ACK of epoch 5 with sequence number 5. -/
def sender_duplicate : sender_t :=
  { packet := [0x05, 5, 3, 0] ++ List.replicate 252 0, len := 256, LAR := 5, SEQ := 9, seq_num := 5, epoch := 5,
    is_active := 1, tcp_closed := 0, timeout := 0, buffer := [], bufferValid := [] }

/-- The operations of `k` uses of a channel, one after the other. -/
def channel_uses (k : Nat) : List channel_op :=
  (List.replicate k channel_use).flatten

/-- The state of the target relay after `init_channels` and one connection
accepted on descriptor 7. -/
def one_accepted : relay_state :=
  { chan_tab := activate_channel channel_init 7 :: List.replicate 15 channel_init
    channel_semaphore := 15 }

/-- What holds of the channel table between calls: it has `MAX_CHANNELS`
entries, a channel with `active == 0` has `channel_state == CLOSE_CHANNEL_ALL`,
any other channel has `active == 1` and a `channel_state` other than
`CLOSE_CHANNEL_ALL`, and the active channels and the semaphore add up to
`MAX_CHANNELS`. -/
def relay_inv (st : relay_state) : Prop :=
  st.chan_tab.length = MAX_CHANNELS ∧
  (∀ ct ∈ st.chan_tab, (ct.active = 0 ∧ ct.channel_state = CLOSE_CHANNEL_ALL) ∨
    (ct.active = 1 ∧ ct.channel_state ≠ CLOSE_CHANNEL_ALL)) ∧
  active_channels st + st.channel_semaphore = MAX_CHANNELS

/-! ## `relay.c`: further example states -/

/-- An active receiver expecting sequence number 0 that has dequeued a 256-byte
packet of epoch 5 with sequence number 1; every slot of its reorder buffer is
tagged valid. -/
def receiver_ahead : receiver_t :=
  { packet := [0x01, 0x05, 0x03, 0x00] ++ List.replicate 252 0, len := 256, NFE := 0,
    seq_num := 0, epoch := 5, is_active := 1, buffer := List.replicate 8192 0,
    bufferValid := List.replicate 32 1 }

/-- The receiver of `receiver_ahead` holding, instead, the packet with sequence
number 0 of the same epoch. -/
def receiver_in_order : receiver_t :=
  { receiver_ahead with packet := [0x00, 0x05, 0x03, 0x00] ++ List.replicate 252 0 }

/-- An active receiver expecting sequence number 0 that has dequeued the
256-byte packet of epoch 5 with sequence number 0 and the last bit set. -/
def receiver_last : receiver_t :=
  { packet := [0x80, 0x05, 0x03, 0x00] ++ List.replicate 252 0, len := 256, NFE := 0,
    seq_num := 0, epoch := 5, is_active := 1, buffer := [], bufferValid := [] }

/-- An active sender whose last acknowledged sequence number is 5 and that has
dequeued an ACK of epoch 5 with sequence number 7. -/
def sender_ahead : sender_t :=
  { packet := [0x07, 5, 3, 0] ++ List.replicate 252 0, len := 256, LAR := 5, SEQ := 9,
    seq_num := 5, epoch := 5, is_active := 1, tcp_closed := 0, timeout := 0, buffer := [],
    bufferValid := [] }

/-- A forward-mode channel between two uses: epoch 5, no TCP connection, every
worker has deactivated. -/
def channel_idle : channel_t :=
  { epoch := 5, fd := -1, active := 0, channel_state := CLOSE_CHANNEL_ALL,
    need_help := 0, has_data := 0, number := 3 }

/-- An inactive receiver (its `NFE` still 9 from the last use) that has dequeued
the 256-byte packet of epoch 6 with sequence number 0. -/
def receiver_idle : receiver_t :=
  { packet := [0x00, 0x06, 0x03, 0x00] ++ List.replicate 252 0, len := 256, NFE := 9,
    seq_num := 8, epoch := 5, is_active := 0, buffer := [], bufferValid := [] }

/-! ## `relay.c`: `my_write` against the outcomes of `write` -/

/-- The outcome of one `write` call: its return value and the value it leaves
in `errno`. -/
structure write_result where
  ret : Int
  errno : Int
  deriving DecidableEq, Repr

/-- The call `my_write (fd, buf, n)` run against the outcomes of its successive
`write` calls.  The code looks at the return value `once` only (also in
`once == EINTR`) and never reads `errno`. -/
def my_write_results (fd : Int) (buf : List Nat) (n : Nat) (rs : List write_result) :
    Option (Int × List relay_event) :=
  my_write fd buf n (rs.map fun r => r.ret)

/-- The bytes passed to the TCP socket by a list of events, in order. -/
def tcp_written : List relay_event → List Nat
  | [] => []
  | .tcp_write _ bytes :: ev => bytes ++ tcp_written ev
  | _ :: ev => tcp_written ev

/-! ## `relay.c`: the sender's framing of a packet -/

/-- Modelled from the spec: the seven-argument macro
`PKT_MAKE_HEADER (p, a, b, number, seq_num, epoch, len)` that `relay.c` calls and
that the given `relay.h` does not define.  The wire frame of the specification
has in byte 0 the last bit (bit 7) and the 7-bit sequence number, in byte 1 the
epoch, in byte 2 the channel number (0..15 for data, 16..31 for ACKs), in byte 3
the length of the payload, in bytes 4..254 the payload and in byte 255 the
CRC-8 of bytes 0..254.  The second argument is 1 for an ACK and 0 for data, the
third is the last bit of a data packet (`tcp_closed`); an ACK has the last bit
set.  Bytes 4..254 are left as they are. -/
def PKT_MAKE_HEADER7 (p : List Nat) (a b number seq_num epoch len : Int) : List Nat :=
  let p0 := p.set 0 ((if a ≠ 0 ∨ b ≠ 0 then 128 else 0) + (seq_num % 128).toNat)
  let p1 := p0.set 1 (epoch % 256).toNat
  let p2 := p1.set 2 ((number + 16 * a) % 256).toNat
  let p3 := p2.set 3 (len % 256).toNat
  p3.set 255 (calculate_crc8 ((p3.take 255).map Int.ofNat) 255)

/-- The loop `for (i = len+4; i<MAX_PKT_LEN-1; i+=1) packet[i] = 0;` of
`tcp_sender`, with `start` for `len + 4` (not negative). -/
def zero_fill (packet : List Nat) (start : Int) : List Nat :=
  (List.range (MAX_PKT_LEN - 1)).foldl
    (fun (p : List Nat) (i : Nat) => if start ≤ (i : Int) then p.set i 0 else p) packet

/-- The part of the loop body of `tcp_sender` under
`if (is_active && ct->has_data)`: read from the TCP connection, fill in and
send a packet.  `read_rv` is the value returned by
`read (ct->fd, packet + 4, MAX_PKT_LEN - 5)` and `data` the bytes it stored
from `packet + 4` on (`read_rv` of them when it is positive, none otherwise);
`make_header` is the seven-argument `PKT_MAKE_HEADER`. -/
def tcp_sender_send (mode : relay_mode_t)
    (make_header : List Nat → Int → Int → Int → Int → Int → Int → List Nat)
    (ct : channel_t) (s : sender_t) (read_rv : Int) (data : List Nat) :
    channel_t × sender_t × List relay_event :=
  if s.is_active ≠ 0 ∧ ct.has_data ≠ 0 then
    let ct1 : channel_t := { ct with has_data := 0 }
    let s1 : sender_t :=
      { s with len := read_rv
               packet := s.packet.take 4 ++ data ++ s.packet.drop (4 + data.length) }
    if s1.len < 0 then
      let d := deactivate_channel mode ct1 CLOSE_CHANNEL_SENDER
      (d.1, { s1 with is_active := 0 }, d.2)
    else
      let s2 : sender_t := if s1.len = 0 then { s1 with tcp_closed := 1 } else s1
      let s3 : sender_t := { s2 with packet := zero_fill s2.packet (s2.len + 4) }
      let s4 : sender_t :=
        { s3 with packet := make_header s3.packet 0 s3.tcp_closed ct1.number s3.SEQ ct1.epoch
                    s3.len }
      let s5 : sender_t := { s4 with SEQ := NEXT_SEQ_NUM s4.SEQ }
      (ct1, s5, [.udp_send (s5.packet.take 256)])
  else (ct, s, [])

/-- An active sender with sequence number 0 and a 256-byte packet array holding
`0xAA` in every byte. -/
def sender_ready : sender_t :=
  { packet := List.replicate 256 0xAA, len := 256, LAR := 127, SEQ := 0, seq_num := 0,
    epoch := 5, is_active := 1, tcp_closed := 0, timeout := 0, buffer := [], bufferValid := [] }

/-- The channel `channel_example` with data waiting on its TCP connection. -/
def channel_has_data : channel_t := { channel_example with has_data := 1 }

/-! ## Corruption of a frame -/

/-- The byte string `f` with bit `j` of byte `i` inverted. -/
def flip_bit (f : List Nat) (i j : Nat) : List Nat :=
  f.set i (f.getD i 0 ^^^ 2 ^ j)

/-! ## Properties of the FIFO queue -/

theorem int_emod_wrap (a n : Int) (h1 : n ≤ a) (h2 : a < 2 * n) : a % n = a - n := by
  have h : a % n = (a - n) % n := by
    rw [Int.sub_emod, Int.emod_self, sub_zero, Int.emod_emod]
  rw [h]
  exact Int.emod_eq_of_lt (by omega) (by omega)

theorem int_emod_neg (a n : Int) (h1 : -n ≤ a) (h2 : a < 0) : a % n = a + n := by
  have h : a % n = (a + n) % n := by
    rw [Int.add_emod, Int.emod_self, add_zero, Int.emod_emod]
  rw [h]
  exact Int.emod_eq_of_lt (by omega) (by omega)

theorem int_tmod_succ (a n : Int) (h0 : 0 ≤ a) (h1 : a < n) :
    Int.tmod (a + 1) n = if a + 1 = n then 0 else a + 1 := by
  rw [Int.tmod_eq_emod (by omega) (by omega)]
  split
  · next h => rw [h, Int.emod_self]
  · next h => exact Int.emod_eq_of_lt (by omega) (by omega)

theorem fq_count_eq (q : fq_t) (h3 : 0 ≤ q.head) (h4 : q.head < q.queue_len)
    (h5 : 0 ≤ q.tail) (h6 : q.tail < q.queue_len) :
    fq_count q = if q.head ≤ q.tail then q.tail - q.head else q.tail - q.head + q.queue_len := by
  unfold fq_count
  split
  · exact Int.emod_eq_of_lt (by omega) (by omega)
  · exact int_emod_neg _ _ (by omega) (by omega)

theorem fq_slot_eq (q : fq_t) (h3 : 0 ≤ q.head) (h4 : q.head < q.queue_len)
    (j : Nat) (hj : (j : Int) < q.queue_len) :
    fq_slot q j = if q.head + j < q.queue_len then q.head + j else q.head + j - q.queue_len := by
  unfold fq_slot
  split
  · exact Int.emod_eq_of_lt (by omega) (by omega)
  · exact int_emod_wrap _ _ (by omega) (by omega)

theorem splice_getElem? (dst B : List Nat) (p k : Nat) (hp : p + B.length ≤ dst.length)
    (hk : k < p ∨ p + B.length ≤ k) :
    (dst.take p ++ B ++ dst.drop (p + B.length))[k]? = dst[k]? := by
  rcases hk with hk | hk
  · rw [List.append_assoc, List.getElem?_append_left (by simp; omega), List.getElem?_take_of_lt hk]
  · rw [List.getElem?_append_right (by simp; omega), List.getElem?_drop]
    congr 1
    simp
    omega

theorem splice_length (dst B : List Nat) (p : Nat) (hp : p + B.length ≤ dst.length) :
    (dst.take p ++ B ++ dst.drop (p + B.length)).length = dst.length := by
  simp
  omega

theorem splice_window (dst B : List Nat) (p : Nat) (hp : p + B.length ≤ dst.length) :
    ((dst.take p ++ B ++ dst.drop (p + B.length)).drop p).take B.length = B := by
  rw [List.append_assoc, List.drop_left' (by simp; omega), List.take_left' rfl]

theorem window_congr (d1 d2 : List Nat) (a m : Nat)
    (h : ∀ k, a ≤ k → k < a + m → d1[k]? = d2[k]?) :
    (d1.drop a).take m = (d2.drop a).take m := by
  apply List.ext_getElem?
  intro i
  by_cases hi : i < m
  · rw [List.getElem?_take_of_lt hi, List.getElem?_take_of_lt hi, List.getElem?_drop, List.getElem?_drop]
    exact h _ (by omega) (by omega)
  · rw [List.getElem?_take_eq_none (by omega), List.getElem?_take_eq_none (by omega)]

theorem slot_bound (q : fq_t) (h : fq_wf q) (s n : Int) (hs0 : 0 ≤ s) (hs : s < q.queue_len)
    (hn : n ≤ q.item_len) : 0 ≤ s * q.item_len ∧ s * q.item_len + n ≤ q.data.length := by
  obtain ⟨h1, h2, h3, h4, h5, h6, h7, h8, -⟩ := h
  rw [h8]
  constructor
  · positivity
  · have : (s + 1) * q.item_len ≤ q.queue_len * q.item_len :=
      Int.mul_le_mul_of_nonneg_right (by omega) (by omega)
    have e : (s + 1) * q.item_len = s * q.item_len + q.item_len := by ring
    omega

theorem fq_enqueue_eq (q : fq_t) (h : fq_wf q) (b : List Nat) (n : Int)
    (cond lock : Option Nat) (env : pthread_env)
    (hn0 : 0 ≤ n) (hn : n ≤ q.item_len) (hb : n ≤ b.length)
    (hnf : Int.tmod (q.tail + 1) q.queue_len ≠ q.head) :
    ∃ rv calls, fq_enqueue (some q) (some b) n cond lock env = some ⟨rv, some (fq_push q b n), calls⟩
      ∧ (rv = FQ_OK ∨ rv = FQ_POSIX_MUTEX_FAILURE ∨ rv = FQ_POSIX_COND_FAILURE)
      ∧ (fq_call_pthread_ok (.enqueue (some b) n cond lock env) → rv = FQ_OK) := by
  have hsb := slot_bound q h q.tail n h.2.2.2.2.1 h.2.2.2.2.2.1 hn
  have hlen := h.2.2.2.2.2.2.1
  have ht0 := h.2.2.2.2.1
  have ht1 := h.2.2.2.2.2.1
  have hm : memcpy q.data (q.tail * q.item_len) b 0 n = some (fq_push q b n).data := by
    unfold memcpy
    rw [if_pos ⟨hsb.1, le_refl _, hn0, hsb.2, by omega⟩]
    rfl
  have hs : arr_set q.length q.tail n = some (fq_push q b n).length := by
    unfold arr_set
    rw [if_pos ⟨ht0, by omega⟩]
    rfl
  unfold fq_enqueue
  simp only []
  rw [if_neg (by omega), if_neg hnf, hm]
  simp only [hs]
  cases cond with
  | none => exact ⟨FQ_OK, [], rfl, Or.inl rfl, fun _ => rfl⟩
  | some c =>
    simp only []
    split
    · unfold fq_signal
      cases lock with
      | none =>
        simp only []
        by_cases e2 : env.cond_signal = 0
        · rw [if_neg (by simpa using e2)]
          exact ⟨_, _, rfl, Or.inl rfl, fun _ => rfl⟩
        · rw [if_pos e2]
          refine ⟨_, _, rfl, Or.inr (Or.inr rfl), fun hh => ?_⟩
          rcases hh with hh | hh
          · cases hh
          · exact absurd hh.2.1 e2
      | some l =>
        simp only []
        by_cases e1 : env.mutex_lock = 0
        · rw [if_neg (by simpa using e1)]
          by_cases e2 : env.cond_signal = 0
          · rw [if_neg (by simpa using e2)]
            by_cases e3 : env.mutex_unlock = 0
            · rw [if_neg (by simpa using e3)]
              exact ⟨_, _, rfl, Or.inl rfl, fun _ => rfl⟩
            · rw [if_pos e3]
              refine ⟨_, _, rfl, Or.inr (Or.inl rfl), fun hh => ?_⟩
              rcases hh with hh | hh
              · cases hh
              · exact absurd hh.2.2 e3
          · rw [if_pos e2]
            refine ⟨_, _, rfl, Or.inr (Or.inr rfl), fun hh => ?_⟩
            rcases hh with hh | hh
            · cases hh
            · exact absurd hh.2.1 e2
        · rw [if_pos e1]
          refine ⟨_, _, rfl, Or.inr (Or.inl rfl), fun hh => ?_⟩
          rcases hh with hh | hh
          · cases hh
          · exact absurd hh.1 e1
    · exact ⟨FQ_OK, [], rfl, Or.inl rfl, fun _ => rfl⟩

theorem fq_push_item_tail (q : fq_t) (h : fq_wf q) (b : List Nat) (n : Int)
    (hn0 : 0 ≤ n) (hn : n ≤ q.item_len) (hb : n ≤ b.length) :
    fq_item_at (fq_push q b n) q.tail = (n, b.take n.toNat) := by
  have hsb := slot_bound q h q.tail n h.2.2.2.2.1 h.2.2.2.2.2.1 hn
  have hlen := h.2.2.2.2.2.2.1
  have ht0 := h.2.2.2.2.1
  have ht1 := h.2.2.2.2.2.1
  have hl : (q.length.set q.tail.toNat n).getD q.tail.toNat 0 = n := by
    have : q.tail.toNat < q.length.length := by omega
    simp [List.getD_eq_getElem?_getD, this]
  unfold fq_item_at fq_push
  simp only [hl]
  congr 1
  have hB : ((b.drop (0 : Int).toNat).take n.toNat).length = n.toNat := by
    simp
    omega
  have e : (q.tail * q.item_len + n).toNat = (q.tail * q.item_len).toNat
      + ((b.drop (0 : Int).toNat).take n.toNat).length := by
    rw [hB]; omega
  rw [e]
  have := splice_window q.data ((b.drop (0 : Int).toNat).take n.toNat)
    (q.tail * q.item_len).toNat (by rw [hB]; omega)
  rw [hB] at this
  rw [hB, this]
  simp

theorem fq_push_item_other (q : fq_t) (h : fq_wf q) (b : List Nat) (n : Int)
    (hn0 : 0 ≤ n) (hn : n ≤ q.item_len) (hb : n ≤ b.length)
    (s : Int) (hs0 : 0 ≤ s) (hs1 : s < q.queue_len) (hst : s ≠ q.tail)
    (hsl : (fq_item_at q s).1 ≤ q.item_len) :
    fq_item_at (fq_push q b n) s = fq_item_at q s := by
  have hsb := slot_bound q h q.tail n h.2.2.2.2.1 h.2.2.2.2.2.1 hn
  have hss := slot_bound q h s q.item_len hs0 hs1 (le_refl _)
  have hlen := h.2.2.2.2.2.2.1
  have ht0 := h.2.2.2.2.1
  have ht1 := h.2.2.2.2.2.1
  have hL := h.2.1
  have hl : (q.length.set q.tail.toNat n).getD s.toNat 0 = q.length.getD s.toNat 0 := by
    have : q.tail.toNat ≠ s.toNat := by omega
    simp [List.getD_eq_getElem?_getD, List.getElem?_set_ne this]
  unfold fq_item_at at hsl ⊢
  unfold fq_push
  simp only [hl] at hsl ⊢
  congr 1
  have hB : ((b.drop (0 : Int).toNat).take n.toNat).length = n.toNat := by
    simp
    omega
  have e : (q.tail * q.item_len + n).toNat = (q.tail * q.item_len).toNat
      + ((b.drop (0 : Int).toNat).take n.toNat).length := by
    rw [hB]; omega
  rw [e]
  apply window_congr
  intro k hk1 hk2
  apply splice_getElem?
  · rw [hB]; omega
  · rw [hB]
    rcases lt_or_gt_of_ne hst with hlt | hgt
    · left
      have : (s + 1) * q.item_len ≤ q.tail * q.item_len :=
        Int.mul_le_mul_of_nonneg_right (by omega) (by omega)
      have e2 : (s + 1) * q.item_len = s * q.item_len + q.item_len := by ring
      omega
    · right
      have : (q.tail + 1) * q.item_len ≤ s * q.item_len :=
        Int.mul_le_mul_of_nonneg_right (by omega) (by omega)
      have e2 : (q.tail + 1) * q.item_len = q.tail * q.item_len + q.item_len := by ring
      omega

theorem int_sub_emod (h t n : Int) (h3 : 0 ≤ h) (h4 : h < n) (h5 : 0 ≤ t) (h6 : t < n) :
    (t - h) % n = if h ≤ t then t - h else t - h + n := by
  split
  · exact Int.emod_eq_of_lt (by omega) (by omega)
  · exact int_emod_neg _ _ (by omega) (by omega)

theorem fq_push_count (q : fq_t) (h : fq_wf q) (b : List Nat) (n : Int)
    (hnf : Int.tmod (q.tail + 1) q.queue_len ≠ q.head) :
    fq_count (fq_push q b n) = fq_count q + 1 ∧ fq_count q + 1 < q.queue_len
      ∧ 0 ≤ fq_count q := by
  obtain ⟨h1, h2, h3, h4, h5, h6, -⟩ := h
  have ht := int_tmod_succ q.tail q.queue_len h5 h6
  have hc := fq_count_eq q h3 h4 h5 h6
  have hpc : fq_count (fq_push q b n)
      = (Int.tmod (q.tail + 1) q.queue_len - q.head) % q.queue_len := rfl
  rw [hpc, hc]
  rw [ht] at hnf ⊢
  split at hnf
  · next e =>
    rw [if_pos e, int_sub_emod _ _ _ h3 h4 (le_refl _) (by omega)]
    split <;> split <;> omega
  · next e =>
    rw [if_neg e, int_sub_emod _ _ _ h3 h4 (by omega) (by omega)]
    split <;> split <;> omega

theorem fq_slot_tail (q : fq_t) (h : fq_wf q) (j : Nat) (hj : (j : Int) ≤ fq_count q) :
    0 ≤ fq_slot q j ∧ fq_slot q j < q.queue_len ∧
      (fq_slot q j = q.tail ↔ (j : Int) = fq_count q) := by
  obtain ⟨h1, h2, h3, h4, h5, h6, -⟩ := h
  have hc := fq_count_eq q h3 h4 h5 h6
  have hjN : (j : Int) < q.queue_len := by
    rw [hc] at hj; split at hj <;> omega
  have hs := fq_slot_eq q h3 h4 j hjN
  rw [hs, hc]
  rw [hc] at hj
  split <;> split <;> split at hj <;> omega

theorem fq_push_wf (q : fq_t) (h : fq_wf q) (b : List Nat) (n : Int)
    (hn0 : 0 ≤ n) (hn : n ≤ q.item_len) (hb : n ≤ b.length)
    (hnf : Int.tmod (q.tail + 1) q.queue_len ≠ q.head) : fq_wf (fq_push q b n) := by
  have hcnt := fq_push_count q h b n hnf
  have hsb := slot_bound q h q.tail n h.2.2.2.2.1 h.2.2.2.2.2.1 hn
  obtain ⟨h1, h2, h3, h4, h5, h6, h7, h8, h9⟩ := id h
  have ht := int_tmod_succ q.tail q.queue_len h5 h6
  refine ⟨h1, h2, h3, h4, ?_, ?_, ?_, ?_, ?_⟩
  · simp only [fq_push, ht]; split <;> omega
  · simp only [fq_push, ht]; split <;> omega
  · simp only [fq_push, List.length_set]; exact h7
  · have hB : ((b.drop (0 : Int).toNat).take n.toNat).length = n.toNat := by
      simp
      omega
    have e : (q.tail * q.item_len + n).toNat = (q.tail * q.item_len).toNat
        + ((b.drop (0 : Int).toNat).take n.toNat).length := by
      rw [hB]; omega
    simp only [fq_push]
    rw [e, splice_length _ _ _ (by rw [hB]; omega)]
    exact h8
  · intro j hj
    rw [hcnt.1] at hj
    have hst := fq_slot_tail q h j (by omega)
    have hsl : fq_slot (fq_push q b n) j = fq_slot q j := rfl
    rw [hsl]
    by_cases hjc : (j : Int) = fq_count q
    · rw [hst.2.2.mpr hjc, fq_push_item_tail q h b n hn0 hn hb]
      exact ⟨hn0, hn⟩
    · have hne : fq_slot q j ≠ q.tail := fun e => hjc (hst.2.2.mp e)
      have hb9 := h9 j (by omega)
      rw [fq_push_item_other q h b n hn0 hn hb _ hst.1 hst.2.1 hne hb9.2]
      exact hb9

theorem fq_push_items (q : fq_t) (h : fq_wf q) (b : List Nat) (n : Int)
    (hn0 : 0 ≤ n) (hn : n ≤ q.item_len) (hb : n ≤ b.length)
    (hnf : Int.tmod (q.tail + 1) q.queue_len ≠ q.head) :
    fq_items (fq_push q b n) = fq_items q ++ [(n, b.take n.toNat)] := by
  have hcnt := fq_push_count q h b n hnf
  have h9 := h.2.2.2.2.2.2.2.2
  unfold fq_items
  have e : (fq_count (fq_push q b n)).toNat = (fq_count q).toNat + 1 := by
    rw [hcnt.1]; omega
  rw [e, List.range_succ, List.map_append, List.map_singleton]
  congr 1
  · apply List.map_congr_left
    intro j hj
    rw [List.mem_range] at hj
    have hst := fq_slot_tail q h j (by omega)
    have hsl : fq_slot (fq_push q b n) j = fq_slot q j := rfl
    rw [hsl]
    have hne : fq_slot q j ≠ q.tail := fun e => by
      have := hst.2.2.mp e
      omega
    exact fq_push_item_other q h b n hn0 hn hb _ hst.1 hst.2.1 hne (h9 j (by omega)).2
  · have hst := fq_slot_tail q h (fq_count q).toNat (by omega)
    have hsl : fq_slot (fq_push q b n) (fq_count q).toNat = fq_slot q (fq_count q).toNat := rfl
    rw [hsl, hst.2.2.mpr (by omega), fq_push_item_tail q h b n hn0 hn hb]

theorem fq_pop_count (q : fq_t) (h : fq_wf q) (hne : q.head ≠ q.tail) :
    fq_count q = fq_count (fq_pop q) + 1 ∧ 0 ≤ fq_count (fq_pop q)
      ∧ fq_count q < q.queue_len := by
  obtain ⟨h1, h2, h3, h4, h5, h6, -⟩ := h
  have ht := int_tmod_succ q.head q.queue_len h3 h4
  have hc := fq_count_eq q h3 h4 h5 h6
  have hpc : fq_count (fq_pop q)
      = (q.tail - Int.tmod (q.head + 1) q.queue_len) % q.queue_len := rfl
  rw [hpc, hc, ht]
  by_cases e : q.head + 1 = q.queue_len
  · rw [if_pos e, int_sub_emod _ _ _ (le_refl _) (by omega) h5 h6]
    split <;> omega
  · rw [if_neg e, int_sub_emod _ _ _ (by omega) (by omega) h5 h6]
    split <;> omega

theorem fq_pop_slot (q : fq_t) (h : fq_wf q) (j : Nat) (hj : (j : Int) + 1 < q.queue_len) :
    fq_slot (fq_pop q) j = fq_slot q (j + 1) := by
  obtain ⟨h1, h2, h3, h4, h5, h6, -⟩ := h
  have ht := int_tmod_succ q.head q.queue_len h3 h4
  have hps : fq_slot (fq_pop q) j
      = (Int.tmod (q.head + 1) q.queue_len + j) % q.queue_len := rfl
  have hqs : fq_slot q (j + 1) = (q.head + (j + 1)) % q.queue_len := by
    unfold fq_slot; push_cast; rfl
  rw [hps, hqs, ht]
  by_cases e : q.head + 1 = q.queue_len
  · have e1 : (0 + (j : Int)) % q.queue_len = j := by
      rw [Int.zero_add]
      exact Int.emod_eq_of_lt (by omega) (by omega)
    have e2 : (q.head + ((j : Int) + 1)) % q.queue_len = q.head + (j + 1) - q.queue_len :=
      int_emod_wrap _ _ (by omega) (by omega)
    rw [if_pos e, e1, e2]
    omega
  · rw [if_neg e]
    congr 1
    omega

theorem fq_slot_zero (q : fq_t) (h : fq_wf q) : fq_slot q 0 = q.head := by
  obtain ⟨h1, h2, h3, h4, h5, h6, -⟩ := h
  unfold fq_slot
  simpa using Int.emod_eq_of_lt h3 h4

theorem fq_pop_wf (q : fq_t) (h : fq_wf q) (hne : q.head ≠ q.tail) : fq_wf (fq_pop q) := by
  have hcnt := fq_pop_count q h hne
  obtain ⟨h1, h2, h3, h4, h5, h6, h7, h8, h9⟩ := id h
  have ht := int_tmod_succ q.head q.queue_len h3 h4
  refine ⟨h1, h2, ?_, ?_, h5, h6, h7, h8, ?_⟩
  · simp only [fq_pop, ht]; split <;> omega
  · simp only [fq_pop, ht]; split <;> omega
  · intro j hj
    rw [fq_pop_slot q h j (by omega)]
    have := h9 (j + 1) (by push_cast; omega)
    exact this

theorem fq_pop_items (q : fq_t) (h : fq_wf q) (hne : q.head ≠ q.tail) :
    fq_items q = fq_item_at q q.head :: fq_items (fq_pop q) := by
  have hcnt := fq_pop_count q h hne
  unfold fq_items
  have e : (fq_count q).toNat = (fq_count (fq_pop q)).toNat + 1 := by omega
  rw [e, List.range_succ_eq_map, List.map_cons, fq_slot_zero q h, List.map_map]
  congr 1
  apply List.map_congr_left
  intro j hj
  rw [List.mem_range] at hj
  simp only [Function.comp]
  rw [fq_pop_slot q h j (by omega)]
  rfl

theorem fq_head_item (q : fq_t) (h : fq_wf q) (hne : q.head ≠ q.tail) :
    arr_get q.length q.head = some (fq_item_at q q.head).1 ∧
      0 ≤ (fq_item_at q q.head).1 ∧ (fq_item_at q q.head).1 ≤ q.item_len := by
  have hcnt := fq_pop_count q h hne
  obtain ⟨h1, h2, h3, h4, h5, h6, h7, h8, h9⟩ := id h
  have h0 := h9 0 (by push_cast; omega)
  rw [fq_slot_zero q h] at h0
  refine ⟨?_, h0⟩
  unfold arr_get fq_item_at
  rw [if_pos ⟨h3, by omega⟩]
  have : q.head.toNat < q.length.length := by omega
  simp [List.getD_eq_getElem?_getD, List.getElem?_eq_getElem this]

theorem fq_dequeue_eq (q : fq_t) (h : fq_wf q) (b : List Nat) (bl : Int)
    (hne : q.head ≠ q.tail) (hfit : (fq_item_at q q.head).1 ≤ bl)
    (hb : (fq_item_at q q.head).1 ≤ b.length) :
    fq_dequeue (some q) (some b) (some bl) = some ⟨FQ_OK, some (fq_pop q),
      some ((fq_item_at q q.head).2 ++ b.drop (fq_item_at q q.head).1.toNat),
      some (fq_item_at q q.head).1⟩ := by
  obtain ⟨hg, hl0, hl1⟩ := fq_head_item q h hne
  have hsb := slot_bound q h q.head _ h.2.2.1 h.2.2.2.1 hl1
  have hm : memcpy b 0 q.data (q.head * q.item_len) (fq_item_at q q.head).1
      = some ((fq_item_at q q.head).2 ++ b.drop (fq_item_at q q.head).1.toNat) := by
    unfold memcpy
    rw [if_pos ⟨le_refl _, hsb.1, hl0, by omega, hsb.2⟩]
    simp [fq_item_at]
  unfold fq_dequeue
  simp only []
  rw [if_neg (by omega), if_neg hne, hg]
  simp only []
  rw [if_neg (by omega), hm]
  rfl

theorem fq_dequeue_inadequate (q : fq_t) (h : fq_wf q) (b : List Nat) (bl : Int)
    (hne : q.head ≠ q.tail) (hbl : 0 ≤ bl) (hfit : bl < (fq_item_at q q.head).1) :
    fq_dequeue (some q) (some b) (some bl)
      = some ⟨FQ_INADEQUATE_SPACE, some q, some b, some bl⟩ := by
  obtain ⟨hg, hl0, hl1⟩ := fq_head_item q h hne
  unfold fq_dequeue
  simp only []
  rw [if_neg (by omega), if_neg hne, hg]
  simp only []
  rw [if_pos (by omega)]

theorem fq_item_at_length (q : fq_t) (h : fq_wf q) (s : Int) (hs0 : 0 ≤ s)
    (hs1 : s < q.queue_len) (hl : (fq_item_at q s).1 ≤ q.item_len) :
    ((fq_item_at q s).2.length : Int) = max (fq_item_at q s).1 0 := by
  have hsb := slot_bound q h s _ hs0 hs1 hl
  have hsb0 := slot_bound q h s 0 hs0 hs1 (by have := h.2.1; omega)
  unfold fq_item_at at hsb hl ⊢
  simp only [List.length_take, List.length_drop] at hsb hl ⊢
  omega

theorem fq_step_spec (q : fq_t) (h : fq_wf q) (c : fq_call) (hv : fq_call_valid q.item_len c) :
    ∃ r q1, fq_step q c = some (r, q1) ∧ fq_wf q1 ∧ q1.item_len = q.item_len ∧
      q1.queue_len = q.queue_len ∧
      fq_items q ++ (enq_item_if (fun rv =>
        rv = FQ_OK ∨ rv = FQ_POSIX_MUTEX_FAILURE ∨ rv = FQ_POSIX_COND_FAILURE) (c, r)).toList
        = (deq_item (c, r)).toList ++ fq_items q1 ∧
      (fq_call_pthread_ok c →
        enq_item_if (fun rv =>
          rv = FQ_OK ∨ rv = FQ_POSIX_MUTEX_FAILURE ∨ rv = FQ_POSIX_COND_FAILURE) (c, r)
        = enq_item_if (fun rv => rv = FQ_OK) (c, r)) := by
  cases c with
  | enqueue buf n cond lock env =>
    cases buf with
    | none => exact ⟨_, _, rfl, h, rfl, rfl, by simp [enq_item_if, deq_item], fun _ => rfl⟩
    | some b =>
      by_cases hbad : n < 0 ∨ n > q.item_len
      · refine ⟨.enq ⟨FQ_BAD_PARAMETER, some q, []⟩, q, ?_, h, rfl, rfl,
          by simp [enq_item_if, deq_item], fun _ => by simp [enq_item_if]⟩
        simp [fq_step, fq_enqueue, hbad]
      · by_cases hfull : Int.tmod (q.tail + 1) q.queue_len = q.head
        · refine ⟨.enq ⟨FQ_ITEM_DISCARDED, some q, []⟩, q, ?_, h, rfl, rfl,
            by simp [enq_item_if, deq_item], fun _ => by simp [enq_item_if]⟩
          simp [fq_step, fq_enqueue, hbad, hfull]
        · have hb : n ≤ b.length := hv
          obtain ⟨rv, calls, he, hrv, hok⟩ :=
            fq_enqueue_eq q h b n cond lock env (by omega) (by omega) hb hfull
          refine ⟨.enq ⟨rv, some (fq_push q b n), calls⟩, fq_push q b n, ?_,
            fq_push_wf q h b n (by omega) (by omega) hb hfull, rfl, rfl, ?_, ?_⟩
          · simp [fq_step, he]
          · rw [fq_push_items q h b n (by omega) (by omega) hb hfull]
            have : (decide (rv = FQ_OK ∨ rv = FQ_POSIX_MUTEX_FAILURE ∨
                rv = FQ_POSIX_COND_FAILURE)) = true := by simpa using hrv
            simp [enq_item_if, deq_item, this]
          · intro hp
            have := hok hp
            simp [enq_item_if, this]
  | dequeue buf bl =>
    cases buf with
    | none => exact ⟨_, _, rfl, h, rfl, rfl, by simp [enq_item_if, deq_item], fun _ => rfl⟩
    | some b =>
      cases bl with
      | none => exact absurd hv (by simp [fq_call_valid])
      | some v =>
        have hb : q.item_len ≤ b.length := hv
        by_cases hneg : v < 0
        · refine ⟨.deq ⟨FQ_BAD_PARAMETER, some q, some b, some v⟩, q, ?_, h, rfl, rfl,
            by simp [enq_item_if, deq_item], fun _ => rfl⟩
          simp [fq_step, fq_dequeue, hneg]
        · by_cases hemp : q.head = q.tail
          · refine ⟨.deq ⟨FQ_QUEUE_EMPTY, some q, some b, some v⟩, q, ?_, h, rfl, rfl,
              by simp [enq_item_if, deq_item], fun _ => rfl⟩
            simp [fq_step, fq_dequeue, hneg, hemp]
          · obtain ⟨hg, hl0, hl1⟩ := fq_head_item q h hemp
            by_cases hfit : (fq_item_at q q.head).1 ≤ v
            · refine ⟨.deq ⟨FQ_OK, some (fq_pop q),
                some ((fq_item_at q q.head).2 ++ b.drop (fq_item_at q q.head).1.toNat),
                some (fq_item_at q q.head).1⟩, fq_pop q, ?_, fq_pop_wf q h hemp, rfl, rfl,
                ?_, fun _ => rfl⟩
              · simp [fq_step, fq_dequeue_eq q h b v hemp hfit (by omega)]
              · rw [fq_pop_items q h hemp]
                have hlen := fq_item_at_length q h q.head h.2.2.1 h.2.2.2.1 hl1
                have : ((fq_item_at q q.head).2 ++
                    b.drop (fq_item_at q q.head).1.toNat).take (fq_item_at q q.head).1.toNat
                    = (fq_item_at q q.head).2 := by
                  rw [List.take_left' (by omega)]
                simp [enq_item_if, deq_item, this]
            · refine ⟨.deq ⟨FQ_INADEQUATE_SPACE, some q, some b, some v⟩, q, ?_, h, rfl, rfl,
                by simp [enq_item_if, deq_item], fun _ => rfl⟩
              simp [fq_step, fq_dequeue_inadequate q h b v hemp (by omega) (by omega)]

theorem fq_create_ok (queue_len item_len : Int) (heap : heap_t) (q0 : fq_t)
    (hc : fq_create false queue_len item_len heap = (FQ_OK, some q0)) :
    fq_wf q0 ∧ fq_items q0 = [] ∧ q0.item_len = item_len ∧ q0.queue_len = queue_len + 1 ∧
      q0.head = 0 ∧ q0.tail = 0 := by
  unfold fq_create at hc
  split at hc
  · cases hc
  · next hpar =>
    simp only [FQ_MAX_QUEUE_LEN, FQ_MAX_ITEM_LEN, not_or, not_lt] at hpar
    split at hc
    · cases hc
    · split at hc
      · cases hc
      · split at hc
        · cases hc
        · simp only [Prod.mk.injEq, Option.some.injEq, true_and] at hc
          subst hc
          have hpos : 0 ≤ (queue_len + 1) * item_len := by
            apply Int.mul_nonneg <;> omega
          refine ⟨⟨by simp only []; omega, by simp only []; omega, le_refl _, by simp only []; omega,
            le_refl _, by simp only []; omega, ?_, ?_, ?_⟩, ?_, rfl, rfl, rfl, rfl⟩
          · simp only [List.length_map, List.length_range]; omega
          · simp only [List.length_map, List.length_range]; omega
          · intro j hj
            simp only [fq_count, sub_self, Int.zero_emod] at hj
            omega
          · simp [fq_items, fq_count]

theorem fq_run_spec (calls : List fq_call) : ∀ (q : fq_t), fq_wf q →
    (∀ c ∈ calls, fq_call_valid q.item_len c) →
    ∃ tr q1, fq_run q calls = some (tr, q1) ∧ fq_wf q1 ∧ q1.item_len = q.item_len ∧
      q1.queue_len = q.queue_len ∧ tr.map Prod.fst = calls ∧
      fq_items q ++ enqueued_stored tr = dequeued_ok tr ++ fq_items q1 ∧
      ((∀ c ∈ calls, fq_call_pthread_ok c) → enqueued_stored tr = enqueued_ok tr) := by
  induction calls with
  | nil =>
    intro q h _
    exact ⟨[], q, rfl, h, rfl, rfl, rfl, by simp [enqueued_stored, dequeued_ok], fun _ => rfl⟩
  | cons c cs ih =>
    intro q h hv
    obtain ⟨r, q1, hs, hw1, hi1, hq1, hitems, hok⟩ :=
      fq_step_spec q h c (hv c (List.mem_cons_self _ _))
    obtain ⟨tr, q2, hr, hw2, hi2, hq2, hmap, hitems2, hok2⟩ := ih q1 hw1 (by
      intro c' hc'
      rw [hi1]
      exact hv c' (List.mem_cons_of_mem _ hc'))
    refine ⟨(c, r) :: tr, q2, ?_, hw2, by rw [hi2, hi1], by rw [hq2, hq1], by simp [hmap],
      ?_, ?_⟩
    · simp [fq_run, hs, hr]
    · have e1 : enqueued_stored ((c, r) :: tr) = (enq_item_if (fun rv =>
          rv = FQ_OK ∨ rv = FQ_POSIX_MUTEX_FAILURE ∨ rv = FQ_POSIX_COND_FAILURE) (c, r)).toList
          ++ enqueued_stored tr := by
        unfold enqueued_stored
        rw [List.filterMap_cons]
        cases enq_item_if _ (c, r) <;> rfl
      have e2 : dequeued_ok ((c, r) :: tr) = (deq_item (c, r)).toList ++ dequeued_ok tr := by
        unfold dequeued_ok
        rw [List.filterMap_cons]
        cases deq_item (c, r) <;> rfl
      rw [e1, e2, ← List.append_assoc, hitems, List.append_assoc, hitems2, List.append_assoc]
    · intro hp
      have h1 := hok (hp c (List.mem_cons_self _ _))
      have h2 := hok2 (fun c' hc' => hp c' (List.mem_cons_of_mem _ hc'))
      unfold enqueued_stored enqueued_ok at h2 ⊢
      rw [List.filterMap_cons, List.filterMap_cons, h1, h2]

theorem memcpy_some (dst : List Nat) (doff : Int) (src : List Nat) (soff n : Int)
    (r : List Nat) (h : memcpy dst doff src soff n = some r) :
    0 ≤ doff ∧ 0 ≤ soff ∧ 0 ≤ n ∧ doff + n ≤ dst.length ∧ soff + n ≤ src.length := by
  unfold memcpy at h
  split at h
  · next hc => exact hc
  · cases h

theorem fq_step_wf (q : fq_t) (h : fq_wf q) (c : fq_call) (r : fq_ret) (q1 : fq_t)
    (hs : fq_step q c = some (r, q1)) :
    fq_wf q1 ∧ q1.item_len = q.item_len ∧ q1.queue_len = q.queue_len := by
  cases c with
  | enqueue buf n cond lock env =>
    cases buf with
    | none =>
      simp only [fq_step, fq_enqueue, Option.map_some', Option.some.injEq, Prod.mk.injEq] at hs
      rw [← hs.2]
      exact ⟨h, rfl, rfl⟩
    | some b =>
      have hval : n < 0 ∨ n > q.item_len ∨ Int.tmod (q.tail + 1) q.queue_len = q.head
          ∨ fq_call_valid q.item_len (.enqueue (some b) n cond lock env) := by
        by_cases h1 : n < 0 ∨ n > q.item_len
        · rcases h1 with h1 | h1
          · exact Or.inl h1
          · exact Or.inr (Or.inl h1)
        · by_cases h2 : Int.tmod (q.tail + 1) q.queue_len = q.head
          · exact Or.inr (Or.inr (Or.inl h2))
          · right; right; right
            simp only [fq_step, fq_enqueue, if_neg h1, if_neg h2] at hs
            cases hm : memcpy q.data (q.tail * q.item_len) b 0 n with
            | none => rw [hm] at hs; cases hs
            | some d =>
              have := memcpy_some _ _ _ _ _ _ hm
              simp only [fq_call_valid]
              omega
      by_cases hbad : n < 0 ∨ n > q.item_len
      · simp only [fq_step, fq_enqueue, if_pos hbad, Option.map_some', Option.some.injEq,
          Prod.mk.injEq] at hs
        rw [← hs.2]
        exact ⟨h, rfl, rfl⟩
      · by_cases hfull : Int.tmod (q.tail + 1) q.queue_len = q.head
        · simp only [fq_step, fq_enqueue, if_neg hbad, if_pos hfull, Option.map_some',
            Option.some.injEq, Prod.mk.injEq] at hs
          rw [← hs.2]
          exact ⟨h, rfl, rfl⟩
        · have hv : fq_call_valid q.item_len (.enqueue (some b) n cond lock env) := by
            rcases hval with h1 | h1 | h1 | h1
            · exact absurd (Or.inl h1) hbad
            · exact absurd (Or.inr h1) hbad
            · exact absurd h1 hfull
            · exact h1
          obtain ⟨r', q', hs', hw, hi, hq, -⟩ := fq_step_spec q h _ hv
          rw [hs] at hs'
          cases hs'
          exact ⟨hw, hi, hq⟩
  | dequeue buf bl =>
    cases buf with
    | none =>
      simp only [fq_step, fq_dequeue, Option.map_some', Option.some.injEq, Prod.mk.injEq] at hs
      rw [← hs.2]
      exact ⟨h, rfl, rfl⟩
    | some b =>
      cases bl with
      | none => simp [fq_step, fq_dequeue] at hs
      | some v =>
        by_cases hneg : v < 0
        · simp only [fq_step, fq_dequeue, if_pos hneg, Option.map_some', Option.some.injEq,
            Prod.mk.injEq] at hs
          rw [← hs.2]
          exact ⟨h, rfl, rfl⟩
        · by_cases hemp : q.head = q.tail
          · simp only [fq_step, fq_dequeue, if_neg hneg, if_pos hemp, Option.map_some',
              Option.some.injEq, Prod.mk.injEq] at hs
            rw [← hs.2]
            exact ⟨h, rfl, rfl⟩
          · obtain ⟨hg, hl0, hl1⟩ := fq_head_item q h hemp
            by_cases hfit : (fq_item_at q q.head).1 ≤ v
            · simp only [fq_step, fq_dequeue, if_neg hneg, if_neg hemp, hg,
                if_neg (not_lt.mpr hfit)] at hs
              cases hm : memcpy b 0 q.data (q.head * q.item_len) (fq_item_at q q.head).1 with
              | none => rw [hm] at hs; cases hs
              | some b1 =>
                rw [hm] at hs
                simp only [Option.map_some', Option.some.injEq, Prod.mk.injEq] at hs
                rw [← hs.2]
                exact ⟨fq_pop_wf q h hemp, rfl, rfl⟩
            · simp only [fq_step, fq_dequeue_inadequate q h b v hemp (by omega) (by omega),
                Option.map_some', Option.some.injEq, Prod.mk.injEq] at hs
              rw [← hs.2]
              exact ⟨h, rfl, rfl⟩

theorem fq_reachable_wf (q0 q : fq_t) (h0 : fq_wf q0) (hr : fq_reachable q0 q) :
    fq_wf q ∧ q.item_len = q0.item_len ∧ q.queue_len = q0.queue_len := by
  induction hr with
  | init => exact ⟨h0, rfl, rfl⟩
  | step q c r q1 _ hs ih =>
    obtain ⟨hw, hi, hq⟩ := fq_step_wf q ih.1 c r q1 hs
    exact ⟨hw, by rw [hi, ih.2.1], by rw [hq, ih.2.2]⟩

theorem fq_enqueue_discard (q : fq_t) (b : List Nat) (buf_len : Int) (cond lock : Option Nat)
    (env : pthread_env) (h0 : 0 ≤ buf_len) (h1 : buf_len ≤ q.item_len)
    (hfull : Int.tmod (q.tail + 1) q.queue_len = q.head) :
    fq_enqueue (some q) (some b) buf_len cond lock env
      = some ⟨FQ_ITEM_DISCARDED, some q, []⟩ := by
  unfold fq_enqueue
  simp only []
  rw [if_neg (by omega), if_pos hfull]

/-! ### The claims about the FIFO queue -/

/-- The scenario of the specification evaluated on the code: the two dequeues
return `"A"` and `"BC"`, the third returns `FQ_QUEUE_EMPTY`. -/
theorem fq_scenario_eval :
    fq_create false 2 2 heap_ok = (FQ_OK, some fresh_2_2) ∧
    (fq_run fresh_2_2 scenario_calls).map (fun p => (p.1.map fun x => x.2.rv, dequeued_ok p.1))
      = some ([FQ_OK, FQ_OK, FQ_OK, FQ_OK, FQ_QUEUE_EMPTY], [(1, [0x41]), (2, [0x42, 0x43])]) := by
  decide

/-- C1, as stated, fails on the code: in a 2-slot queue the first enqueue passes
a condition variable whose `pthread_cond_signal` fails, so it returns
`FQ_POSIX_COND_FAILURE` although its item `"A"` is already stored; the second
enqueue succeeds with `"BC"`.  The first successful dequeue returns `"A"`, which
is not the item of the first successful enqueue. -/
theorem fq_round_trip_counterexample :
    fq_create false 2 2 heap_ok = (FQ_OK, some fresh_2_2) ∧
    (∀ c ∈ failing_signal_calls, fq_call_valid 2 c) ∧
    (fq_run fresh_2_2 failing_signal_calls).map
        (fun p => (p.1.map fun x => x.2.rv, enqueued_ok p.1, dequeued_ok p.1))
      = some ([FQ_POSIX_COND_FAILURE, FQ_OK, FQ_OK], [(2, [0x42, 0x43])], [(1, [0x41])]) ∧
    ¬ ([((1 : Int), [0x41])] <+: [((2 : Int), [0x42, 0x43])]) := by
  refine ⟨by decide, by decide, by decide, ?_⟩
  rintro ⟨t, ht⟩
  simp at ht

/-- C1 (amended): on a queue made by `fq_create`, any sequence of enqueue and
dequeue calls with valid buffers runs without undefined behaviour, and the
items returned by the successful dequeues are, in order, the items of the
enqueues that stored their item (those returning `FQ_OK` or, after storing, a
POSIX failure code): the k-th successful dequeue returns the length and bytes
of the k-th storing enqueue.  When no pthread call fails these are exactly the
successful enqueues. -/
theorem fq_fifo_round_trip (queue_len item_len : Int) (heap : heap_t) (q0 : fq_t)
    (calls : List fq_call)
    (hc : fq_create false queue_len item_len heap = (FQ_OK, some q0))
    (hv : ∀ c ∈ calls, fq_call_valid item_len c) :
    ∃ tr q1, fq_run q0 calls = some (tr, q1) ∧ tr.map Prod.fst = calls ∧
      dequeued_ok tr <+: enqueued_stored tr ∧
      (∀ (k : Nat) (item : fq_item), (dequeued_ok tr)[k]? = some item →
        (enqueued_stored tr)[k]? = some item) ∧
      ((∀ c ∈ calls, fq_call_pthread_ok c) → dequeued_ok tr <+: enqueued_ok tr ∧
        ∀ (k : Nat) (item : fq_item), (dequeued_ok tr)[k]? = some item →
          (enqueued_ok tr)[k]? = some item) := by
  obtain ⟨hw, hi, hl, -⟩ := fq_create_ok queue_len item_len heap q0 hc
  obtain ⟨tr, q1, hr, -, -, -, hmap, hitems, hok⟩ := fq_run_spec calls q0 hw (by rwa [hl])
  rw [hi, List.nil_append] at hitems
  have hkth : ∀ (k : Nat) (item : fq_item), (dequeued_ok tr)[k]? = some item →
      (enqueued_stored tr)[k]? = some item := by
    intro k item hk
    have hlt : k < (dequeued_ok tr).length := by
      by_contra hge
      rw [List.getElem?_eq_none (by omega)] at hk
      cases hk
    rw [hitems, List.getElem?_append_left hlt]
    exact hk
  refine ⟨tr, q1, hr, hmap, ⟨fq_items q1, hitems.symm⟩, hkth, fun hp => ?_⟩
  rw [← hok hp]
  exact ⟨⟨fq_items q1, hitems.symm⟩, hkth⟩

/-- Witness for C1: the scenario of the specification. -/
theorem fq_fifo_round_trip_witness :
    fq_create false 2 2 heap_ok = (FQ_OK, some fresh_2_2) ∧
    (∀ c ∈ scenario_calls, fq_call_valid 2 c) ∧
    (∀ c ∈ scenario_calls, fq_call_pthread_ok c) ∧
    ∃ tr q1, fq_run fresh_2_2 scenario_calls = some (tr, q1) ∧
      tr.map Prod.fst = scenario_calls ∧
      dequeued_ok tr <+: enqueued_stored tr ∧
      (∀ (k : Nat) (item : fq_item), (dequeued_ok tr)[k]? = some item →
        (enqueued_stored tr)[k]? = some item) ∧
      ((∀ c ∈ scenario_calls, fq_call_pthread_ok c) → dequeued_ok tr <+: enqueued_ok tr ∧
        ∀ (k : Nat) (item : fq_item), (dequeued_ok tr)[k]? = some item →
          (enqueued_ok tr)[k]? = some item) :=
  ⟨by decide, by decide, by decide,
    fq_fifo_round_trip 2 2 heap_ok fresh_2_2 scenario_calls (by decide) (by decide)⟩

/-- C2: on a full queue (`(tail + 1) % queue_len == head`, the test of the
code) `fq_enqueue` with a non-null buffer and `0 ≤ buf_len ≤ item_len` returns
`FQ_ITEM_DISCARDED`, leaves the whole queue record (head, tail, lengths, data)
as it was, and makes no pthread call, so signals no condition variable. -/
theorem fq_enqueue_full (q : fq_t) (b : List Nat) (buf_len : Int) (cond lock : Option Nat)
    (env : pthread_env) (h0 : 0 ≤ buf_len) (h1 : buf_len ≤ q.item_len)
    (hfull : Int.tmod (q.tail + 1) q.queue_len = q.head) :
    fq_enqueue (some q) (some b) buf_len cond lock env
      = some ⟨FQ_ITEM_DISCARDED, some q, []⟩ :=
  fq_enqueue_discard q b buf_len cond lock env h0 h1 hfull

/-- Witness for C2: a full 1-slot queue, enqueue with a condition variable. -/
theorem fq_enqueue_full_witness :
    (0 : Int) ≤ 1 ∧ (1 : Int) ≤ (fq_t.mk 2 1 0 1 [1, -1] [7, 0xEE]).item_len ∧
    Int.tmod ((fq_t.mk 2 1 0 1 [1, -1] [7, 0xEE]).tail + 1) (fq_t.mk 2 1 0 1 [1, -1] [7, 0xEE]).queue_len
      = (fq_t.mk 2 1 0 1 [1, -1] [7, 0xEE]).head ∧
    fq_enqueue (some (fq_t.mk 2 1 0 1 [1, -1] [7, 0xEE])) (some [9]) 1 (some 5) (some 6) env_ok
      = some ⟨FQ_ITEM_DISCARDED, some (fq_t.mk 2 1 0 1 [1, -1] [7, 0xEE]), []⟩ :=
  ⟨by decide, by decide, by decide,
    fq_enqueue_full (fq_t.mk 2 1 0 1 [1, -1] [7, 0xEE]) [9] 1 (some 5) (some 6) env_ok
      (by decide) (by decide) (by decide)⟩

/-- C3: on an empty queue (`head == tail`) `fq_dequeue` with non-null `buf` and
`buf_len` and `*buf_len ≥ 0` returns `FQ_QUEUE_EMPTY` and leaves the queue, the
caller's buffer and `*buf_len` as they were. -/
theorem fq_dequeue_empty (q : fq_t) (b : List Nat) (bl : Int) (h0 : 0 ≤ bl)
    (hempty : q.head = q.tail) :
    fq_dequeue (some q) (some b) (some bl) = some ⟨FQ_QUEUE_EMPTY, some q, some b, some bl⟩ := by
  unfold fq_dequeue
  simp only []
  rw [if_neg (by omega), if_pos hempty]

/-- Witness for C3: a fresh 2-slot queue. -/
theorem fq_dequeue_empty_witness :
    (0 : Int) ≤ 2 ∧ fresh_2_2.head = fresh_2_2.tail ∧
    fq_dequeue (some fresh_2_2) (some [5, 6]) (some 2)
      = some ⟨FQ_QUEUE_EMPTY, some fresh_2_2, some [5, 6], some 2⟩ :=
  ⟨by decide, by decide, fq_dequeue_empty fresh_2_2 [5, 6] 2 (by decide) (by decide)⟩

theorem fq_full_iff (q : fq_t) (h : fq_wf q) :
    Int.tmod (q.tail + 1) q.queue_len = q.head ↔ fq_count q = q.queue_len - 1 := by
  obtain ⟨h1, h2, h3, h4, h5, h6, -⟩ := h
  rw [int_tmod_succ q.tail q.queue_len h5 h6, fq_count_eq q h3 h4 h5 h6]
  split <;> split <;> omega

theorem fq_count_bounds (q : fq_t) (h : fq_wf q) :
    0 ≤ fq_count q ∧ fq_count q ≤ q.queue_len - 1 ∧ fq_count q = (fq_items q).length := by
  obtain ⟨h1, h2, h3, h4, h5, h6, -⟩ := h
  have hc := fq_count_eq q h3 h4 h5 h6
  have hl : ((fq_items q).length : Int) = (fq_count q).toNat := by
    simp [fq_items]
  rw [hl, hc]
  split <;> omega

theorem fq_run_cons (q : fq_t) (c : fq_call) (cs : List fq_call) :
    fq_run q (c :: cs) = (fq_step q c).bind fun p =>
      (fq_run p.2 cs).map fun t => ((c, p.1) :: t.1, t.2) := by
  simp only [fq_run]
  cases fq_step q c with
  | none => rfl
  | some p =>
    obtain ⟨r, q1⟩ := p
    simp only [Option.some_bind]
    cases fq_run q1 cs with
    | none => rfl
    | some t => rfl

theorem fq_run_append (cs1 : List fq_call) : ∀ (q : fq_t) (cs2 : List fq_call)
    (tr1 : List (fq_call × fq_ret)) (q1 : fq_t), fq_run q cs1 = some (tr1, q1) →
    fq_run q (cs1 ++ cs2) = (fq_run q1 cs2).map fun p => (tr1 ++ p.1, p.2) := by
  induction cs1 with
  | nil =>
    intro q cs2 tr1 q1 h
    simp only [fq_run, Option.some.injEq, Prod.mk.injEq] at h
    obtain ⟨rfl, rfl⟩ := h
    rw [List.nil_append]
    cases hq : fq_run q cs2 with
    | none => rfl
    | some p => simp
  | cons c cs ih =>
    intro q cs2 tr1 q1 h
    rw [List.cons_append, fq_run_cons]
    rw [fq_run_cons] at h
    cases hs : fq_step q c with
    | none => rw [hs] at h; cases h
    | some p =>
      obtain ⟨r, q'⟩ := p
      rw [hs] at h
      simp only [Option.some_bind] at h ⊢
      cases hr : fq_run q' cs with
      | none => rw [hr] at h; cases h
      | some p2 =>
        obtain ⟨tr', q2⟩ := p2
        rw [hr] at h
        simp only [Option.map_some', Option.some.injEq, Prod.mk.injEq] at h
        obtain ⟨rfl, rfl⟩ := h
        rw [ih q' cs2 tr' q2 hr]
        cases fq_run q2 cs2 with
        | none => rfl
        | some p => rfl

theorem fq_enqueue_run (calls : List fq_call) : ∀ (q : fq_t), fq_wf q →
    (∀ c ∈ calls, fq_call_valid_item q.item_len c) →
    fq_count q + calls.length < q.queue_len →
    ∃ tr q1, fq_run q calls = some (tr, q1) ∧ fq_wf q1 ∧ q1.item_len = q.item_len ∧
      q1.queue_len = q.queue_len ∧ fq_count q1 = fq_count q + calls.length ∧
      tr.map Prod.fst = calls ∧
      ∀ p ∈ tr, fq_rv_stored p.2.rv ∧ (fq_call_pthread_ok p.1 → p.2.rv = FQ_OK) := by
  induction calls with
  | nil =>
    intro q h _ _
    exact ⟨[], q, rfl, h, rfl, rfl, by simp, rfl, by simp⟩
  | cons c cs ih =>
    intro q h hv hcnt
    have hvc := hv c (List.mem_cons_self _ _)
    cases c with
    | dequeue buf bl => exact absurd hvc (by simp [fq_call_valid_item])
    | enqueue buf n cond lock env =>
      cases buf with
      | none => exact absurd hvc (by simp [fq_call_valid_item])
      | some b =>
        obtain ⟨hn0, hn1, hb⟩ : 0 ≤ n ∧ n ≤ q.item_len ∧ n ≤ b.length := hvc
        have hnf : Int.tmod (q.tail + 1) q.queue_len ≠ q.head := by
          intro hf
          have := (fq_full_iff q h).mp hf
          simp only [List.length_cons] at hcnt
          push_cast at hcnt
          omega
        obtain ⟨rv, pc, he, hrv, hok⟩ := fq_enqueue_eq q h b n cond lock env hn0 hn1 hb hnf
        have hpw := fq_push_wf q h b n hn0 hn1 hb hnf
        have hpc := fq_push_count q h b n hnf
        obtain ⟨tr, q2, hr, hw2, hi2, hq2, hc2, hmap, hall⟩ := ih (fq_push q b n) hpw
          (fun c' hc' => hv c' (List.mem_cons_of_mem _ hc')) (by
            have e : (fq_push q b n).queue_len = q.queue_len := rfl
            rw [hpc.1, e]
            simp only [List.length_cons] at hcnt
            push_cast at hcnt
            omega)
        refine ⟨(.enqueue (some b) n cond lock env, .enq ⟨rv, some (fq_push q b n), pc⟩) :: tr,
          q2, ?_, hw2, hi2, hq2, ?_, by simp [hmap], ?_⟩
        · simp [fq_run, fq_step, he, hr]
        · rw [hc2, hpc.1]
          simp only [List.length_cons]
          push_cast
          omega
        · intro p hp
          rcases List.mem_cons.mp hp with rfl | hp
          · exact ⟨hrv, hok⟩
          · exact hall p hp

/-- C4: on a queue reachable from `fq_create` that is not empty and whose head
item has length `len`, `fq_dequeue` with `0 ≤ *buf_len < len` returns
`FQ_INADEQUATE_SPACE` and leaves the queue, the buffer and `*buf_len` as they
were; a following `fq_dequeue` with `*buf_len ≥ len` and a buffer of at least
`len` bytes returns `FQ_OK`, writes `len` through `buf_len`, puts the bytes of
that same (oldest) item in the first `len` bytes of the buffer and leaves the
rest of the buffer alone. -/
theorem fq_dequeue_inadequate_space (queue_len item_len : Int) (heap : heap_t) (q0 q : fq_t)
    (b : List Nat) (bl len : Int)
    (hc : fq_create false queue_len item_len heap = (FQ_OK, some q0))
    (hr : fq_reachable q0 q) (hne : q.head ≠ q.tail)
    (hlen : arr_get q.length q.head = some len) (h0 : 0 ≤ bl) (h1 : bl < len) :
    fq_dequeue (some q) (some b) (some bl)
      = some ⟨FQ_INADEQUATE_SPACE, some q, some b, some bl⟩ ∧
    ∀ (b2 : List Nat) (bl2 : Int), len ≤ bl2 → len ≤ b2.length →
      ∃ b3, fq_dequeue (some q) (some b2) (some bl2)
          = some ⟨FQ_OK, some (fq_pop q), some b3, some len⟩ ∧
        (fq_items q).head? = some (len, b3.take len.toNat) ∧
        b3.drop len.toNat = b2.drop len.toNat := by
  have hw := (fq_reachable_wf q0 q (fq_create_ok _ _ _ _ hc).1 hr).1
  obtain ⟨hg, hl0, hl1⟩ := fq_head_item q hw hne
  rw [hlen] at hg
  cases hg
  refine ⟨fq_dequeue_inadequate q hw b bl hne h0 h1, fun b2 bl2 hbl2 hb2 => ?_⟩
  refine ⟨_, fq_dequeue_eq q hw b2 bl2 hne hbl2 hb2, ?_, ?_⟩
  · have hlen2 := fq_item_at_length q hw q.head hw.2.2.1 hw.2.2.2.1 hl1
    rw [fq_pop_items q hw hne, List.head?_cons, List.take_left' (by omega)]
  · have hlen2 := fq_item_at_length q hw q.head hw.2.2.1 hw.2.2.2.1 hl1
    rw [List.drop_left' (by omega)]

/-- Witness for C4: a 2-slot queue holding `"BC"`, dequeue with `*buf_len = 1`. -/
theorem fq_dequeue_inadequate_space_witness :
    fq_create false 2 2 heap_ok = (FQ_OK, some fresh_2_2) ∧
    fq_reachable fresh_2_2 one_item_2_2 ∧ one_item_2_2.head ≠ one_item_2_2.tail ∧
    arr_get one_item_2_2.length one_item_2_2.head = some 2 ∧ (0 : Int) ≤ 1 ∧ (1 : Int) < 2 ∧
    (fq_dequeue (some one_item_2_2) (some [5]) (some 1)
      = some ⟨FQ_INADEQUATE_SPACE, some one_item_2_2, some [5], some 1⟩ ∧
    ∀ (b2 : List Nat) (bl2 : Int), 2 ≤ bl2 → (2 : Int) ≤ b2.length →
      ∃ b3, fq_dequeue (some one_item_2_2) (some b2) (some bl2)
          = some ⟨FQ_OK, some (fq_pop one_item_2_2), some b3, some 2⟩ ∧
        (fq_items one_item_2_2).head? = some (2, b3.take (2 : Int).toNat) ∧
        b3.drop (2 : Int).toNat = b2.drop (2 : Int).toNat) :=
  have hr : fq_reachable fresh_2_2 one_item_2_2 :=
    fq_reachable.step fresh_2_2 (.enqueue (some [0x42, 0x43]) 2 none none env_ok)
      (.enq ⟨FQ_OK, some one_item_2_2, []⟩) one_item_2_2 fq_reachable.init (by decide)
  ⟨by decide, hr, by decide, by decide, by decide, by decide,
    fq_dequeue_inadequate_space 2 2 heap_ok fresh_2_2 one_item_2_2 [5] 1 2
      (by decide) hr (by decide) (by decide) (by decide) (by decide)⟩

/-- C5, as stated, fails on the code: the first of two enqueues with valid
items into a fresh 1-slot queue passes a condition variable whose
`pthread_cond_signal` fails; it stores its item but returns
`FQ_POSIX_COND_FAILURE`, not `FQ_OK`. -/
theorem fq_capacity_counterexample :
    fq_create false 1 1 heap_ok = (FQ_OK, some fresh_1_1) ∧
    (∀ c ∈ capacity_failing_calls, fq_call_valid_item 1 c) ∧
    (fq_run fresh_1_1 capacity_failing_calls).map (fun p => p.1.map fun x => x.2.rv)
      = some [FQ_POSIX_COND_FAILURE, FQ_ITEM_DISCARDED] ∧
    FQ_POSIX_COND_FAILURE ≠ FQ_OK := by
  decide

/-- C5 (amended): a queue is created only for a capacity `queue_len` in 1..256.
From the newly created queue, `queue_len` consecutive enqueues with valid items
all store their item, each returning `FQ_OK` unless a pthread call of its
wake-up fails (then a POSIX failure code); one more enqueue returns
`FQ_ITEM_DISCARDED` and changes nothing.  In every queue reachable by enqueue
and dequeue calls the number of stored items `(tail - head) mod (queue_len + 1)`
is the number of items held and is at most `queue_len`. -/
theorem fq_capacity (queue_len item_len : Int) (heap : heap_t) (q0 : fq_t)
    (calls : List fq_call) (last : fq_call)
    (hc : fq_create false queue_len item_len heap = (FQ_OK, some q0))
    (hlen : (calls.length : Int) = queue_len)
    (hv : ∀ c ∈ calls ++ [last], fq_call_valid_item item_len c) :
    1 ≤ queue_len ∧ queue_len ≤ 256 ∧
    (∃ tr q1, fq_run q0 (calls ++ [last])
        = some (tr ++ [(last, .enq ⟨FQ_ITEM_DISCARDED, some q1, []⟩)], q1) ∧
      tr.map Prod.fst = calls ∧
      ∀ p ∈ tr, fq_rv_stored p.2.rv ∧ (fq_call_pthread_ok p.1 → p.2.rv = FQ_OK)) ∧
    ∀ q, fq_reachable q0 q →
      fq_count q = (q.tail - q.head) % (queue_len + 1) ∧
      fq_count q = (fq_items q).length ∧ 0 ≤ fq_count q ∧ fq_count q ≤ queue_len := by
  obtain ⟨hw, hi, hL, hN, hh, ht⟩ := fq_create_ok queue_len item_len heap q0 hc
  have hc0 : fq_count q0 = 0 := by
    have := fq_count_bounds q0 hw
    rw [hi] at this
    simpa using this.2.2
  have hrange : 1 ≤ queue_len ∧ queue_len ≤ 256 := by
    unfold fq_create at hc
    split at hc
    · cases hc
    · next hpar =>
      simp only [FQ_MAX_QUEUE_LEN, not_or, not_lt] at hpar
      exact ⟨hpar.2.1, hpar.2.2.1⟩
  refine ⟨hrange.1, hrange.2, ?_, ?_⟩
  · obtain ⟨tr, q1, hr, hw1, hi1, hq1, hc1, hmap, hall⟩ := fq_enqueue_run calls q0 hw
      (fun c hcm => by rw [hL]; exact hv c (List.mem_append_left _ hcm))
      (by rw [hc0, hN]; omega)
    have hvl := hv last (List.mem_append_right _ (List.mem_singleton_self _))
    have hfull : Int.tmod (q1.tail + 1) q1.queue_len = q1.head := by
      rw [fq_full_iff q1 hw1, hc1, hc0, hq1, hN]
      omega
    refine ⟨tr, q1, ?_, hmap, hall⟩
    rw [fq_run_append calls q0 [last] tr q1 hr]
    cases last with
    | dequeue buf bl => exact absurd hvl (by simp [fq_call_valid_item])
    | enqueue buf n cond lock env =>
      cases buf with
      | none => exact absurd hvl (by simp [fq_call_valid_item])
      | some b =>
        obtain ⟨hn0, hn1, hb⟩ : 0 ≤ n ∧ n ≤ item_len ∧ n ≤ b.length := hvl
        have := fq_enqueue_discard q1 b n cond lock env hn0 (by rw [hi1, hL]; exact hn1) hfull
        simp [fq_run, fq_step, this]
  · intro q hr
    obtain ⟨hwq, -, hqq⟩ := fq_reachable_wf q0 q hw hr
    have := fq_count_bounds q hwq
    rw [hqq, hN] at this
    refine ⟨?_, this.2.2, this.1, by omega⟩
    unfold fq_count
    rw [hqq, hN]

/-- Witness for C5: two enqueues into a 1-slot queue; the second returns
`FQ_ITEM_DISCARDED`. -/
theorem fq_capacity_witness :
    fq_create false 1 1 heap_ok = (FQ_OK, some fresh_1_1) ∧
    (([fq_call.enqueue (some [0x41]) 1 none none env_ok].length : Int) = 1) ∧
    (∀ c ∈ [fq_call.enqueue (some [0x41]) 1 none none env_ok]
        ++ [fq_call.enqueue (some [0x42]) 1 none none env_ok], fq_call_valid_item 1 c) ∧
    ((1 : Int) ≤ 1 ∧ (1 : Int) ≤ 256 ∧
    (∃ tr q1, fq_run fresh_1_1 ([fq_call.enqueue (some [0x41]) 1 none none env_ok]
          ++ [fq_call.enqueue (some [0x42]) 1 none none env_ok])
        = some (tr ++ [(fq_call.enqueue (some [0x42]) 1 none none env_ok,
            .enq ⟨FQ_ITEM_DISCARDED, some q1, []⟩)], q1) ∧
      tr.map Prod.fst = [fq_call.enqueue (some [0x41]) 1 none none env_ok] ∧
      ∀ p ∈ tr, fq_rv_stored p.2.rv ∧ (fq_call_pthread_ok p.1 → p.2.rv = FQ_OK)) ∧
    ∀ q, fq_reachable fresh_1_1 q →
      fq_count q = (q.tail - q.head) % ((1 : Int) + 1) ∧
      fq_count q = (fq_items q).length ∧ 0 ≤ fq_count q ∧ fq_count q ≤ 1) :=
  ⟨by decide, by decide, by decide,
    fq_capacity 1 1 heap_ok fresh_1_1 [fq_call.enqueue (some [0x41]) 1 none none env_ok]
      (fq_call.enqueue (some [0x42]) 1 none none env_ok) (by decide) (by decide) (by decide)⟩

/-- C6: `fq_create` returns `FQ_BAD_PARAMETER` exactly when the output pointer
is null or `queue_len` is outside 1..256 or `item_len` is outside 1..32768; on
any other input, when the three allocations succeed, it returns `FQ_OK` and
yields a queue with `head = tail = 0` (holding no item), `queue_len + 1` slots
and item bound `item_len`. -/
theorem fq_create_spec (new_fq_null : Bool) (queue_len item_len : Int) (heap : heap_t) :
    ((fq_create new_fq_null queue_len item_len heap).1 = FQ_BAD_PARAMETER ↔
      (new_fq_null = true ∨ queue_len < 1 ∨ queue_len > 256 ∨
        item_len < 1 ∨ item_len > 32768)) ∧
    (¬ (new_fq_null = true ∨ queue_len < 1 ∨ queue_len > 256 ∨
        item_len < 1 ∨ item_len > 32768) →
      heap.fq_block = true → heap.data_block ≠ none → heap.length_block ≠ none →
      ∃ q, fq_create new_fq_null queue_len item_len heap = (FQ_OK, some q) ∧
        q.head = 0 ∧ q.tail = 0 ∧ fq_items q = [] ∧ q.queue_len = queue_len + 1 ∧
        (q.length.length : Int) = queue_len + 1 ∧
        (q.data.length : Int) = (queue_len + 1) * item_len ∧ q.item_len = item_len) := by
  constructor
  · unfold fq_create
    simp only [FQ_MAX_QUEUE_LEN, FQ_MAX_ITEM_LEN]
    split
    · next h => simp [h]
    · next h =>
      split
      · simp [h]
      · split
        · simp [h]
        · split
          · simp [h]
          · simp [h]
  · intro hpar hfq hd hl
    cases hdb : heap.data_block with
    | none => exact absurd hdb hd
    | some db =>
      cases hlb : heap.length_block with
      | none => exact absurd hlb hl
      | some lb =>
        have hnn : new_fq_null = false := by
          cases new_fq_null
          · rfl
          · exact absurd (Or.inl rfl) hpar
        subst hnn
        have he : fq_create false queue_len item_len heap = (FQ_OK, some
            { queue_len := queue_len + 1, item_len := item_len, head := 0, tail := 0,
              length := (List.range (queue_len + 1).toNat).map lb,
              data := (List.range ((queue_len + 1) * item_len).toNat).map db }) := by
          unfold fq_create
          simp only [FQ_MAX_QUEUE_LEN, FQ_MAX_ITEM_LEN]
          rw [if_neg hpar, if_neg (by simp [hfq])]
          simp only [hdb, hlb]
        obtain ⟨hw, hi, -⟩ := fq_create_ok _ _ _ _ he
        exact ⟨_, he, rfl, rfl, hi, rfl, hw.2.2.2.2.2.2.1, hw.2.2.2.2.2.2.2.1, rfl⟩

/-- Witness for C6: `fq_create (&fq, 2, 2)` with all allocations succeeding. -/
theorem fq_create_spec_witness :
    ¬ (false = true ∨ (2 : Int) < 1 ∨ (2 : Int) > 256 ∨ (2 : Int) < 1 ∨ (2 : Int) > 32768) ∧
    heap_ok.fq_block = true ∧ heap_ok.data_block ≠ none ∧ heap_ok.length_block ≠ none ∧
    ∃ q, fq_create false 2 2 heap_ok = (FQ_OK, some q) ∧
      q.head = 0 ∧ q.tail = 0 ∧ fq_items q = [] ∧ q.queue_len = 2 + 1 ∧
      (q.length.length : Int) = 2 + 1 ∧
      (q.data.length : Int) = (2 + 1) * 2 ∧ q.item_len = 2 :=
  ⟨by decide, rfl, by simp [heap_ok], by simp [heap_ok],
    (fq_create_spec false 2 2 heap_ok).2 (by decide) rfl (by simp [heap_ok])
      (by simp [heap_ok])⟩

/-! ## Properties of the CRC-8 -/

theorem two_mul_xor (a b : Nat) : 2 * (a ^^^ b) = 2 * a ^^^ 2 * b := by
  have h1 : (2 * a ^^^ 2 * b) / 2 = a ^^^ b := by
    rw [Nat.xor_div_two]; simp
  have h2 : (2 * a ^^^ 2 * b) % 2 = 0 := by
    rw [Nat.xor_mod_two_eq]; omega
  omega

theorem two_mul_add_bit (a bit : Nat) (hb : bit < 2) : 2 * a + bit = 2 * a ^^^ bit := by
  have h1 : (2 * a ^^^ bit) / 2 = a := by
    rw [Nat.xor_div_two]
    have : bit / 2 = 0 := by omega
    simp [this]
  have h2 : (2 * a ^^^ bit) % 2 = bit := by
    rw [Nat.xor_mod_two_eq]; omega
  omega

theorem crc8_shift_eq (s bit : Nat) (hs : s < 2 ^ 31) (hb : bit < 2) :
    crc8_shift s bit
      = if 2 * s + bit ≥ 0x100 then (2 * s + bit) ^^^ 0x107 else 2 * s + bit := by
  have h1 : (s <<< 1) % 2 ^ 32 = 2 * s := by
    rw [Nat.shiftLeft_eq]
    omega
  have h2 : 2 * s ||| bit = 2 * s + bit := by
    have := Nat.mul_add_lt_is_or (i := 1) (b := bit) (by omega) s
    simpa using this.symm
  unfold crc8_shift
  rw [h1, h2]

theorem xor_0x107 (u : Nat) (hu : u < 256) : (2 ^ 8 + u) ^^^ (2 ^ 8 + 7) = u ^^^ 7 := by
  apply Nat.eq_of_testBit_eq
  intro k
  rw [Nat.testBit_xor, Nat.testBit_xor]
  by_cases hk : k < 8
  · rw [Nat.testBit_two_pow_add_gt hk, Nat.testBit_two_pow_add_gt hk]
  · by_cases hk8 : k = 8
    · subst hk8
      rw [Nat.testBit_two_pow_add_eq, Nat.testBit_two_pow_add_eq,
        Nat.testBit_lt_two_pow (show u < 2 ^ 8 by omega),
        Nat.testBit_lt_two_pow (show 7 < 2 ^ 8 by omega)]
      rfl
    · have hlt : ∀ x, x < 512 → Nat.testBit x k = false := fun x hx =>
        Nat.testBit_lt_two_pow (Nat.lt_of_lt_of_le hx
          (by
            have : 2 ^ 9 ≤ 2 ^ k := Nat.pow_le_pow_right (by omega) (by omega)
            omega))
      rw [hlt _ (by omega), hlt (2 ^ 8 + 7) (by omega), hlt _ (by omega), hlt 7 (by omega)]

theorem crc8_shift_lt (s : Nat) (hs : s < 256) (bit : Nat) (hb : bit < 2) :
    crc8_shift s bit < 256 := by
  rw [crc8_shift_eq s bit (by omega) hb]
  split
  · next h =>
    obtain ⟨u, hu⟩ : ∃ u, 2 * s + bit = 2 ^ 8 + u := ⟨2 * s + bit - 256, by omega⟩
    rw [hu, show (0x107 : Nat) = 2 ^ 8 + 7 from rfl, xor_0x107 u (by omega)]
    exact Nat.xor_lt_two_pow (n := 8) (by omega) (by omega)
  · next h => omega

theorem crc8_shift_zero_eq (s : Nat) : crc8_shift_zero s = crc8_shift s 0 := by
  simp [crc8_shift_zero, crc8_shift]

theorem gf2_mul_unfold (a b : Nat) :
    gf2_mul a b = (if a % 2 = 1 then b else 0) ^^^ 2 * gf2_mul (a / 2) b := by
  by_cases h : a = 0
  · subst h
    rw [gf2_mul]
    simp
  · rw [gf2_mul, if_neg h]

theorem gf2_mul_zero_left (b : Nat) : gf2_mul 0 b = 0 := by
  rw [gf2_mul]; simp

theorem gf2_mul_two (q g : Nat) : gf2_mul (2 * q) g = 2 * gf2_mul q g := by
  rw [gf2_mul_unfold]
  have h1 : 2 * q % 2 = 0 := by omega
  have h2 : 2 * q / 2 = q := by omega
  rw [h2, if_neg (by omega)]
  simp

theorem gf2_mul_two_add_one (q g : Nat) : gf2_mul (2 * q + 1) g = g ^^^ 2 * gf2_mul q g := by
  rw [gf2_mul_unfold]
  have h2 : (2 * q + 1) / 2 = q := by omega
  rw [h2, if_pos (by omega)]

theorem crc8_shift_inv (p s bit : Nat) (hb : bit < 2)
    (h : s < 256 ∧ ∃ q, p = gf2_mul q 0x107 ^^^ s) :
    crc8_shift s bit < 256 ∧ ∃ q, 2 * p + bit = gf2_mul q 0x107 ^^^ crc8_shift s bit := by
  obtain ⟨hs, q, hq⟩ := h
  refine ⟨crc8_shift_lt s hs bit hb, ?_⟩
  rw [crc8_shift_eq s bit (by omega) hb]
  have hp : 2 * p + bit = 2 * gf2_mul q 0x107 ^^^ (2 * s + bit) := by
    rw [two_mul_add_bit p bit hb, hq, two_mul_xor, two_mul_add_bit s bit hb, Nat.xor_assoc]
  split
  · refine ⟨2 * q + 1, ?_⟩
    rw [gf2_mul_two_add_one, hp]
    generalize 2 * gf2_mul q 0x107 = m
    generalize 2 * s + bit = t
    rw [Nat.xor_comm 0x107 m, Nat.xor_assoc, ← Nat.xor_assoc 0x107 t 0x107,
      Nat.xor_comm 0x107 t, Nat.xor_assoc t, Nat.xor_self, Nat.xor_zero]
  · exact ⟨2 * q, by rw [gf2_mul_two, hp]⟩

theorem crc8_bit_eq (c : Int) (i : Nat) (hi : i < 8) :
    crc8_bit c i = (c % 256).toNat / 2 ^ i % 2 := by
  have h1 : (c % 256).toNat = (c % 2 ^ 32).toNat % 2 ^ 8 := by omega
  unfold crc8_bit
  rw [h1, Nat.one_shiftLeft]
  apply Nat.eq_of_testBit_eq
  intro k
  have e1 : ∀ x : Nat, x / 2 ^ i % 2 = (x >>> i) % 2 ^ 1 := by
    intro x; rw [Nat.shiftRight_eq_div_pow]; rfl
  rw [e1]
  simp only [Nat.testBit_mod_two_pow, Nat.testBit_shiftRight, Nat.testBit_and,
    Nat.testBit_two_pow]
  by_cases hk : k < 1
  · have : k = 0 := by omega
    subst this
    simp [hi]
  · simp only [hk, decide_False, Bool.false_and, Bool.and_eq_false_imp, Bool.and_eq_true,
      decide_eq_true_eq, decide_eq_false_iff_not]
    intro _ _
    omega

theorem crc8_fold_inv (bs : List Nat) : ∀ (p s : Nat), (∀ b ∈ bs, b < 2) →
    (s < 256 ∧ ∃ q, p = gf2_mul q 0x107 ^^^ s) →
    bs.foldl crc8_shift s < 256 ∧
      ∃ q, bs.foldl (fun p b => 2 * p + b) p = gf2_mul q 0x107 ^^^ bs.foldl crc8_shift s := by
  induction bs with
  | nil => intro p s _ h; exact h
  | cons b bs ih =>
    intro p s hb h
    rw [List.foldl_cons, List.foldl_cons]
    exact ih _ _ (fun b' hb' => hb b' (List.mem_cons_of_mem _ hb'))
      (crc8_shift_inv p s b (hb b (List.mem_cons_self _ _)) h)

theorem byte_bits (x p : Nat) (hx : x < 256) :
    [x / 2 ^ 7 % 2, x / 2 ^ 6 % 2, x / 2 ^ 5 % 2, x / 2 ^ 4 % 2, x / 2 ^ 3 % 2, x / 2 ^ 2 % 2,
      x / 2 ^ 1 % 2, x / 2 ^ 0 % 2].foldl (fun p b => 2 * p + b) p = p * 2 ^ 8 + x := by
  simp only [List.foldl_cons, List.foldl_nil]
  norm_num
  omega

theorem crc8_byte_eq (s : Nat) (c : Int) :
    crc8_byte s c = [(c % 256).toNat / 2 ^ 7 % 2, (c % 256).toNat / 2 ^ 6 % 2,
      (c % 256).toNat / 2 ^ 5 % 2, (c % 256).toNat / 2 ^ 4 % 2, (c % 256).toNat / 2 ^ 3 % 2,
      (c % 256).toNat / 2 ^ 2 % 2, (c % 256).toNat / 2 ^ 1 % 2,
      (c % 256).toNat / 2 ^ 0 % 2].foldl crc8_shift s := by
  unfold crc8_byte
  simp only [List.foldl_cons, List.foldl_nil]
  rw [crc8_bit_eq c 7 (by omega), crc8_bit_eq c 6 (by omega), crc8_bit_eq c 5 (by omega),
    crc8_bit_eq c 4 (by omega), crc8_bit_eq c 3 (by omega), crc8_bit_eq c 2 (by omega),
    crc8_bit_eq c 1 (by omega), crc8_bit_eq c 0 (by omega)]

theorem crc8_byte_inv (p s : Nat) (c : Int)
    (h : s < 256 ∧ ∃ q, p = gf2_mul q 0x107 ^^^ s) :
    crc8_byte s c < 256 ∧
      ∃ q, p * 2 ^ 8 + (c % 256).toNat = gf2_mul q 0x107 ^^^ crc8_byte s c := by
  have hx : (c % 256).toNat < 256 := by omega
  rw [crc8_byte_eq, ← byte_bits (c % 256).toNat p hx]
  apply crc8_fold_inv _ _ _ _ h
  intro b hb
  simp only [List.mem_cons, List.mem_singleton, List.not_mem_nil, or_false] at hb
  rcases hb with rfl | rfl | rfl | rfl | rfl | rfl | rfl | rfl <;> omega

theorem crc8_bytes_inv (buf : List Int) : ∀ (p s : Nat),
    (s < 256 ∧ ∃ q, p = gf2_mul q 0x107 ^^^ s) →
    crc8_bytes buf buf.length s < 256 ∧
      ∃ q, buf.foldl (fun p c => p * 2 ^ 8 + (c % 256).toNat) p
        = gf2_mul q 0x107 ^^^ crc8_bytes buf buf.length s := by
  induction buf with
  | nil => intro p s h; exact h
  | cons c buf ih =>
    intro p s h
    rw [List.foldl_cons, List.length_cons, crc8_bytes]
    exact ih _ _ (crc8_byte_inv p s c h)

theorem crc8_zeroes_inv (p s : Nat) (h : s < 256 ∧ ∃ q, p = gf2_mul q 0x107 ^^^ s) :
    crc8_zeroes s < 256 ∧ ∃ q, p * 2 ^ 8 = gf2_mul q 0x107 ^^^ crc8_zeroes s := by
  have e : crc8_zeroes s = [0, 0, 0, 0, 0, 0, 0, 0].foldl crc8_shift s := by
    unfold crc8_zeroes
    simp only [List.foldl_cons, List.foldl_nil, crc8_shift_zero_eq]
  have e2 : p * 2 ^ 8 = [0, 0, 0, 0, 0, 0, 0, 0].foldl (fun p b => 2 * p + b) p := by
    simp only [List.foldl_cons, List.foldl_nil]
    omega
  rw [e, e2]
  apply crc8_fold_inv _ _ _ _ h
  intro b hb
  simp only [List.mem_cons, List.mem_singleton, List.not_mem_nil, or_false, or_self] at hb
  omega

theorem calculate_crc8_inv (buf : List Int) :
    calculate_crc8 buf buf.length < 256 ∧
      ∃ q, msg_poly buf * 2 ^ 8 = gf2_mul q 0x107 ^^^ calculate_crc8 buf buf.length := by
  unfold calculate_crc8 msg_poly
  apply crc8_zeroes_inv
  apply crc8_bytes_inv
  exact ⟨by omega, 0, by rw [gf2_mul_zero_left]; rfl⟩

theorem gf2_mul_xor (a : Nat) : ∀ (a' g : Nat),
    gf2_mul (a ^^^ a') g = gf2_mul a g ^^^ gf2_mul a' g := by
  induction a using Nat.strong_induction_on with
  | _ a ih =>
    intro a' g
    by_cases ha : a = 0
    · subst ha
      rw [gf2_mul_zero_left, Nat.zero_xor, Nat.zero_xor]
    · rw [gf2_mul_unfold (a ^^^ a') g, gf2_mul_unfold a g, gf2_mul_unfold a' g,
        Nat.xor_div_two, ih (a / 2) (by omega) (a' / 2) g, two_mul_xor]
      have hpar : (a ^^^ a') % 2 = (a + a') % 2 := Nat.xor_mod_two_eq
      generalize 2 * gf2_mul (a / 2) g = x
      generalize 2 * gf2_mul (a' / 2) g = y
      rcases Nat.mod_two_eq_zero_or_one a with h1 | h1 <;>
        rcases Nat.mod_two_eq_zero_or_one a' with h2 | h2
      · rw [if_neg (by omega), if_neg (by omega), if_neg (by omega)]
        simp only [Nat.zero_xor]
      · rw [if_pos (by omega), if_neg (by omega), if_pos (by omega)]
        simp only [Nat.zero_xor]
        ac_rfl
      · rw [if_pos (by omega), if_pos (by omega), if_neg (by omega)]
        simp only [Nat.zero_xor]
        ac_rfl
      · rw [if_neg (by omega), if_pos (by omega), if_pos (by omega)]
        have : g ^^^ x ^^^ (g ^^^ y) = (g ^^^ g) ^^^ (x ^^^ y) := by ac_rfl
        rw [this, Nat.xor_self]

theorem xor_ge_of_lt (c n : Nat) (k : Nat) (hc : c < 2 ^ k) (hn : 2 ^ k ≤ n) :
    2 ^ k ≤ c ^^^ n := by
  by_contra h
  have h1 : c ^^^ (c ^^^ n) < 2 ^ k := Nat.xor_lt_two_pow hc (by omega)
  rw [← Nat.xor_assoc, Nat.xor_self, Nat.zero_xor] at h1
  omega

theorem gf2_mul_ge (k : Nat) : 1 ≤ k → 2 ^ 8 ≤ gf2_mul k 0x107 := by
  induction k using Nat.strong_induction_on with
  | _ k ih =>
    intro hk
    rw [gf2_mul_unfold]
    by_cases h1 : k = 1
    · subst h1
      rw [gf2_mul_zero_left]
      decide
    · have := ih (k / 2) (by omega) (by omega)
      have h2 : 2 ^ 9 ≤ 2 * gf2_mul (k / 2) 0x107 := by omega
      have h3 : 2 ^ 9 ≤ (if k % 2 = 1 then 0x107 else 0) ^^^ 2 * gf2_mul (k / 2) 0x107 := by
        apply xor_ge_of_lt _ _ 9 _ h2
        split <;> omega
      omega

theorem gf2_remainder_unique (q q' r r' : Nat) (hr : r < 256) (hr' : r' < 256)
    (h : gf2_mul q 0x107 ^^^ r = gf2_mul q' 0x107 ^^^ r') : r = r' := by
  have h1 : gf2_mul (q ^^^ q') 0x107 = r ^^^ r' := by
    rw [gf2_mul_xor]
    have e : gf2_mul q 0x107 ^^^ gf2_mul q' 0x107
        = (gf2_mul q 0x107 ^^^ r) ^^^ (r ^^^ gf2_mul q' 0x107) := by
      have : (gf2_mul q 0x107 ^^^ r) ^^^ (r ^^^ gf2_mul q' 0x107)
          = (r ^^^ r) ^^^ (gf2_mul q 0x107 ^^^ gf2_mul q' 0x107) := by ac_rfl
      rw [this, Nat.xor_self, Nat.zero_xor]
    rw [e, h]
    have : gf2_mul q' 0x107 ^^^ r' ^^^ (r ^^^ gf2_mul q' 0x107)
        = (gf2_mul q' 0x107 ^^^ gf2_mul q' 0x107) ^^^ (r ^^^ r') := by ac_rfl
    rw [this, Nat.xor_self, Nat.zero_xor]
  have h2 : r ^^^ r' < 2 ^ 8 := Nat.xor_lt_two_pow (by omega) (by omega)
  have h3 : q ^^^ q' = 0 := by
    by_contra hne
    have := gf2_mul_ge (q ^^^ q') (by omega)
    omega
  rw [h3, gf2_mul_zero_left] at h1
  exact Nat.xor_eq_zero.mp h1.symm

theorem mul_pow_add_eq_xor (x r : Nat) (hr : r < 2 ^ 8) : x * 2 ^ 8 + r = x * 2 ^ 8 ^^^ r := by
  rw [Nat.mul_comm x]
  apply Nat.eq_of_testBit_eq
  intro j
  rw [Nat.testBit_mul_pow_two_add x hr, Nat.testBit_xor, Nat.testBit_mul_pow_two]
  by_cases hj : j < 8
  · have h8 : ¬ 8 ≤ j := by omega
    simp [hj, h8]
  · have : r.testBit j = false :=
      Nat.testBit_lt_two_pow (Nat.lt_of_lt_of_le hr (Nat.pow_le_pow_right (by omega) (by omega)))
    simp [hj, this]
    omega

theorem gf2_mul_pow (q g : Nat) : gf2_mul (q * 2 ^ 8) g = gf2_mul q g * 2 ^ 8 := by
  have e : q * 2 ^ 8 = 2 * (2 * (2 * (2 * (2 * (2 * (2 * (2 * q))))))) := by omega
  rw [e]
  simp only [gf2_mul_two]
  omega

theorem msg_poly_append (msg : List Int) (c : Int) :
    msg_poly (msg ++ [c]) = msg_poly msg * 2 ^ 8 + (c % 256).toNat := by
  simp [msg_poly, List.foldl_append]

/-- C8: `calculate_crc8 (buf, length)` is a value below 256 and is the remainder
of the GF(2) polynomial whose coefficients are the bits of `buf`, most
significant bit first, multiplied by `x ^ 8`, divided by
`x ^ 8 + x ^ 2 + x + 1` (`0x107`); it is the only such remainder, and it
depends on a `char` only through its 8-bit pattern (its value modulo 256), so a
byte with the top bit set counts the same whether read as negative or not. -/
theorem calculate_crc8_is_remainder (buf : List Int) :
    calculate_crc8 buf buf.length < 256 ∧
    gf2_is_remainder (msg_poly buf * 2 ^ 8) 0x107 (calculate_crc8 buf buf.length) ∧
    (∀ r, gf2_is_remainder (msg_poly buf * 2 ^ 8) 0x107 r →
      r = calculate_crc8 buf buf.length) ∧
    (∀ buf' : List Int, buf'.map (· % 256) = buf.map (· % 256) →
      calculate_crc8 buf' buf'.length = calculate_crc8 buf buf.length) := by
  obtain ⟨hlt, q, hq⟩ := calculate_crc8_inv buf
  have huniq : ∀ (p : Nat) (r r' : Nat), gf2_is_remainder p 0x107 r →
      gf2_is_remainder p 0x107 r' → r = r' := by
    intro p r r' h1 h2
    have hb : ∀ x, (∃ k, x < 2 ^ k ∧ 2 ^ k ≤ 0x107) → x < 256 := by
      rintro x ⟨k, hk1, hk2⟩
      have hk : k ≤ 8 := by
        by_contra hc
        have : 2 ^ 9 ≤ 2 ^ k := Nat.pow_le_pow_right (by omega) (by omega)
        omega
      have : 2 ^ k ≤ 2 ^ 8 := Nat.pow_le_pow_right (by omega) hk
      omega
    obtain ⟨hr1, q1, hq1⟩ := h1
    obtain ⟨hr2, q2, hq2⟩ := h2
    exact gf2_remainder_unique q1 q2 r r' (hb r hr1) (hb r' hr2) (by rw [← hq1, ← hq2])
  have hrem : ∀ b : List Int,
      gf2_is_remainder (msg_poly b * 2 ^ 8) 0x107 (calculate_crc8 b b.length) := by
    intro b
    obtain ⟨hlt', q', hq'⟩ := calculate_crc8_inv b
    exact ⟨⟨8, hlt', by decide⟩, q', hq'⟩
  refine ⟨hlt, hrem buf, fun r hr => huniq _ _ _ hr (hrem buf), fun buf' hmap => ?_⟩
  have hp : ∀ b : List Int, msg_poly b
      = (b.map (· % 256)).foldl (fun p c => p * 2 ^ 8 + c.toNat) 0 := by
    intro b
    unfold msg_poly
    rw [List.foldl_map]
  have hpe : msg_poly buf' = msg_poly buf := by rw [hp, hp, hmap]
  have := hrem buf'
  rw [hpe] at this
  exact huniq _ _ _ this (hrem buf)

theorem crc8_append_check (msg : List Int) (c : Int)
    (hc : c % 256 = calculate_crc8 msg msg.length) :
    calculate_crc8 (msg ++ [c]) (msg.length + 1) = 0 := by
  obtain ⟨hlt, q, hq⟩ := calculate_crc8_inv msg
  obtain ⟨hlt', q', hq'⟩ := calculate_crc8_inv (msg ++ [c])
  rw [List.length_append, List.length_singleton] at hlt' hq'
  have hcn : (c % 256).toNat = calculate_crc8 msg msg.length := by omega
  have hp : msg_poly (msg ++ [c]) = gf2_mul q 0x107 := by
    rw [msg_poly_append, hcn, mul_pow_add_eq_xor _ _ hlt, hq, Nat.xor_cancel_right]
  rw [hp, ← gf2_mul_pow] at hq'
  exact (gf2_remainder_unique (q * 2 ^ 8) q' 0 _ (by omega) hlt'
    (by rw [Nat.xor_zero]; exact hq')).symm

/-- C7: for every byte string `msg`, `calculate_crc8` applied to `msg` followed
by the single byte `calculate_crc8 (msg)` returns 0; so it does for every
`char` whose 8-bit pattern is that byte (the byte read as a signed `char`). -/
theorem crc8_self_check (msg : List Int) :
    calculate_crc8 (msg ++ [(calculate_crc8 msg msg.length : Int)]) (msg.length + 1) = 0 ∧
    ∀ c : Int, c % 256 = calculate_crc8 msg msg.length →
      calculate_crc8 (msg ++ [c]) (msg.length + 1) = 0 := by
  refine ⟨crc8_append_check msg _ ?_, fun c hc => crc8_append_check msg c hc⟩
  have := (calculate_crc8_inv msg).1
  omega

set_option maxRecDepth 100000 in
/-- Witness for C7: the string "123456789" has CRC `0xF4`; stored in a signed
`char` that byte is `-12`. -/
theorem crc8_self_check_witness :
    calculate_crc8 [49, 50, 51, 52, 53, 54, 55, 56, 57] 9 = 0xF4 ∧
    (-12 : Int) % 256 = calculate_crc8 [49, 50, 51, 52, 53, 54, 55, 56, 57]
      [49, 50, 51, 52, 53, 54, 55, 56, 57].length ∧
    calculate_crc8 ([49, 50, 51, 52, 53, 54, 55, 56, 57] ++ [-12])
      (([49, 50, 51, 52, 53, 54, 55, 56, 57] : List Int).length + 1) = 0 :=
  ⟨by decide, by decide,
    (crc8_self_check [49, 50, 51, 52, 53, 54, 55, 56, 57]).2 (-12) (by decide)⟩

/-! ## Properties of the packet header and of the relay -/

theorem header_byte0 (is_last seq_num : Nat) (hl : is_last ≤ 1) (hs : seq_num ≤ 127) :
    ((is_last <<< 7) ||| seq_num) % 256 = is_last * 128 + seq_num ∧
    (((is_last <<< 7) ||| seq_num) % 256) &&& 0x7F = seq_num ∧
    ((((is_last <<< 7) ||| seq_num) % 256) &&& 0x80 = 0x80 ↔ is_last = 1) := by
  have h : ∀ l ≤ 1, ∀ s ≤ 127, ((l <<< 7) ||| s) % 256 = l * 128 + s ∧
      (((l <<< 7) ||| s) % 256) &&& 0x7F = s ∧
      ((((l <<< 7) ||| s) % 256) &&& 0x80 = 0x80 ↔ l = 1) := by decide
  exact h is_last hl seq_num hs

/-- C9: after `PKT_MAKE_HEADER (p, is_last, seq_num, epoch)` on a packet of at
least two bytes, with `is_last` 0 or 1, `seq_num` in 0..127 and `epoch` in
0..255, the accessors give `PKT_IS_LAST (p) == is_last`,
`PKT_SEQ_NUM (p) == seq_num` and `PKT_EPOCH (p) == epoch`; byte 0 has `is_last`
in bit 7 and `seq_num` in bits 6..0, byte 1 is `epoch`; the packet keeps its
length and every byte other than bytes 0 and 1. -/
theorem pkt_header_round_trip (p : List Nat) (is_last seq_num epoch : Nat)
    (hp : 2 ≤ p.length) (hl : is_last ≤ 1) (hs : seq_num ≤ 127) (he : epoch ≤ 255) :
    PKT_IS_LAST (PKT_MAKE_HEADER p is_last seq_num epoch) = is_last ∧
    PKT_SEQ_NUM (PKT_MAKE_HEADER p is_last seq_num epoch) = seq_num ∧
    PKT_EPOCH (PKT_MAKE_HEADER p is_last seq_num epoch) = epoch ∧
    (PKT_MAKE_HEADER p is_last seq_num epoch).getD 0 0 / 2 ^ 7 = is_last ∧
    (PKT_MAKE_HEADER p is_last seq_num epoch).getD 0 0 % 2 ^ 7 = seq_num ∧
    (PKT_MAKE_HEADER p is_last seq_num epoch).getD 1 0 = epoch ∧
    (PKT_MAKE_HEADER p is_last seq_num epoch).length = p.length ∧
    ∀ i, 2 ≤ i → (PKT_MAKE_HEADER p is_last seq_num epoch)[i]? = p[i]? := by
  obtain ⟨h0, h1, h2⟩ := header_byte0 is_last seq_num hl hs
  have g0 : (PKT_MAKE_HEADER p is_last seq_num epoch).getD 0 0
      = ((is_last <<< 7) ||| seq_num) % 256 := by
    have hp0 : 0 < p.length := by omega
    simp [PKT_MAKE_HEADER, List.getD_eq_getElem?_getD, List.getElem?_set, hp0]
  have g1 : (PKT_MAKE_HEADER p is_last seq_num epoch).getD 1 0 = epoch := by
    have hp1 : 1 < p.length := by omega
    simp [PKT_MAKE_HEADER, List.getD_eq_getElem?_getD, List.getElem?_set, hp1]
    omega
  refine ⟨?_, ?_, ?_, ?_, ?_, g1, ?_, ?_⟩
  · unfold PKT_IS_LAST
    rw [g0]
    split
    · next h => rw [h2.mp h]; rfl
    · next h =>
      have : is_last = 0 := by
        rcases Nat.le_one_iff_eq_zero_or_eq_one.mp hl with h' | h'
        · exact h'
        · exact absurd (h2.mpr h') h
      rw [this]; rfl
  · unfold PKT_SEQ_NUM
    rw [g0, h1]
  · unfold PKT_EPOCH
    rw [g1]
  · rw [g0, h0]; omega
  · rw [g0, h0]; omega
  · simp [PKT_MAKE_HEADER]
  · intro i hi
    simp only [PKT_MAKE_HEADER]
    rw [List.getElem?_set_ne (by omega), List.getElem?_set_ne (by omega)]

/-- Witness for C9: the header of a last packet with sequence number 5 in epoch 77. -/
theorem pkt_header_round_trip_witness :
    2 ≤ [9, 9, 9].length ∧ 1 ≤ 1 ∧ 5 ≤ 127 ∧ 77 ≤ 255 ∧
    (PKT_IS_LAST (PKT_MAKE_HEADER [9, 9, 9] 1 5 77) = (1 : Nat) ∧
    PKT_SEQ_NUM (PKT_MAKE_HEADER [9, 9, 9] 1 5 77) = (5 : Nat) ∧
    PKT_EPOCH (PKT_MAKE_HEADER [9, 9, 9] 1 5 77) = (77 : Nat) ∧
    (PKT_MAKE_HEADER [9, 9, 9] 1 5 77).getD 0 0 / 2 ^ 7 = 1 ∧
    (PKT_MAKE_HEADER [9, 9, 9] 1 5 77).getD 0 0 % 2 ^ 7 = 5 ∧
    (PKT_MAKE_HEADER [9, 9, 9] 1 5 77).getD 1 0 = 77 ∧
    (PKT_MAKE_HEADER [9, 9, 9] 1 5 77).length = [9, 9, 9].length ∧
    ∀ i, 2 ≤ i → (PKT_MAKE_HEADER [9, 9, 9] 1 5 77)[i]? = [9, 9, 9][i]?) :=
  ⟨by decide, by decide, by decide, by decide,
    pkt_header_round_trip [9, 9, 9] 1 5 77 (by decide) (by decide) (by decide) (by decide)⟩

theorem epoch_is_earlier_iff (e f : Int) :
    EPOCH_IS_EARLIER e f = true ↔ (f - e) % 256 ≤ 128 := by
  unfold EPOCH_IS_EARLIER
  rw [decide_eq_true_iff]
  have h := Nat.and_pow_two_sub_one_eq_mod ((f % 2 ^ 32 - e % 2 ^ 32) % 2 ^ 32).toNat 8
  have e1 : (2 : Nat) ^ 8 - 1 = 0xFF := by norm_num
  rw [e1] at h
  rw [h]
  omega

/-- C10: a packet of length at least 2 whose epoch byte is the epoch before the
channel's, `(E - 1) mod 256`, is dropped by all three handlers, whether the
worker is active or not: as an ACK in `tcp_sender`, and as data in
`tcp_receiver` in target mode and in forward mode.  The channel record (with
`channel_state` and `epoch`) is unchanged, `LAR`, `SEQ` and `NFE` keep their
values, and no event occurs: nothing is written to the TCP socket and no ACK
is sent.  `EPOCH_IS_EARLIER (e, f)` is `((f - e) mod 256) <= 128`. -/
theorem stale_epoch_dropped (mode : relay_mode_t) (env : relay_env) (ct : channel_t)
    (s : sender_t) (r : receiver_t)
    (hs : 2 ≤ s.len) (hse : PKT_EPOCH s.packet = (ct.epoch - 1) % 256)
    (hr : 2 ≤ r.len) (hre : PKT_EPOCH r.packet = (ct.epoch - 1) % 256) :
    (∃ s1, tcp_sender_ack mode ct s env.packet_addr = some (ct, s1, []) ∧
      s1.LAR = s.LAR ∧ s1.SEQ = s.SEQ ∧ s1.is_active = s.is_active) ∧
    (∃ r1, tcp_receiver_packet MODE_TCP_TARGET env ct r = some (ct, r1, []) ∧
      r1.NFE = r.NFE ∧ r1.is_active = r.is_active) ∧
    (∃ r1, tcp_receiver_packet MODE_TCP_FORWARD env ct r = some (ct, r1, []) ∧
      r1.NFE = r.NFE ∧ r1.is_active = r.is_active) ∧
    (∀ e f : Int, EPOCH_IS_EARLIER e f = true ↔ (f - e) % 256 ≤ 128) := by
  have hne : ∀ x : Int, x = (ct.epoch - 1) % 256 → x ≠ ct.epoch := by
    intro x hx; omega
  refine ⟨?_, ?_, ?_, epoch_is_earlier_iff⟩
  · unfold tcp_sender_ack
    rw [if_neg (by omega)]
    by_cases ha : s.is_active = 0
    · rw [if_pos ha]
      exact ⟨s, rfl, rfl, rfl, rfl⟩
    · rw [if_neg ha, if_pos (hne _ hse)]
      exact ⟨_, rfl, rfl, rfl, rfl⟩
  · unfold tcp_receiver_packet
    rw [if_neg (by omega), if_pos rfl]
    by_cases ha : r.is_active = 0
    · rw [if_pos ha]
      exact ⟨r, rfl, rfl, rfl⟩
    · rw [if_neg ha, if_pos (hne _ hre)]
      exact ⟨_, rfl, rfl, rfl⟩
  · unfold tcp_receiver_packet
    rw [if_neg (by omega), if_neg (by decide)]
    have hearly : EPOCH_IS_EARLIER (PKT_EPOCH r.packet) ct.epoch = true := by
      rw [epoch_is_earlier_iff, hre]
      omega
    rw [if_pos ⟨hne _ hre, hearly⟩]
    exact ⟨_, rfl, rfl, rfl⟩

/-- Witness for C10: a straggler of epoch 4 reaching a channel of epoch 5. -/
theorem stale_epoch_dropped_witness :
    (2 : Int) ≤ sender_example.len ∧
    PKT_EPOCH sender_example.packet = (channel_example.epoch - 1) % 256 ∧
    (2 : Int) ≤ receiver_example.len ∧
    PKT_EPOCH receiver_example.packet = (channel_example.epoch - 1) % 256 ∧
    ((∃ s1, tcp_sender_ack MODE_TCP_TARGET channel_example sender_example
          env_example.packet_addr = some (channel_example, s1, []) ∧
      s1.LAR = sender_example.LAR ∧ s1.SEQ = sender_example.SEQ ∧
      s1.is_active = sender_example.is_active) ∧
    (∃ r1, tcp_receiver_packet MODE_TCP_TARGET env_example channel_example receiver_example
          = some (channel_example, r1, []) ∧
      r1.NFE = receiver_example.NFE ∧ r1.is_active = receiver_example.is_active) ∧
    (∃ r1, tcp_receiver_packet MODE_TCP_FORWARD env_example channel_example receiver_example
          = some (channel_example, r1, []) ∧
      r1.NFE = receiver_example.NFE ∧ r1.is_active = receiver_example.is_active) ∧
    (∀ e f : Int, EPOCH_IS_EARLIER e f = true ↔ (f - e) % 256 ≤ 128)) :=
  ⟨by decide, by decide, by decide, by decide,
    stale_epoch_dropped MODE_TCP_TARGET env_example channel_example sender_example
      receiver_example (by decide) (by decide) (by decide) (by decide)⟩

/-! ### Further claims about the FIFO queue -/

theorem fq_enqueue_exact (q : fq_t) (h : fq_wf q) (b : List Nat) (n : Int)
    (cond lock : Option Nat) (env : pthread_env)
    (hn0 : 0 ≤ n) (hn : n ≤ q.item_len) (hb : n ≤ b.length)
    (hnf : Int.tmod (q.tail + 1) q.queue_len ≠ q.head) :
    fq_enqueue (some q) (some b) n cond lock env
      = some (fq_enqueue_wake (fq_push q b n) cond lock env) := by
  have hsb := slot_bound q h q.tail n h.2.2.2.2.1 h.2.2.2.2.2.1 hn
  have hlen := h.2.2.2.2.2.2.1
  have ht0 := h.2.2.2.2.1
  have ht1 := h.2.2.2.2.2.1
  have hm : memcpy q.data (q.tail * q.item_len) b 0 n = some (fq_push q b n).data := by
    unfold memcpy
    rw [if_pos ⟨hsb.1, le_refl _, hn0, hsb.2, by omega⟩]
    rfl
  have hs : arr_set q.length q.tail n = some (fq_push q b n).length := by
    unfold arr_set
    rw [if_pos ⟨ht0, by omega⟩]
    rfl
  unfold fq_enqueue
  simp only []
  rw [if_neg (by omega), if_neg hnf, hm]
  simp only [hs]
  unfold fq_enqueue_wake
  cases cond with
  | none => rfl
  | some c =>
    simp only []
    by_cases hw : Int.tmod (q.head + 1) q.queue_len = Int.tmod (q.tail + 1) q.queue_len
    · have hw2 : Int.tmod ((fq_push q b n).head + 1) (fq_push q b n).queue_len
          = (fq_push q b n).tail := hw
      rw [if_pos hw, if_pos hw2]
      rfl
    · have hw2 : ¬ Int.tmod ((fq_push q b n).head + 1) (fq_push q b n).queue_len
          = (fq_push q b n).tail := hw
      rw [if_neg hw, if_neg hw2]
      rfl

theorem fq_enqueue_outcome (q : fq_t) (h : fq_wf q) (buf : Option (List Nat)) (n : Int)
    (cond lock : Option Nat) (env : pthread_env) (o : enq_out)
    (he : fq_enqueue (some q) buf n cond lock env = some o) :
    (o.fq = some q ∧ o.calls = [] ∧ (o.rv = FQ_BAD_PARAMETER ∨ o.rv = FQ_ITEM_DISCARDED)) ∨
    (∃ b, buf = some b ∧ 0 ≤ n ∧ n ≤ q.item_len ∧ n ≤ b.length ∧
      Int.tmod (q.tail + 1) q.queue_len ≠ q.head ∧
      o = fq_enqueue_wake (fq_push q b n) cond lock env) := by
  cases buf with
  | none =>
    simp only [fq_enqueue, Option.some.injEq] at he
    subst he
    exact Or.inl ⟨rfl, rfl, Or.inl rfl⟩
  | some b =>
    by_cases hbad : n < 0 ∨ n > q.item_len
    · simp only [fq_enqueue, if_pos hbad, Option.some.injEq] at he
      subst he
      exact Or.inl ⟨rfl, rfl, Or.inl rfl⟩
    · by_cases hfull : Int.tmod (q.tail + 1) q.queue_len = q.head
      · simp only [fq_enqueue, if_neg hbad, if_pos hfull, Option.some.injEq] at he
        subst he
        exact Or.inl ⟨rfl, rfl, Or.inr rfl⟩
      · have hb : n ≤ b.length := by
          simp only [fq_enqueue, if_neg hbad, if_neg hfull] at he
          cases hm : memcpy q.data (q.tail * q.item_len) b 0 n with
          | none => rw [hm] at he; cases he
          | some d =>
            have := memcpy_some _ _ _ _ _ _ hm
            omega
        rw [fq_enqueue_exact q h b n cond lock env (by omega) (by omega) hb hfull] at he
        exact Or.inr ⟨b, rfl, by omega, by omega, hb, hfull, (Option.some.inj he).symm⟩

theorem fq_signal_calls (q : fq_t) (c : Nat) (lock : Option Nat) (env : pthread_env) :
    (fq_signal q c lock env).fq = some q ∧
    ((fq_signal q c lock env).rv = FQ_OK → pthread_call.signal c ∈ (fq_signal q c lock env).calls)
    := by
  unfold fq_signal
  cases lock with
  | none =>
    simp only []
    split
    · exact ⟨rfl, fun h => by cases h⟩
    · exact ⟨rfl, fun _ => by simp⟩
  | some l =>
    simp only []
    split
    · exact ⟨rfl, fun h => by cases h⟩
    · split
      · exact ⟨rfl, fun h => by cases h⟩
      · split
        · exact ⟨rfl, fun h => by cases h⟩
        · exact ⟨rfl, fun _ => by simp⟩

theorem fq_wake_test (q : fq_t) (h : fq_wf q) (b : List Nat) (n : Int) :
    Int.tmod ((fq_push q b n).head + 1) (fq_push q b n).queue_len = (fq_push q b n).tail
      ↔ q.head = q.tail := by
  obtain ⟨h1, h2, h3, h4, h5, h6, -⟩ := h
  have e1 : (fq_push q b n).head = q.head := rfl
  have e2 : (fq_push q b n).queue_len = q.queue_len := rfl
  have e3 : (fq_push q b n).tail = Int.tmod (q.tail + 1) q.queue_len := rfl
  rw [e1, e2, e3, int_tmod_succ q.head q.queue_len h3 h4, int_tmod_succ q.tail q.queue_len h5 h6]
  split <;> split <;> omega

theorem fq_enqueue_wake_fq (q2 : fq_t) (cond lock : Option Nat) (env : pthread_env) :
    (fq_enqueue_wake q2 cond lock env).fq = some q2 := by
  unfold fq_enqueue_wake
  cases cond with
  | none => rfl
  | some c =>
    simp only []
    split
    · exact (fq_signal_calls _ c lock env).1
    · rfl

theorem fq_dequeue_ok_pop (q : fq_t) (buf : Option (List Nat)) (bl : Option Int) (o : deq_out)
    (he : fq_dequeue (some q) buf bl = some o) (hok : o.rv = FQ_OK) :
    o.fq = some (fq_pop q) := by
  cases buf with
  | none =>
    simp only [fq_dequeue, Option.some.injEq] at he
    subst he
    cases hok
  | some b =>
    cases bl with
    | none => simp [fq_dequeue] at he
    | some v =>
      simp only [fq_dequeue] at he
      split at he
      · simp only [Option.some.injEq] at he; subst he; cases hok
      · split at he
        · simp only [Option.some.injEq] at he; subst he; cases hok
        · split at he
          · cases he
          · split at he
            · simp only [Option.some.injEq] at he; subst he; cases hok
            · split at he
              · cases he
              · simp only [Option.some.injEq] at he
                subst he
                rfl

theorem fq_items_nil_iff (q : fq_t) (h : fq_wf q) : fq_items q = [] ↔ q.head = q.tail := by
  obtain ⟨h1, h2, h3, h4, h5, h6, -⟩ := id h
  have hb := fq_count_bounds q h
  have hc := fq_count_eq q h3 h4 h5 h6
  rw [← List.length_eq_zero]
  constructor
  · intro hz
    rw [hz, hc] at hb
    have := hb.2.2
    split at this <;> omega
  · intro he
    have : fq_count q = 0 := by rw [hc, he]; simp
    have := hb.2.2
    omega

theorem fq_push_unchanged (q : fq_t) (h : fq_wf q) (b : List Nat) (n : Int)
    (hn0 : 0 ≤ n) (hn : n ≤ q.item_len) (hb : n ≤ b.length) :
    (∀ s : Nat, (s : Int) ≠ q.tail → (fq_push q b n).length[s]? = q.length[s]?) ∧
    (∀ k : Nat, ((k : Int) < q.tail * q.item_len ∨ (q.tail + 1) * q.item_len ≤ k) →
      (fq_push q b n).data[k]? = q.data[k]?) := by
  have hsb := slot_bound q h q.tail n h.2.2.2.2.1 h.2.2.2.2.2.1 hn
  have ht0 := h.2.2.2.2.1
  constructor
  · intro s hs
    have : q.tail.toNat ≠ s := by omega
    simp only [fq_push]
    rw [List.getElem?_set_ne this]
  · intro k hk
    have hB : ((b.drop (0 : Int).toNat).take n.toNat).length = n.toNat := by
      simp
      omega
    have e : (q.tail * q.item_len + n).toNat = (q.tail * q.item_len).toNat
        + ((b.drop (0 : Int).toNat).take n.toNat).length := by
      rw [hB]; omega
    simp only [fq_push]
    rw [e]
    apply splice_getElem?
    · rw [hB]; omega
    · rw [hB]
      have e2 : (q.tail + 1) * q.item_len = q.tail * q.item_len + q.item_len := by ring
      rcases hk with hk | hk
      · left; omega
      · right; omega

/-- C15 fails on the code for the null pointer: `fq_dequeue` called with non-null
`fq` and `buf` and a null `buf_len` evaluates `*buf_len` in its parameter test
`(buf_len == NULL && *buf_len != 0)`, a read through the null pointer, so the
call has no defined result instead of returning `FQ_BAD_PARAMETER`.  The other
half of the claim holds: with `*buf_len < 0` the call returns
`FQ_BAD_PARAMETER` and leaves the queue, the buffer and `*buf_len` as they
were. -/
theorem fq_dequeue_null_buf_len (q : fq_t) (b : List Nat) (bl : Int) (hbl : bl < 0) :
    fq_dequeue (some q) (some b) none = none ∧
    fq_dequeue (some q) (some b) (some bl)
      = some ⟨FQ_BAD_PARAMETER, some q, some b, some bl⟩ := by
  refine ⟨rfl, ?_⟩
  unfold fq_dequeue
  simp only []
  rw [if_pos hbl]

/-- Witness for C15: the empty 2-slot queue, a 2-byte buffer, `*buf_len = -1`. -/
theorem fq_dequeue_null_buf_len_witness :
    (-1 : Int) < 0 ∧
    fq_dequeue (some fresh_2_2) (some [0, 0]) none = none ∧
    fq_dequeue (some fresh_2_2) (some [0, 0]) (some (-1))
      = some ⟨FQ_BAD_PARAMETER, some fresh_2_2, some [0, 0], some (-1)⟩ :=
  ⟨by decide, fq_dequeue_null_buf_len fresh_2_2 [0, 0] (-1) (by decide)⟩

/-- C17: in every queue reachable from `fq_create (N, L)` by `fq_enqueue` and
`fq_dequeue`, `0 ≤ head ≤ N` and `0 ≤ tail ≤ N`; the stored length of every
occupied slot is in `0 .. L`; the queue holds no item iff `head == tail` and
holds `N` items iff `(tail + 1) mod (N + 1) == head`; an `fq_enqueue` returning
`FQ_OK` leaves head, sizes, the lengths of all slots but the old tail and all
data bytes outside the old tail slot as they were and advances the tail; an
`fq_dequeue` returning `FQ_OK` changes only the head. -/
theorem fq_index_invariant (queue_len item_len : Int) (heap : heap_t) (q0 q : fq_t)
    (hc : fq_create false queue_len item_len heap = (FQ_OK, some q0))
    (hr : fq_reachable q0 q) :
    (0 ≤ q.head ∧ q.head ≤ queue_len ∧ 0 ≤ q.tail ∧ q.tail ≤ queue_len) ∧
    (∀ j : Nat, (j : Int) < fq_count q →
      0 ≤ (fq_item_at q (fq_slot q j)).1 ∧ (fq_item_at q (fq_slot q j)).1 ≤ item_len) ∧
    (fq_items q = [] ↔ q.head = q.tail) ∧
    (((fq_items q).length : Int) = queue_len ↔ (q.tail + 1) % (queue_len + 1) = q.head) ∧
    (∀ buf n cond lock env o, fq_enqueue (some q) buf n cond lock env = some o →
      o.rv = FQ_OK →
      ∃ q1, o.fq = some q1 ∧ q1.head = q.head ∧ q1.queue_len = q.queue_len ∧
        q1.item_len = q.item_len ∧ q1.tail = (q.tail + 1) % (queue_len + 1) ∧
        (∀ s : Nat, (s : Int) ≠ q.tail → q1.length[s]? = q.length[s]?) ∧
        (∀ k : Nat, ((k : Int) < q.tail * item_len ∨ (q.tail + 1) * item_len ≤ k) →
          q1.data[k]? = q.data[k]?)) ∧
    (∀ buf bl o, fq_dequeue (some q) buf bl = some o → o.rv = FQ_OK →
      o.fq = some { q with head := (q.head + 1) % (queue_len + 1) }) := by
  obtain ⟨hw0, -, hL0, hN0, -⟩ := fq_create_ok queue_len item_len heap q0 hc
  obtain ⟨hw, hL, hN⟩ := fq_reachable_wf q0 q hw0 hr
  rw [hL0] at hL
  rw [hN0] at hN
  obtain ⟨h1, h2, h3, h4, h5, h6, h7, h8, h9⟩ := id hw
  have htm : ∀ a : Int, 0 ≤ a → Int.tmod a q.queue_len = a % (queue_len + 1) := by
    intro a ha
    rw [Int.tmod_eq_emod ha (by omega), hN]
  refine ⟨⟨h3, by omega, h5, by omega⟩, ?_, fq_items_nil_iff q hw, ?_, ?_, ?_⟩
  · intro j hj
    have := h9 j hj
    rw [hL] at this
    exact this
  · have hb := fq_count_bounds q hw
    have hf := fq_full_iff q hw
    rw [htm _ (by omega)] at hf
    rw [hf, ← hb.2.2, hN]
    constructor <;> intro h <;> omega
  · intro buf n cond lock env o he hok
    rcases fq_enqueue_outcome q hw buf n cond lock env o he with ⟨-, -, hrv⟩ | ⟨b, -, hn0, hn1, hb, -, ho⟩
    · rcases hrv with hrv | hrv <;> rw [hrv] at hok <;> cases hok
    · have hfq : o.fq = some (fq_push q b n) := by
        rw [ho]
        unfold fq_enqueue_wake
        cases cond with
        | none => rfl
        | some c =>
          simp only []
          split
          · exact (fq_signal_calls _ c lock env).1
          · rfl
      have hu := fq_push_unchanged q hw b n hn0 hn1 hb
      rw [hL] at hu
      exact ⟨fq_push q b n, hfq, rfl, rfl, rfl, htm _ (by omega), hu.1, hu.2⟩
  · intro buf bl o he hok
    rw [fq_dequeue_ok_pop q buf bl o he hok]
    unfold fq_pop
    rw [htm _ (by omega)]

/-- C18: on a queue reachable from `fq_create`, an `fq_enqueue` that is given a
non-null condition variable and returns `FQ_OK` signals it if and only if the
queue was empty just before (`head == tail`), which is the case exactly when the
new tail equals `(head + 1) mod (N + 1)`; and whatever it returns, an enqueue
into a queue that already held an item makes no pthread call. -/
theorem fq_enqueue_wakeup (queue_len item_len : Int) (heap : heap_t) (q0 q : fq_t)
    (buf : Option (List Nat)) (n : Int) (c : Nat) (lock : Option Nat) (env : pthread_env)
    (o : enq_out)
    (hc : fq_create false queue_len item_len heap = (FQ_OK, some q0))
    (hr : fq_reachable q0 q)
    (he : fq_enqueue (some q) buf n (some c) lock env = some o) :
    (o.rv = FQ_OK →
      (pthread_call.signal c ∈ o.calls ↔ q.head = q.tail) ∧
      ∃ q1, o.fq = some q1 ∧
        (q.head = q.tail ↔ q1.tail = (q1.head + 1) % (queue_len + 1))) ∧
    (q.head ≠ q.tail → o.calls = []) := by
  obtain ⟨hw0, -, hL0, hN0, -⟩ := fq_create_ok queue_len item_len heap q0 hc
  obtain ⟨hw, hL, hN⟩ := fq_reachable_wf q0 q hw0 hr
  rw [hN0] at hN
  obtain ⟨h1, h2, h3, h4, h5, h6, -⟩ := id hw
  rcases fq_enqueue_outcome q hw buf n (some c) lock env o he with
    ⟨-, hcalls, hrv⟩ | ⟨b, -, hn0, hn1, hb, -, ho⟩
  · refine ⟨fun hok => ?_, fun _ => hcalls⟩
    rcases hrv with hrv | hrv <;> rw [hrv] at hok <;> cases hok
  · have hwt := fq_wake_test q hw b n
    have hfq : o.fq = some (fq_push q b n) := by
      rw [ho]
      unfold fq_enqueue_wake
      simp only []
      split
      · exact (fq_signal_calls _ c lock env).1
      · rfl
    have htail : q.head = q.tail ↔
        (fq_push q b n).tail = ((fq_push q b n).head + 1) % (queue_len + 1) := by
      rw [← hwt]
      have e2 : (fq_push q b n).queue_len = q.queue_len := rfl
      have e1 : (fq_push q b n).head = q.head := rfl
      rw [e2, e1, Int.tmod_eq_emod (by omega) (by omega), hN]
      exact eq_comm
    by_cases hemp : q.head = q.tail
    · have hsig : o = fq_signal (fq_push q b n) c lock env := by
        rw [ho]
        unfold fq_enqueue_wake
        simp only []
        rw [if_pos (hwt.mpr hemp)]
      refine ⟨fun hok => ⟨⟨fun _ => hemp, fun _ => ?_⟩, fq_push q b n, hfq, htail⟩,
        fun hne => absurd hemp hne⟩
      rw [hsig] at hok ⊢
      exact (fq_signal_calls _ c lock env).2 hok
    · have hplain : o = ⟨FQ_OK, some (fq_push q b n), []⟩ := by
        rw [ho]
        unfold fq_enqueue_wake
        simp only []
        rw [if_neg (fun hh => hemp (hwt.mp hh))]
      refine ⟨fun _ => ⟨⟨fun hs => ?_, fun hh => absurd hh hemp⟩, fq_push q b n, hfq, htail⟩,
        fun _ => by rw [hplain]⟩
      rw [hplain] at hs
      simp at hs
/-- Witness for C17: the 2-slot queue holding `"BC"`. -/
theorem fq_index_invariant_witness :
    fq_create false 2 2 heap_ok = (FQ_OK, some fresh_2_2) ∧
    fq_reachable fresh_2_2 one_item_2_2 ∧
    (0 ≤ one_item_2_2.head ∧ one_item_2_2.head ≤ 2 ∧ 0 ≤ one_item_2_2.tail ∧
      one_item_2_2.tail ≤ 2) ∧
    (fq_items one_item_2_2 = [] ↔ one_item_2_2.head = one_item_2_2.tail) ∧
    (((fq_items one_item_2_2).length : Int) = 2 ↔
      (one_item_2_2.tail + 1) % (2 + 1) = one_item_2_2.head) ∧
    (∀ buf bl o, fq_dequeue (some one_item_2_2) buf bl = some o → o.rv = FQ_OK →
      o.fq = some { one_item_2_2 with head := (one_item_2_2.head + 1) % (2 + 1) }) :=
  have hr : fq_reachable fresh_2_2 one_item_2_2 :=
    fq_reachable.step fresh_2_2 (.enqueue (some [0x42, 0x43]) 2 none none env_ok)
      (.enq ⟨FQ_OK, some one_item_2_2, []⟩) one_item_2_2 fq_reachable.init (by decide)
  have h := fq_index_invariant 2 2 heap_ok fresh_2_2 one_item_2_2 (by decide) hr
  ⟨by decide, hr, h.1, h.2.2.1, h.2.2.2.1, h.2.2.2.2.2⟩

/-- Witness for C18: an enqueue of `"BC"` into the empty 2-slot queue, with
condition variable 0 and mutex 1, signals; into the queue holding one item it
does not. -/
theorem fq_enqueue_wakeup_witness :
    fq_create false 2 2 heap_ok = (FQ_OK, some fresh_2_2) ∧
    fq_reachable fresh_2_2 fresh_2_2 ∧
    fq_enqueue (some fresh_2_2) (some [0x42, 0x43]) 2 (some 0) (some 1) env_ok
      = some ⟨FQ_OK, some one_item_2_2, [.lock 1, .signal 0, .unlock 1]⟩ ∧
    (pthread_call.signal 0 ∈ [pthread_call.lock 1, .signal 0, .unlock 1] ↔
      fresh_2_2.head = fresh_2_2.tail) :=
  ⟨by decide, fq_reachable.init, by decide,
    ((fq_enqueue_wakeup 2 2 heap_ok fresh_2_2 fresh_2_2 (some [0x42, 0x43]) 2 0 (some 1) env_ok
      ⟨FQ_OK, some one_item_2_2, [.lock 1, .signal 0, .unlock 1]⟩
      (by decide) fq_reachable.init (by decide)).1 rfl).1⟩
/-! ### Further claims about the relay -/

attribute [irreducible] move_buffers_down

theorem next_seq_num_eq (n : Int) (h : 0 ≤ n) : NEXT_SEQ_NUM n = (n + 1) % 128 := by
  unfold NEXT_SEQ_NUM
  obtain ⟨m, rfl⟩ := Int.eq_ofNat_of_zero_le h
  have e : ((m : Int) + 0x01) = ((m + 1 : Nat) : Int) := by push_cast; rfl
  rw [e]
  have h2 := Nat.and_pow_two_sub_one_eq_mod (m + 1) 7
  have e1 : (2 : Nat) ^ 7 - 1 = 0x7F := by norm_num
  rw [e1] at h2
  show ((Nat.land (m + 1) 0x7F : Nat) : Int) = _
  have : Nat.land (m + 1) 0x7F = (m + 1) &&& 0x7F := rfl
  rw [this, h2]
  push_cast
  norm_num

theorem pkt_seq_num_range (p : List Nat) : 0 ≤ PKT_SEQ_NUM p ∧ PKT_SEQ_NUM p ≤ 127 := by
  unfold PKT_SEQ_NUM
  have h2 := Nat.and_pow_two_sub_one_eq_mod (p.getD 0 0) 7
  have e1 : (2 : Nat) ^ 7 - 1 = 0x7F := by norm_num
  rw [e1] at h2
  rw [h2]
  omega

theorem deactivate_channel_spec (mode : relay_mode_t) (ct : channel_t) (flag : Nat) :
    (deactivate_channel mode ct flag).1.channel_state = ct.channel_state ||| flag ∧
    (deactivate_channel mode ct flag).1.fd = ct.fd ∧
    (deactivate_channel mode ct flag).1.need_help = ct.need_help ∧
    (deactivate_channel mode ct flag).1.has_data = ct.has_data ∧
    (deactivate_channel mode ct flag).1.number = ct.number ∧
    (ct.channel_state ||| flag = CLOSE_CHANNEL_ALL →
      (deactivate_channel mode ct flag).1.epoch = ct.epoch + 1 ∧
      (mode = MODE_TCP_TARGET → (deactivate_channel mode ct flag).1.active = 0 ∧
        (deactivate_channel mode ct flag).2.count .sem_post = 1) ∧
      (mode = MODE_TCP_FORWARD → (deactivate_channel mode ct flag).1.active = ct.active ∧
        (deactivate_channel mode ct flag).2.count .sem_post = 0) ∧
      (deactivate_channel mode ct flag).2.count (.close ct.fd) = 1) ∧
    (ct.channel_state ||| flag ≠ CLOSE_CHANNEL_ALL →
      (deactivate_channel mode ct flag).1.epoch = ct.epoch ∧
      (deactivate_channel mode ct flag).1.active = ct.active ∧
      (deactivate_channel mode ct flag).2.count .sem_post = 0 ∧
      (deactivate_channel mode ct flag).2.count (.close ct.fd) = 0) ∧
    (ct.channel_state = CLOSE_CHANNEL_NONE →
      (deactivate_channel mode ct flag).2.filter (fun e => e matches .wake_threads _)
        = [.wake_threads flag]) ∧
    (ct.channel_state ≠ CLOSE_CHANNEL_NONE →
      (deactivate_channel mode ct flag).2.filter (fun e => e matches .wake_threads _) = []) := by
  unfold deactivate_channel
  by_cases hall : ct.channel_state ||| flag = CLOSE_CHANNEL_ALL
  · simp only [hall, if_true]
    by_cases hfirst : ct.channel_state = CLOSE_CHANNEL_NONE
    · cases mode <;> simp [hfirst]
    · cases mode <;> simp [hfirst]
  · simp only [hall, if_false]
    by_cases hfirst : ct.channel_state = CLOSE_CHANNEL_NONE
    · simp [hfirst]
    · simp [hfirst]

theorem tcp_sender_window_stale (mode : relay_mode_t) (ct : channel_t) (s : sender_t)
    (packet_addr : Nat)
    (h : PKT_SEQ_NUM s.packet < NEXT_SEQ_NUM s.LAR ∨
      PKT_SEQ_NUM s.packet > NEXT_SEQ_NUM s.LAR + SWP_BUFFER_SIZE) :
    tcp_sender_window mode ct s packet_addr =
      some ((deactivate_channel mode ct CLOSE_CHANNEL_SENDER).1,
        { s with
          LAR := NEXT_SEQ_NUM s.LAR
          buffer := (move_buffers_down s.buffer s.bufferValid).1
          bufferValid := (move_buffers_down s.buffer s.bufferValid).2
          seq_num := PKT_SEQ_NUM s.packet
          is_active := 0 },
        (deactivate_channel mode ct CLOSE_CHANNEL_SENDER).2) := by
  unfold tcp_sender_window
  exact if_pos h

theorem tcp_sender_duplicate (mode : relay_mode_t) (ct : channel_t) (s : sender_t)
    (packet_addr : Nat)
    (hlen : 2 ≤ s.len) (hact : s.is_active ≠ 0) (hep : PKT_EPOCH s.packet = ct.epoch)
    (hdup : PKT_SEQ_NUM s.packet = s.LAR) :
    ∃ s1, tcp_sender_ack mode ct s packet_addr =
        some ((deactivate_channel mode ct CLOSE_CHANNEL_SENDER).1, s1,
          (deactivate_channel mode ct CLOSE_CHANNEL_SENDER).2) ∧
      s1.LAR = NEXT_SEQ_NUM s.LAR ∧ s1.LAR = (s.LAR + 1) % 128 ∧ s1.LAR ≠ s.LAR ∧
      s1.is_active = 0 ∧ s1.SEQ = s.SEQ := by
  have hr := pkt_seq_num_range s.packet
  rw [hdup] at hr
  have hn := next_seq_num_eq s.LAR hr.1
  unfold tcp_sender_ack
  rw [if_neg (by omega), if_neg hact, if_neg (not_not.mpr hep)]
  rw [tcp_sender_window_stale mode ct _ packet_addr (by
    show PKT_SEQ_NUM s.packet < NEXT_SEQ_NUM s.LAR ∨
      PKT_SEQ_NUM s.packet > NEXT_SEQ_NUM s.LAR + SWP_BUFFER_SIZE
    rw [hdup, hn]
    simp only [SWP_BUFFER_SIZE]
    omega)]
  refine ⟨_, rfl, rfl, hn, ?_, rfl, rfl⟩
  show NEXT_SEQ_NUM s.LAR ≠ s.LAR
  rw [hn]
  omega

/-- C13, as stated, fails on the code: an active sender with `LAR == 5` that
handles an ACK of the channel's epoch with sequence number 5 ends with
`LAR == 6`. -/
theorem duplicate_ack_counterexample :
    sender_duplicate.is_active ≠ 0 ∧
    PKT_EPOCH sender_duplicate.packet = channel_example.epoch ∧
    PKT_SEQ_NUM sender_duplicate.packet = sender_duplicate.LAR ∧
    ∃ ct1 s1 ev, tcp_sender_ack MODE_TCP_TARGET channel_example sender_duplicate 0x1000
        = some (ct1, s1, ev) ∧ s1.LAR = 6 ∧ s1.LAR ≠ sender_duplicate.LAR := by
  refine ⟨by decide, by decide, by decide, ?_⟩
  obtain ⟨s1, h1, h2, -⟩ := tcp_sender_duplicate MODE_TCP_TARGET channel_example
    sender_duplicate 0x1000 (by decide) (by decide) (by decide) (by decide)
  refine ⟨_, s1, _, h1, ?_, ?_⟩
  · rw [h2]; decide
  · rw [h2]; decide

/-- C13 (amended): an active sender that handles an ACK of at least two bytes
with the channel's epoch and with `seq_num == LAR` (a duplicate of the last
acknowledged sequence number) advances `LAR` to `NEXT_SEQ_NUM (LAR)`, that is
`(LAR + 1) mod 128`, which differs from the old `LAR`; the ACK then fails the
window test, so the sender calls `deactivate_channel (ct, CLOSE_CHANNEL_SENDER)`
and becomes inactive.  `SEQ` is unchanged. -/
theorem duplicate_ack_advances (mode : relay_mode_t) (ct : channel_t) (s : sender_t)
    (packet_addr : Nat)
    (hlen : 2 ≤ s.len) (hact : s.is_active ≠ 0) (hep : PKT_EPOCH s.packet = ct.epoch)
    (hdup : PKT_SEQ_NUM s.packet = s.LAR) :
    ∃ s1, tcp_sender_ack mode ct s packet_addr =
        some ((deactivate_channel mode ct CLOSE_CHANNEL_SENDER).1, s1,
          (deactivate_channel mode ct CLOSE_CHANNEL_SENDER).2) ∧
      s1.LAR = NEXT_SEQ_NUM s.LAR ∧ s1.LAR = (s.LAR + 1) % 128 ∧ s1.LAR ≠ s.LAR ∧
      s1.is_active = 0 ∧ s1.SEQ = s.SEQ :=
  tcp_sender_duplicate mode ct s packet_addr hlen hact hep hdup

/-- Witness for C13 (amended): `LAR == 5`, ACK of epoch 5 with sequence number 5. -/
theorem duplicate_ack_advances_witness :
    (2 : Int) ≤ sender_duplicate.len ∧ sender_duplicate.is_active ≠ 0 ∧
    PKT_EPOCH sender_duplicate.packet = channel_example.epoch ∧
    PKT_SEQ_NUM sender_duplicate.packet = sender_duplicate.LAR ∧
    ∃ s1, tcp_sender_ack MODE_TCP_TARGET channel_example sender_duplicate 0x1000 =
        some ((deactivate_channel MODE_TCP_TARGET channel_example CLOSE_CHANNEL_SENDER).1, s1,
          (deactivate_channel MODE_TCP_TARGET channel_example CLOSE_CHANNEL_SENDER).2) ∧
      s1.LAR = NEXT_SEQ_NUM sender_duplicate.LAR ∧ s1.LAR = (sender_duplicate.LAR + 1) % 128 ∧
      s1.LAR ≠ sender_duplicate.LAR ∧ s1.is_active = 0 ∧ s1.SEQ = sender_duplicate.SEQ :=
  ⟨by decide, by decide, by decide, by decide,
    duplicate_ack_advances MODE_TCP_TARGET channel_example sender_duplicate 0x1000
      (by decide) (by decide) (by decide) (by decide)⟩

/-- C19: `deactivate_channel (ct, flag)`, for every channel record whose epoch is
an `int` below `INT_MAX` and every flag (in particular `CLOSE_CHANNEL_HELPER`,
`CLOSE_CHANNEL_RECEIVER` and `CLOSE_CHANNEL_SENDER`), with the lock and
semaphore calls succeeding: the new `channel_state` is the old one OR `flag`;
if it is `CLOSE_CHANNEL_ALL` the epoch is one more than before and still in the
range of `int`, the descriptor is closed once and, in target mode only,
`active` becomes 0 and the semaphore is posted once; if it is not
`CLOSE_CHANNEL_ALL` then `epoch`, `fd` and `active` are unchanged and there is no
`close` and no `sem_post`; `wake_threads` is called, once and with `flag`,
exactly when `channel_state` was `CLOSE_CHANNEL_NONE` on entry. -/
theorem deactivate_channel_effect (mode : relay_mode_t) (ct : channel_t) (flag : Nat)
    (hlo : -2 ^ 31 ≤ ct.epoch) (hhi : ct.epoch < 2 ^ 31 - 1) :
    (deactivate_channel mode ct flag).1.channel_state = ct.channel_state ||| flag ∧
    ((deactivate_channel mode ct flag).1.channel_state = CLOSE_CHANNEL_ALL →
      (deactivate_channel mode ct flag).1.epoch = ct.epoch + 1 ∧
      -2 ^ 31 ≤ (deactivate_channel mode ct flag).1.epoch ∧
      (deactivate_channel mode ct flag).1.epoch ≤ 2 ^ 31 - 1 ∧
      (deactivate_channel mode ct flag).2.count (.close ct.fd) = 1 ∧
      (mode = MODE_TCP_TARGET → (deactivate_channel mode ct flag).1.active = 0 ∧
        (deactivate_channel mode ct flag).2.count .sem_post = 1) ∧
      (mode = MODE_TCP_FORWARD → (deactivate_channel mode ct flag).1.active = ct.active ∧
        (deactivate_channel mode ct flag).2.count .sem_post = 0)) ∧
    ((deactivate_channel mode ct flag).1.channel_state ≠ CLOSE_CHANNEL_ALL →
      (deactivate_channel mode ct flag).1.epoch = ct.epoch ∧
      (deactivate_channel mode ct flag).1.fd = ct.fd ∧
      (deactivate_channel mode ct flag).1.active = ct.active ∧
      (deactivate_channel mode ct flag).2.count .sem_post = 0 ∧
      (deactivate_channel mode ct flag).2.count (.close ct.fd) = 0) ∧
    (ct.channel_state = CLOSE_CHANNEL_NONE →
      (deactivate_channel mode ct flag).2.filter (fun e => e matches .wake_threads _)
        = [.wake_threads flag]) ∧
    (ct.channel_state ≠ CLOSE_CHANNEL_NONE →
      (deactivate_channel mode ct flag).2.filter (fun e => e matches .wake_threads _) = []) := by
  obtain ⟨h1, h2, -, -, -, h6, h7, h8, h9⟩ := deactivate_channel_spec mode ct flag
  refine ⟨h1, fun h => ?_, fun h => ?_, h8, h9⟩
  · rw [h1] at h
    obtain ⟨a, b, c, d⟩ := h6 h
    exact ⟨a, by rw [a]; omega, by rw [a]; omega, d, b, c⟩
  · rw [h1] at h
    obtain ⟨a, b, c, d⟩ := h7 h
    exact ⟨a, h2, b, c, d⟩

/-- Witness for C19: the sender is the last of the three workers to deactivate
a target-mode channel of epoch 5. -/
theorem deactivate_channel_effect_witness :
    (-2 ^ 31 : Int) ≤ channel_closing.epoch ∧ channel_closing.epoch < 2 ^ 31 - 1 ∧
    (deactivate_channel MODE_TCP_TARGET channel_closing CLOSE_CHANNEL_SENDER).1.channel_state
      = CLOSE_CHANNEL_ALL ∧
    (deactivate_channel MODE_TCP_TARGET channel_closing CLOSE_CHANNEL_SENDER).1.epoch = 6 ∧
    (deactivate_channel MODE_TCP_TARGET channel_closing CLOSE_CHANNEL_SENDER).1.active = 0 ∧
    (deactivate_channel MODE_TCP_TARGET channel_closing CLOSE_CHANNEL_SENDER).2.count .sem_post
      = 1 :=
  have h := deactivate_channel_effect MODE_TCP_TARGET channel_closing CLOSE_CHANNEL_SENDER
    (by decide) (by decide)
  have hall : (deactivate_channel MODE_TCP_TARGET channel_closing
      CLOSE_CHANNEL_SENDER).1.channel_state = CLOSE_CHANNEL_ALL := h.1.trans (by decide)
  ⟨by decide, by decide, hall, (h.2.1 hall).1.trans (by decide),
    ((h.2.1 hall).2.2.2.2.1 rfl).1, ((h.2.1 hall).2.2.2.2.1 rfl).2⟩

theorem channel_step_epoch (mode : relay_mode_t) (ct : channel_t) (op : channel_op)
    (hd : ∀ flag, op ≠ .deactivate flag)
    (hs : mode = MODE_TCP_TARGET ∨ stores_epoch op = false) :
    (channel_step mode ct op).epoch = ct.epoch := by
  cases op with
  | activate fd => cases mode <;> rfl
  | deactivate flag => exact absurd rfl (hd flag)
  | store_epoch e =>
    rcases hs with rfl | h
    · rfl
    · cases h
  | set_need_help v => rfl
  | set_has_data v => rfl

theorem full_deactivations_cons (mode : relay_mode_t) (ct : channel_t) (op : channel_op)
    (ops : List channel_op) :
    full_deactivations mode ct (op :: ops) =
      (match op with
        | .deactivate _ =>
          if (channel_step mode ct op).channel_state = CLOSE_CHANNEL_ALL then 1 else 0
        | _ => 0) + full_deactivations mode (channel_step mode ct op) ops := by
  cases op <;> simp [full_deactivations]

theorem channel_run_epoch (mode : relay_mode_t) (ops : List channel_op) (ct : channel_t)
    (hs : mode = MODE_TCP_TARGET ∨ ∀ op ∈ ops, stores_epoch op = false) :
    (channel_run mode ct ops).epoch = ct.epoch + full_deactivations mode ct ops := by
  induction ops generalizing ct with
  | nil => simp [channel_run, full_deactivations]
  | cons op ops ih =>
    have hs1 : mode = MODE_TCP_TARGET ∨ stores_epoch op = false :=
      hs.imp id fun h => h op (List.mem_cons_self _ _)
    have hs2 : mode = MODE_TCP_TARGET ∨ ∀ o ∈ ops, stores_epoch o = false :=
      hs.imp id fun h o ho => h o (List.mem_cons_of_mem _ ho)
    have h := ih (channel_step mode ct op) hs2
    unfold channel_run at h ⊢
    rw [List.foldl_cons, h, full_deactivations_cons]
    cases op with
    | deactivate flag =>
      obtain ⟨h1, -, -, -, -, h6, h7, -⟩ := deactivate_channel_spec mode ct flag
      simp only [channel_step]
      by_cases hall : ct.channel_state ||| flag = CLOSE_CHANNEL_ALL
      · rw [if_pos (h1.trans hall), (h6 hall).1]
        push_cast
        ring
      · rw [if_neg (fun h => hall (h1.symm.trans h)), (h7 hall).1]
        simp
    | activate fd =>
      rw [channel_step_epoch mode ct _ (fun _ h => by cases h) hs1]
      simp
    | store_epoch e =>
      rw [channel_step_epoch mode ct _ (fun _ h => by cases h) hs1]
      simp
    | set_need_help v =>
      rw [channel_step_epoch mode ct _ (fun _ h => by cases h) hs1]
      simp
    | set_has_data v =>
      rw [channel_step_epoch mode ct _ (fun _ h => by cases h) hs1]
      simp

theorem full_deactivations_append (mode : relay_mode_t) (ops1 ops2 : List channel_op)
    (ct : channel_t) :
    full_deactivations mode ct (ops1 ++ ops2) = full_deactivations mode ct ops1 +
      full_deactivations mode (channel_run mode ct ops1) ops2 := by
  induction ops1 generalizing ct with
  | nil => simp [channel_run, full_deactivations]
  | cons op ops ih =>
    have e := ih (channel_step mode ct op)
    rw [List.cons_append, full_deactivations_cons, full_deactivations_cons, e]
    unfold channel_run
    rw [List.foldl_cons]
    omega

theorem channel_use_full (mode : relay_mode_t) (ct : channel_t) :
    full_deactivations mode ct channel_use = 1 := by
  cases mode <;>
    simp [full_deactivations, channel_use, channel_step, activate_channel, deactivate_channel,
      CLOSE_CHANNEL_NONE, CLOSE_CHANNEL_HELPER, CLOSE_CHANNEL_RECEIVER, CLOSE_CHANNEL_SENDER,
      CLOSE_CHANNEL_ALL]

theorem channel_uses_full (mode : relay_mode_t) (k : Nat) (ct : channel_t) :
    full_deactivations mode ct (channel_uses k) = k := by
  induction k generalizing ct with
  | zero => rfl
  | succ k ih =>
    unfold channel_uses at ih ⊢
    rw [List.replicate_succ, List.flatten_cons, full_deactivations_append, channel_use_full, ih]
    omega

theorem channel_run_store (ct : channel_t) (ops : List channel_op) (e : Int)
    (hs : ∀ op ∈ ops, stores_epoch op = false) :
    (channel_step MODE_TCP_FORWARD ct (.store_epoch e)).epoch = e ∧
    (channel_run MODE_TCP_FORWARD ct (.store_epoch e :: ops)).epoch =
      e + full_deactivations MODE_TCP_FORWARD ct (.store_epoch e :: ops) := by
  have h2 : channel_run MODE_TCP_FORWARD ct (.store_epoch e :: ops) =
      channel_run MODE_TCP_FORWARD (channel_step MODE_TCP_FORWARD ct (.store_epoch e)) ops := rfl
  have h3 : full_deactivations MODE_TCP_FORWARD ct (.store_epoch e :: ops) =
      full_deactivations MODE_TCP_FORWARD (channel_step MODE_TCP_FORWARD ct (.store_epoch e))
        ops := rfl
  refine ⟨rfl, ?_⟩
  rw [h2, h3, channel_run_epoch MODE_TCP_FORWARD ops _ (Or.inr hs)]
  rfl

/-- C20, as stated, fails on the code: after 256 uses of a channel that
`init_channels` has initialised (each use an activation followed by the three
deactivations, the last of which reaches `CLOSE_CHANNEL_ALL`), in target mode,
the stored epoch is 256, which is neither in 0..255 nor `256 mod 256`. -/
theorem channel_epoch_counterexample :
    channel_init.epoch = 0 ∧
    full_deactivations MODE_TCP_TARGET channel_init (channel_uses 256) = 256 ∧
    (channel_run MODE_TCP_TARGET channel_init (channel_uses 256)).epoch = 256 ∧
    ¬ (channel_run MODE_TCP_TARGET channel_init (channel_uses 256)).epoch ≤ 255 ∧
    (channel_run MODE_TCP_TARGET channel_init (channel_uses 256)).epoch ≠ 256 % 256 := by
  have h := channel_run_epoch MODE_TCP_TARGET (channel_uses 256) channel_init (Or.inl rfl)
  rw [channel_uses_full] at h
  have e : channel_init.epoch = 0 := rfl
  rw [e] at h
  have h2 : (channel_run MODE_TCP_TARGET channel_init (channel_uses 256)).epoch = 256 := by
    rw [h]; rfl
  exact ⟨rfl, channel_uses_full _ _ _, h2, by rw [h2]; decide, by rw [h2]; decide⟩

/-- C20 (amended): the stored epoch is an `int` that `deactivate_channel`
increments with no reduction modulo 256.  Take a channel record with epoch 0
and any sequence of writes to it (activations, `deactivate_channel` calls,
assignments of `need_help` and `has_data`, and the store `ct->epoch = epoch` of
`tcp_receiver`) with `k` full deactivations, `k` below `2 ^ 31`.  In target
mode, where the store is never executed, and in forward mode as long as no
store has happened, the stored epoch is `k`; it lies in 0..255 and equals
`k mod 256` if and only if `k ≤ 255`, and it can equal the epoch byte
`PKT_EPOCH` of a packet (bytes below 256) only if `k ≤ 255`.  In forward mode
a store of the packet epoch `e`, from any channel state, makes the stored
epoch `e`, and after any further writes other than a store it is `e` plus the
number of full deactivations since the store (the sum below `2 ^ 31`). -/
theorem channel_epoch_counts (mode : relay_mode_t) (ct : channel_t) (ops : List channel_op)
    (h0 : ct.epoch = 0)
    (hs : mode = MODE_TCP_TARGET ∨ ∀ op ∈ ops, stores_epoch op = false)
    (hk : full_deactivations mode ct ops < 2 ^ 31) :
    (channel_run mode ct ops).epoch = full_deactivations mode ct ops ∧
    ((0 ≤ (channel_run mode ct ops).epoch ∧ (channel_run mode ct ops).epoch ≤ 255 ∧
        (channel_run mode ct ops).epoch = (full_deactivations mode ct ops : Int) % 256) ↔
      full_deactivations mode ct ops ≤ 255) ∧
    (∀ p : List Nat, (∀ b ∈ p, b < 256) → PKT_EPOCH p = (channel_run mode ct ops).epoch →
      full_deactivations mode ct ops ≤ 255) ∧
    (∀ (c : channel_t) (e : Int) (ops2 : List channel_op),
      (∀ op ∈ ops2, stores_epoch op = false) → -2 ^ 31 ≤ e →
      e + full_deactivations MODE_TCP_FORWARD c (.store_epoch e :: ops2) < 2 ^ 31 →
      (channel_step MODE_TCP_FORWARD c (.store_epoch e)).epoch = e ∧
      (channel_run MODE_TCP_FORWARD c (.store_epoch e :: ops2)).epoch =
        e + full_deactivations MODE_TCP_FORWARD c (.store_epoch e :: ops2)) := by
  have h := channel_run_epoch mode ops ct hs
  rw [h0, zero_add] at h
  refine ⟨h, ?_, ?_, fun c e ops2 hs2 _ _ => channel_run_store c ops2 e hs2⟩
  · rw [h]
    constructor
    · intro hh; omega
    · intro hh; omega
  · intro p hp he
    rw [h] at he
    unfold PKT_EPOCH at he
    have hb : p.getD 1 0 < 256 := by
      rw [List.getD_eq_getElem?_getD]
      cases hg : p[1]? with
      | none => simp
      | some b =>
        simp only [Option.getD_some]
        exact hp b (List.getElem?_mem hg)
    omega

/-- Witness for C20 (amended): in target mode two uses of a channel leave epoch
2; in forward mode a channel of epoch 5 whose three workers deactivate it
(epoch 6) and whose receiver then stores the packet epoch 7 and reopens it has
epoch 7 after one full deactivation. -/
theorem channel_epoch_counts_witness :
    channel_init.epoch = 0 ∧
    full_deactivations MODE_TCP_TARGET channel_init (channel_uses 2) < 2 ^ 31 ∧
    (channel_run MODE_TCP_TARGET channel_init (channel_uses 2)).epoch = 2 ∧
    full_deactivations MODE_TCP_FORWARD channel_example forward_epoch_change = 1 ∧
    (channel_run MODE_TCP_FORWARD channel_example forward_epoch_change).epoch = 7 :=
  have h := channel_epoch_counts MODE_TCP_TARGET channel_init (channel_uses 2) rfl (Or.inl rfl)
    (by decide)
  have h4 : (channel_run MODE_TCP_FORWARD channel_example forward_epoch_change).epoch =
      7 + full_deactivations MODE_TCP_FORWARD
        (channel_run MODE_TCP_FORWARD channel_example
          [.deactivate CLOSE_CHANNEL_RECEIVER, .deactivate CLOSE_CHANNEL_HELPER,
           .deactivate CLOSE_CHANNEL_SENDER]) [.store_epoch 7, .activate 9] :=
    (h.2.2.2 (channel_run MODE_TCP_FORWARD channel_example
      [.deactivate CLOSE_CHANNEL_RECEIVER, .deactivate CLOSE_CHANNEL_HELPER,
       .deactivate CLOSE_CHANNEL_SENDER]) 7 [.activate 9] (by decide) (by decide)
      (by decide)).2
  ⟨rfl, by decide, h.1.trans (by decide), by decide, h4.trans (by decide)⟩

theorem countP_set (p : channel_t → Bool) (l : List channel_t) (i : Nat) (a x : channel_t)
    (h : l[i]? = some a) :
    (l.set i x).countP p + (if p a = true then 1 else 0) =
      l.countP p + (if p x = true then 1 else 0) := by
  induction l generalizing i with
  | nil => simp at h
  | cons b l ih =>
    cases i with
    | zero =>
      simp only [List.getElem?_cons_zero, Option.some.injEq] at h
      subst h
      simp only [List.set_cons_zero, List.countP_cons]
      omega
    | succ i =>
      simp only [List.getElem?_cons_succ] at h
      have e := ih i h
      simp only [List.set_cons_succ, List.countP_cons]
      omega

theorem countP_active_set (l : List channel_t) (i : Nat) (a x : channel_t)
    (h : l[i]? = some a) :
    (l.set i x).countP (fun c => decide (c.active = 1)) + (if a.active = 1 then 1 else 0) =
      l.countP (fun c => decide (c.active = 1)) + (if x.active = 1 then 1 else 0) := by
  have e := countP_set (fun c => decide (c.active = 1)) l i a x h
  simp only [decide_eq_true_eq] at e
  exact e

theorem find_inactive_spec (l : List channel_t) (k i : Nat) (h : find_inactive l k = some i) :
    k ≤ i ∧ ∃ ct, l[i - k]? = some ct ∧ ct.active ≠ 1 := by
  induction l generalizing k with
  | nil => simp [find_inactive] at h
  | cons b l ih =>
    simp only [find_inactive] at h
    split at h
    · obtain ⟨h1, ct, h2, h3⟩ := ih (k + 1) h
      refine ⟨by omega, ct, ?_, h3⟩
      have e : i - k = (i - (k + 1)) + 1 := by omega
      rw [e, List.getElem?_cons_succ]
      exact h2
    · next hb =>
      simp only [Option.some.injEq] at h
      subst h
      exact ⟨le_refl _, b, by simp, hb⟩

theorem mem_set_cases (l : List channel_t) (i : Nat) (x ct : channel_t)
    (h : ct ∈ l.set i x) : ct = x ∨ ct ∈ l := by
  rcases List.mem_or_eq_of_mem_set h with h | h
  · exact Or.inr h
  · exact Or.inl h

theorem init_channels_inv : relay_inv init_channels := by
  refine ⟨by decide, ?_, by decide⟩
  intro ct hct
  simp only [init_channels, List.mem_map] at hct
  obtain ⟨_, -, rfl⟩ := hct
  exact Or.inl ⟨rfl, rfl⟩

theorem accept_channel_inv (st st1 : relay_state) (cli_fd : Int) (ev : List relay_event)
    (hi : relay_inv st) (h : accept_channel st cli_fd = some (st1, ev)) : relay_inv st1 := by
  obtain ⟨hlen, hall, hsum⟩ := hi
  unfold accept_channel at h
  split at h
  · cases h
  · next hsem =>
    split at h
    · cases h
    · next i hf =>
      split at h
      · cases h
      · next ct hg =>
        simp only [Option.some.injEq, Prod.mk.injEq] at h
        obtain ⟨rfl, -⟩ := h
        obtain ⟨-, ct2, hg2, hact⟩ := find_inactive_spec _ _ _ hf
        rw [Nat.sub_zero, hg] at hg2
        cases hg2
        have hmem : ct ∈ st.chan_tab := List.getElem?_mem hg
        have hct : ct.active = 0 := by
          rcases hall ct hmem with h1 | h1
          · exact h1.1
          · exact absurd h1.1 hact
        refine ⟨by simp [hlen], ?_, ?_⟩
        · intro c hc
          rcases mem_set_cases _ _ _ _ hc with rfl | hc
          · exact Or.inr ⟨rfl, show CLOSE_CHANNEL_NONE ≠ CLOSE_CHANNEL_ALL by decide⟩
          · exact hall c hc
        · have e := countP_active_set st.chan_tab i ct (activate_channel ct cli_fd) hg
          rw [if_neg hact, if_pos (show (activate_channel ct cli_fd).active = 1 from rfl)] at e
          simp only [active_channels] at hsum ⊢
          omega

theorem flag_not_all (s flag : Nat)
    (hf : flag = CLOSE_CHANNEL_HELPER ∨ flag = CLOSE_CHANNEL_RECEIVER ∨
      flag = CLOSE_CHANNEL_SENDER) (h : s &&& flag = 0) : s ≠ CLOSE_CHANNEL_ALL := by
  intro hs
  rw [hs] at h
  rcases hf with rfl | rfl | rfl <;> exact absurd h (by decide)

theorem deactivate_at_inv (st st1 : relay_state) (i flag : Nat) (ct : channel_t)
    (ev : List relay_event) (hi : relay_inv st)
    (hf : flag = CLOSE_CHANNEL_HELPER ∨ flag = CLOSE_CHANNEL_RECEIVER ∨
      flag = CLOSE_CHANNEL_SENDER)
    (hg : st.chan_tab[i]? = some ct) (hnot : ct.channel_state &&& flag = 0)
    (h : deactivate_at st i flag = some (st1, ev)) : relay_inv st1 := by
  obtain ⟨hlen, hall, hsum⟩ := hi
  unfold deactivate_at at h
  rw [hg] at h
  simp only [Option.some.injEq, Prod.mk.injEq] at h
  obtain ⟨rfl, -⟩ := h
  have hmem : ct ∈ st.chan_tab := List.getElem?_mem hg
  have hne := flag_not_all ct.channel_state flag hf hnot
  have hact : ct.active = 1 := by
    rcases hall ct hmem with h1 | h1
    · exact absurd h1.2 hne
    · exact h1.1
  obtain ⟨h1, -, -, -, -, h6, h7, -⟩ := deactivate_channel_spec MODE_TCP_TARGET ct flag
  have e := countP_active_set st.chan_tab i ct (deactivate_channel MODE_TCP_TARGET ct flag).1 hg
  rw [if_pos hact] at e
  by_cases hfull : ct.channel_state ||| flag = CLOSE_CHANNEL_ALL
  · obtain ⟨-, ht, -, -⟩ := h6 hfull
    obtain ⟨ha, hp⟩ := ht rfl
    refine ⟨by simp [hlen], ?_, ?_⟩
    · intro c hc
      rcases mem_set_cases _ _ _ _ hc with rfl | hc
      · exact Or.inl ⟨ha, h1.trans hfull⟩
      · exact hall c hc
    · rw [if_neg (by rw [ha]; decide)] at e
      simp only [active_channels] at hsum ⊢
      rw [hp]
      omega
  · obtain ⟨-, ha, hp, -⟩ := h7 hfull
    refine ⟨by simp [hlen], ?_, ?_⟩
    · intro c hc
      rcases mem_set_cases _ _ _ _ hc with rfl | hc
      · exact Or.inr ⟨ha.trans hact, fun hh => hfull (h1.symm.trans hh)⟩
      · exact hall c hc
    · rw [if_pos (ha.trans hact)] at e
      simp only [active_channels] at hsum ⊢
      rw [hp]
      omega

theorem relay_reachable_inv (st : relay_state) (h : relay_reachable st) : relay_inv st := by
  induction h with
  | init => exact init_channels_inv
  | accept st st1 cli_fd ev _ ha ih => exact accept_channel_inv st st1 cli_fd ev ih ha
  | deactivate st st1 i flag ct ev _ hf hg hnot hd ih =>
    exact deactivate_at_inv st st1 i flag ct ev ih hf hg hnot hd

/-- C14: in every state of the target relay reachable from `init_channels` by
activations of the accept loop (`sem_wait`, then the first channel with
`active != 1` is marked active) and by `deactivate_channel` calls in which a
worker acknowledges only when its flag is not yet in `channel_state` (at most
once per activation), the number of channels with `active == 1` plus the value
of the semaphore is `MAX_CHANNELS`, which is 16; the table keeps its 16
entries, and a channel is inactive exactly when its `channel_state` is
`CLOSE_CHANNEL_ALL`. -/
theorem no_ghost_channels (st : relay_state) (h : relay_reachable st) :
    active_channels st + st.channel_semaphore = MAX_CHANNELS ∧ MAX_CHANNELS = 16 ∧
    st.chan_tab.length = 16 ∧
    ∀ ct ∈ st.chan_tab, (ct.active = 1 ∨ ct.active = 0) ∧
      (ct.active = 0 ↔ ct.channel_state = CLOSE_CHANNEL_ALL) := by
  obtain ⟨hlen, hall, hsum⟩ := relay_reachable_inv st h
  refine ⟨hsum, rfl, hlen, fun ct hct => ?_⟩
  rcases hall ct hct with h1 | h1
  · exact ⟨Or.inr h1.1, fun _ => h1.2, fun _ => h1.1⟩
  · refine ⟨Or.inl h1.1, fun h0 => ?_, fun hs => absurd hs h1.2⟩
    rw [h1.1] at h0
    exact absurd h0 (by decide)

/-- Witness for C14: after `init_channels` and one accepted connection, one
channel is active and the semaphore is 15. -/
theorem no_ghost_channels_witness :
    relay_reachable one_accepted ∧ active_channels one_accepted = 1 ∧
    one_accepted.channel_semaphore = 15 ∧
    active_channels one_accepted + one_accepted.channel_semaphore = MAX_CHANNELS :=
  have hr : relay_reachable one_accepted :=
    relay_reachable.accept init_channels one_accepted 7 [.wake_threads CLOSE_CHANNEL_NONE]
      relay_reachable.init (by decide)
  ⟨hr, by decide, rfl, (no_ghost_channels one_accepted hr).1⟩

theorem my_write_all (fd : Int) (buf : List Nat) (k : Int) (hk : 0 < k) (hk2 : k < 2 ^ 31) :
    my_write fd buf (size_t_of_int k) [k] = some (k, [.tcp_write fd (buf.take k.toNat)]) := by
  have e1 : size_t_of_int k = k.toNat := by
    unfold size_t_of_int
    rw [Int.emod_eq_of_lt (by omega) (by omega)]
  have e2 : int_of_size_t k.toNat = k := by
    unfold int_of_size_t
    omega
  have e3 : size_t_of_int (((0 : Nat) : Int) + k) = k.toNat := by
    rw [Nat.cast_zero, zero_add, e1]
  unfold my_write
  rw [e1]
  unfold my_write_loop
  rw [if_pos (by omega), if_neg (by omega), e3]
  unfold my_write_loop
  rw [if_neg (by omega), e2]
  rfl

theorem deactivate_channel_no_write (mode : relay_mode_t) (ct : channel_t) (flag : Nat) :
    (deactivate_channel mode ct flag).2.filter (fun e => e matches .tcp_write _ _) = [] := by
  unfold deactivate_channel
  simp only []
  split
  · split <;> split <;> simp
  · split <;> simp

theorem tcp_receiver_ack_events (mode : relay_mode_t) (env : relay_env) (ct : channel_t)
    (r : receiver_t) (ev : List relay_event) :
    ∃ x, tcp_receiver_ack mode env ct r ev = some x ∧ ∃ ev1, x.2.2 = ev ++ ev1 ∧
      ev1.filter (fun e => e matches .tcp_write _ _) = [] := by
  unfold tcp_receiver_ack
  simp only []
  split
  · refine ⟨_, rfl, [.udp_send ((env.make_header r.packet 1 0 ct.number r.seq_num r.epoch
      r.len).take 256)] ++ (deactivate_channel mode ct CLOSE_CHANNEL_RECEIVER).2, ?_, ?_⟩
    · simp only [List.append_assoc]
    · rw [List.filter_append, deactivate_channel_no_write]
      rfl
  · exact ⟨_, rfl, [.udp_send ((env.make_header r.packet 1 0 ct.number r.seq_num r.epoch
      r.len).take 256)], rfl, rfl⟩

theorem tcp_receiver_deliver_in_order (mode : relay_mode_t) (env : relay_env) (ct : channel_t)
    (r : receiver_t) (hseq : PKT_SEQ_NUM r.packet = r.NFE) (hlen : 5 < r.len)
    (hlen2 : r.len ≤ 256) (hw : env.writes = [r.len - 5]) :
    ∃ x, tcp_receiver_deliver mode env ct r [] = some x ∧ ∃ ev1,
      x.2.2 = .tcp_write ct.fd ((r.packet.drop 4).take (r.len - 5).toNat) :: ev1 ∧
      ev1.filter (fun e => e matches .tcp_write _ _) = [] := by
  have hm := my_write_all ct.fd (r.packet.drop 4) (r.len - 5) (by omega) (by omega)
  unfold tcp_receiver_deliver
  simp only []
  rw [if_pos ⟨le_of_eq hseq.symm, by rw [hseq]; simp [SWP_BUFFER_SIZE]⟩,
    if_pos hseq.symm, hw, hm]
  simp only []
  rw [if_neg (not_not.mpr rfl)]
  exact tcp_receiver_ack_events mode env ct _ _

theorem tcp_receiver_target_in_order (env : relay_env) (ct : channel_t) (r : receiver_t)
    (hact : r.is_active ≠ 0) (hep : PKT_EPOCH r.packet = ct.epoch)
    (hseq : PKT_SEQ_NUM r.packet = r.NFE) (hlen : 5 < r.len) (hlen2 : r.len ≤ 256)
    (hw : env.writes = [r.len - 5]) :
    ∃ x, tcp_receiver_packet MODE_TCP_TARGET env ct r = some x ∧ ∃ ev1,
      x.2.2 = .tcp_write ct.fd ((r.packet.drop 4).take (r.len - 5).toNat) :: ev1 ∧
      ev1.filter (fun e => e matches .tcp_write _ _) = [] := by
  unfold tcp_receiver_packet
  rw [if_neg (by omega), if_pos rfl, if_neg hact, if_neg (not_not.mpr hep)]
  exact tcp_receiver_deliver_in_order MODE_TCP_TARGET env ct _ hseq hlen hlen2 hw

set_option maxRecDepth 100000 in
/-- C11 fails on the code.  The frame `get_frame` is 256 bytes long, has length
byte 18 (byte 3) and carries the 18 bytes of `"GET / HTTP/1.0\r\n\r\n"` at
offsets 4..21; it is in order for the active receiver `receiver_get` (sequence
number 0, epoch 5).  `tcp_receiver` passes `len - 5 = 251` to `my_write`, `len`
being the length of the dequeued datagram: the one write to the TCP socket
holds 251 bytes, the payload followed by 233 zero bytes, not the 18 payload
bytes. -/
theorem get_frame_written :
    get_frame.length = 256 ∧ get_frame.getD 3 0 = 18 ∧
    (get_frame.drop 4).take 18 = get_payload ∧
    receiver_get.is_active ≠ 0 ∧ PKT_EPOCH receiver_get.packet = channel_example.epoch ∧
    PKT_SEQ_NUM receiver_get.packet = receiver_get.NFE ∧
    ∃ x, tcp_receiver_packet MODE_TCP_TARGET env_write_all channel_example receiver_get
        = some x ∧
      x.2.2.filter (fun e => e matches .tcp_write _ _)
        = [.tcp_write 7 (get_payload ++ List.replicate 233 0)] ∧
      (get_payload ++ List.replicate 233 0).length = 251 ∧
      get_payload ++ List.replicate 233 0 ≠ get_payload := by
  refine ⟨rfl, rfl, rfl, by decide, rfl, rfl, ?_⟩
  obtain ⟨x, hx, ev1, h1, h2⟩ := tcp_receiver_target_in_order env_write_all channel_example
    receiver_get (by decide) rfl rfl (by decide) (by decide) rfl
  refine ⟨x, hx, ?_, rfl, by decide⟩
  rw [h1, List.filter_cons]
  simp only [h2]
  rfl

theorem crc8_bytes_zero (n k : Nat) : crc8_bytes (List.replicate n 0) k 0 = 0 := by
  induction n generalizing k with
  | zero => cases k <;> rfl
  | succ n ih =>
    cases k with
    | zero => rfl
    | succ k =>
      rw [List.replicate_succ]
      show crc8_bytes (List.replicate n 0) k (crc8_byte 0 0) = 0
      have e : crc8_byte 0 0 = 0 := by decide
      rw [e]
      exact ih k

theorem udp_receiver_turn_enqueues (chan_num : List Nat → Int) (udpchans : List fq_t)
    (packet : List Nat) (env : pthread_env) (q : fq_t) (hw : fq_wf q)
    (hil : q.item_len = MAX_PKT_LEN) (hlen : packet.length = 256)
    (hi : 0 ≤ chan_num packet) (hq : udpchans[(chan_num packet).toNat]? = some q)
    (hnf : Int.tmod (q.tail + 1) q.queue_len ≠ q.head) :
    ∃ o, udp_receiver_turn chan_num udpchans packet 256 env = some o ∧
      o.udpchans = udpchans.set (chan_num packet).toNat (fq_push q packet 256) ∧
      o.udpchans[(chan_num packet).toNat]? = some (fq_push q packet 256) ∧
      fq_items (fq_push q packet 256) = fq_items q ++ [(256, packet)] := by
  have hlt : (chan_num packet).toNat < udpchans.length := by
    rcases Nat.lt_or_ge (chan_num packet).toNat udpchans.length with h | h
    · exact h
    · rw [List.getElem?_eq_none h] at hq
      cases hq
  have hil2 : (256 : Int) ≤ q.item_len := by rw [hil]; decide
  have hpl : (256 : Int) ≤ packet.length := by rw [hlen]; decide
  have hex := fq_enqueue_exact q hw packet 256 (some (chan_num packet).toNat)
    (some (chan_num packet).toNat) env (by decide) hil2 hpl hnf
  have hit := fq_push_items q hw packet 256 (by decide) hil2 hpl hnf
  have htk : packet.take (256 : Int).toNat = packet := by
    apply List.take_of_length_le
    rw [hlen]
    decide
  rw [htk] at hit
  unfold udp_receiver_turn
  rw [if_pos (by decide)]
  simp only []
  rw [if_pos ⟨hi, by omega⟩, hq, hex]
  simp only [fq_enqueue_wake_fq]
  exact ⟨_, rfl, rfl, by simp [hlt], hit⟩

theorem bad_crc_datagram_crc :
    calculate_crc8 ((bad_crc_datagram.take 255).map Int.ofNat) 255 = 0 := by
  have e : (bad_crc_datagram.take 255).map Int.ofNat = List.replicate 255 (0 : Int) := by
    unfold bad_crc_datagram
    rw [List.take_left' (List.length_replicate 255 0), List.map_replicate]
    rfl
  rw [e]
  unfold calculate_crc8
  rw [crc8_bytes_zero]
  decide

/-- C12 fails on the code: `udp_receiver` does not compare byte 255 of a
datagram with `calculate_crc8 (packet, 255)`; it only prints both.  Every
256-byte datagram, whatever its byte 255, that is read while the receive queue
of its channel (made by `fq_create (.., 32, MAX_PKT_LEN)`) is not full, is
enqueued there: after the turn of the loop that queue holds the datagram as its
newest item, so the table of queues is not what it was. -/
theorem udp_receiver_enqueues_bad_crc (chan_num : List Nat → Int) (udpchans : List fq_t)
    (packet : List Nat) (env : pthread_env) (heap : heap_t) (q0 q : fq_t)
    (hlen : packet.length = 256)
    (hi : 0 ≤ chan_num packet) (hq : udpchans[(chan_num packet).toNat]? = some q)
    (hc : fq_create false 32 MAX_PKT_LEN heap = (FQ_OK, some q0)) (hr : fq_reachable q0 q)
    (hnf : (fq_items q).length < 32) :
    ∃ o, udp_receiver_turn chan_num udpchans packet 256 env = some o ∧
      (∃ q1, o.udpchans[(chan_num packet).toNat]? = some q1 ∧
        fq_items q1 = fq_items q ++ [(256, packet)]) ∧
      o.udpchans ≠ udpchans := by
  obtain ⟨hw0, -, hL0, hN0, -⟩ := fq_create_ok 32 MAX_PKT_LEN heap q0 hc
  obtain ⟨hw, hL, hN⟩ := fq_reachable_wf q0 q hw0 hr
  rw [hL0] at hL
  rw [hN0] at hN
  have hb := fq_count_bounds q hw
  have hnf2 : Int.tmod (q.tail + 1) q.queue_len ≠ q.head := by
    rw [Ne, fq_full_iff q hw, hN]
    omega
  obtain ⟨o, ho, -, h2, h3⟩ := udp_receiver_turn_enqueues chan_num udpchans packet env q hw hL
    hlen hi hq hnf2
  refine ⟨o, ho, ⟨_, h2, h3⟩, fun heq => ?_⟩
  rw [heq, hq] at h2
  simp only [Option.some.injEq] at h2
  rw [← h2] at h3
  have := congrArg List.length h3
  simp at this

set_option maxRecDepth 100000 in
/-- Witness for C12: a datagram of 255 zero bytes (CRC-8 `0x00`) followed by
`0x01`, on channel 0 (`PKT_CHAN_NUM` taken to read byte 2), with all 32 receive
queues as `udp_init` creates them. -/
theorem udp_receiver_enqueues_bad_crc_witness :
    bad_crc_datagram.length = 256 ∧
    bad_crc_datagram.getD 255 0 ≠
      calculate_crc8 ((bad_crc_datagram.take 255).map Int.ofNat) 255 ∧
    fq_create false 32 MAX_PKT_LEN heap_ok = (FQ_OK, some udp_recv_fresh) ∧
    ∃ o, udp_receiver_turn (fun p => p.getD 2 0) (List.replicate 32 udp_recv_fresh)
        bad_crc_datagram 256 env_ok = some o ∧
      (∃ q1, o.udpchans[0]? = some q1 ∧ fq_items q1 = [(256, bad_crc_datagram)]) ∧
      o.udpchans ≠ List.replicate 32 udp_recv_fresh :=
  have hc : fq_create false 32 MAX_PKT_LEN heap_ok = (FQ_OK, some udp_recv_fresh) := rfl
  have h0 : fq_items udp_recv_fresh = [] :=
    (fq_create_ok 32 MAX_PKT_LEN heap_ok udp_recv_fresh hc).2.1
  have h := udp_receiver_enqueues_bad_crc (fun p => p.getD 2 0)
    (List.replicate 32 udp_recv_fresh) bad_crc_datagram env_ok heap_ok udp_recv_fresh
    udp_recv_fresh rfl (by decide) rfl hc fq_reachable.init (by rw [h0]; decide)
  ⟨rfl, by rw [bad_crc_datagram_crc]; decide, hc, by rw [h0] at h; exact h⟩

/-! ### Buffer safety of `fq_dequeue` -/

/-- C30: on a queue reachable from `fq_create`, `fq_dequeue` called with a
buffer that has at least `*buf_len` bytes always has a defined result, and
whenever it returns `FQ_OK` the length it writes through `buf_len` is at least
0, at most the `*buf_len` supplied and at most the queue's `item_len`; the
buffer keeps its size, its first `len` bytes are the bytes of the oldest item
and the bytes beyond `len` are as they were. -/
theorem fq_dequeue_no_overrun (queue_len item_len : Int) (heap : heap_t) (q0 q : fq_t)
    (b : List Nat) (bl : Int)
    (hc : fq_create false queue_len item_len heap = (FQ_OK, some q0))
    (hr : fq_reachable q0 q) (hb : bl ≤ b.length) :
    ∃ o, fq_dequeue (some q) (some b) (some bl) = some o ∧
      (o.rv = FQ_OK → ∃ len b1, o.buf_len = some len ∧ o.buf = some b1 ∧
        0 ≤ len ∧ len ≤ bl ∧ len ≤ item_len ∧ b1.length = b.length ∧
        b1.drop len.toNat = b.drop len.toNat ∧
        (fq_items q).head? = some (len, b1.take len.toNat)) := by
  obtain ⟨hw0, -, hL0, -, -⟩ := fq_create_ok queue_len item_len heap q0 hc
  obtain ⟨hw, hL, -⟩ := fq_reachable_wf q0 q hw0 hr
  rw [hL0] at hL
  by_cases hneg : bl < 0
  · refine ⟨⟨FQ_BAD_PARAMETER, some q, some b, some bl⟩, ?_, fun h => by cases h⟩
    unfold fq_dequeue
    simp only []
    rw [if_pos hneg]
  · by_cases hemp : q.head = q.tail
    · refine ⟨⟨FQ_QUEUE_EMPTY, some q, some b, some bl⟩, ?_, fun h => by cases h⟩
      unfold fq_dequeue
      simp only []
      rw [if_neg hneg, if_pos hemp]
    · obtain ⟨hg, hl0, hl1⟩ := fq_head_item q hw hemp
      by_cases hfit : (fq_item_at q q.head).1 ≤ bl
      · have he := fq_dequeue_eq q hw b bl hemp hfit (by omega)
        have hlen2 := fq_item_at_length q hw q.head hw.2.2.1 hw.2.2.2.1 hl1
        refine ⟨_, he, fun _ => ⟨_, _, rfl, rfl, hl0, hfit, by rw [← hL]; exact hl1, ?_, ?_, ?_⟩⟩
        · rw [List.length_append, List.length_drop]
          omega
        · rw [List.drop_left' (by omega)]
        · rw [fq_pop_items q hw hemp, List.head?_cons, List.take_left' (by omega)]
      · refine ⟨⟨FQ_INADEQUATE_SPACE, some q, some b, some bl⟩, ?_, fun h => by cases h⟩
        exact fq_dequeue_inadequate q hw b bl hemp (by omega) (by omega)

/-- Witness for C30: the 2-slot queue holding `"BC"`, a 3-byte buffer and
`*buf_len = 3`. -/
theorem fq_dequeue_no_overrun_witness :
    fq_create false 2 2 heap_ok = (FQ_OK, some fresh_2_2) ∧
    fq_reachable fresh_2_2 one_item_2_2 ∧ (3 : Int) ≤ ([7, 8, 9] : List Nat).length ∧
    fq_dequeue (some one_item_2_2) (some [7, 8, 9]) (some 3)
      = some ⟨FQ_OK, some (fq_pop one_item_2_2), some [0x42, 0x43, 9], some 2⟩ ∧
    ∃ o, fq_dequeue (some one_item_2_2) (some [7, 8, 9]) (some 3) = some o ∧
      (o.rv = FQ_OK → ∃ len b1, o.buf_len = some len ∧ o.buf = some b1 ∧
        0 ≤ len ∧ len ≤ 3 ∧ len ≤ 2 ∧ b1.length = ([7, 8, 9] : List Nat).length ∧
        b1.drop len.toNat = ([7, 8, 9] : List Nat).drop len.toNat ∧
        (fq_items one_item_2_2).head? = some (len, b1.take len.toNat)) :=
  have hr : fq_reachable fresh_2_2 one_item_2_2 :=
    fq_reachable.step fresh_2_2 (.enqueue (some [0x42, 0x43]) 2 none none env_ok)
      (.enq ⟨FQ_OK, some one_item_2_2, []⟩) one_item_2_2 fq_reachable.init (by decide)
  ⟨by decide, hr, by decide, by decide,
    fq_dequeue_no_overrun 2 2 heap_ok fresh_2_2 one_item_2_2 [7, 8, 9] 3 (by decide) hr
      (by decide)⟩

/-! ### The accept loop -/

theorem ldiff_127 (k : Nat) : Nat.ldiff 127 k = 127 - k % 128 := by
  apply Nat.eq_of_testBit_eq
  intro i
  rw [Nat.testBit_ldiff]
  have e : 127 - k % 128 = 2 ^ 7 - (k % 2 ^ 7 + 1) := by omega
  rw [e, Nat.testBit_two_pow_sub_succ (Nat.mod_lt _ (by norm_num)), Nat.testBit_mod_two_pow]
  have e2 : (127 : Nat) = 2 ^ 7 - 1 := by norm_num
  rw [e2, Nat.testBit_two_pow_sub_one]
  by_cases h : i < 7 <;> simp [h]

theorem next_seq_num_mod (n : Int) : NEXT_SEQ_NUM n = (n + 1) % 128 := by
  unfold NEXT_SEQ_NUM
  rcases h : n + 0x01 with m | k
  · have h2 := Nat.and_pow_two_sub_one_eq_mod m 7
    have e1 : (2 : Nat) ^ 7 - 1 = 0x7F := by norm_num
    rw [e1] at h2
    show ((Nat.land m 0x7F : Nat) : Int) = (m : Int) % 128
    have : Nat.land m 0x7F = m &&& 0x7F := rfl
    rw [this, h2]
    push_cast
    norm_num
  · show ((Nat.ldiff 0x7F k : Nat) : Int) = Int.negSucc k % 128
    rw [ldiff_127, Int.negSucc_emod k (by norm_num)]
    omega

theorem tcp_sender_window_next (mode : relay_mode_t) (ct : channel_t) (s : sender_t)
    (packet_addr : Nat) (h : PKT_SEQ_NUM s.packet = NEXT_SEQ_NUM s.LAR) :
    ∃ x, tcp_sender_window mode ct s packet_addr = some x ∧
      x.2.1.LAR = NEXT_SEQ_NUM s.LAR ∧ x.2.1.SEQ = s.SEQ ∧
      (PKT_IS_LAST s.packet = 0 → x.1 = ct ∧ x.2.2 = [] ∧ x.2.1.is_active = s.is_active) ∧
      (PKT_IS_LAST s.packet ≠ 0 → x.1 = (deactivate_channel mode ct CLOSE_CHANNEL_SENDER).1 ∧
        x.2.2 = (deactivate_channel mode ct CLOSE_CHANNEL_SENDER).2 ∧ x.2.1.is_active = 0) := by
  unfold tcp_sender_window
  simp only []
  rw [if_neg (by rw [h]; simp [SWP_BUFFER_SIZE]), if_pos (Or.inl (by rw [h]))]
  unfold park_packet
  rw [if_pos (by rw [h]; simp [SWP_BUFFER_SIZE])]
  simp only []
  by_cases hl : PKT_IS_LAST s.packet ≠ 0
  · rw [if_pos ⟨hl, h.symm⟩]
    exact ⟨_, rfl, rfl, rfl, fun h0 => absurd h0 hl, fun _ => ⟨rfl, rfl, rfl⟩⟩
  · rw [if_neg (fun hh => hl hh.1)]
    exact ⟨_, rfl, rfl, rfl, fun _ => ⟨rfl, rfl, rfl⟩, fun h1 => absurd h1 hl⟩

/-- C22: for every active `tcp_sender` state and every ACK of at least two
bytes with the channel's epoch, `LAR` is first advanced to `NEXT_SEQ_NUM (LAR)`,
which is `(LAR + 1) mod 128`.  If then `seq_num < LAR` or
`seq_num > LAR + SWP_BUFFER_SIZE` (32) for the advanced `LAR`, the sender calls
`deactivate_channel (ct, CLOSE_CHANNEL_SENDER)` and becomes inactive.  An ACK
whose `seq_num` equals the advanced `LAR` fails that test: if it is not marked
last the sender stays as active as it was, the channel record is unchanged and
nothing is done to the outside; if it is marked last the sender deactivates
through the end-of-stream test. -/
theorem sender_window_check (mode : relay_mode_t) (ct : channel_t) (s : sender_t)
    (packet_addr : Nat)
    (hlen : 2 ≤ s.len) (hact : s.is_active ≠ 0) (hep : PKT_EPOCH s.packet = ct.epoch) :
    NEXT_SEQ_NUM s.LAR = (s.LAR + 1) % 128 ∧ SWP_BUFFER_SIZE = 32 ∧
    ((PKT_SEQ_NUM s.packet < NEXT_SEQ_NUM s.LAR ∨
        PKT_SEQ_NUM s.packet > NEXT_SEQ_NUM s.LAR + SWP_BUFFER_SIZE) →
      ∃ s1, tcp_sender_ack mode ct s packet_addr =
          some ((deactivate_channel mode ct CLOSE_CHANNEL_SENDER).1, s1,
            (deactivate_channel mode ct CLOSE_CHANNEL_SENDER).2) ∧
        s1.LAR = NEXT_SEQ_NUM s.LAR ∧ s1.is_active = 0) ∧
    (PKT_SEQ_NUM s.packet = NEXT_SEQ_NUM s.LAR →
      ¬ (PKT_SEQ_NUM s.packet < NEXT_SEQ_NUM s.LAR ∨
        PKT_SEQ_NUM s.packet > NEXT_SEQ_NUM s.LAR + SWP_BUFFER_SIZE) ∧
      ∃ x, tcp_sender_ack mode ct s packet_addr = some x ∧
        x.2.1.LAR = NEXT_SEQ_NUM s.LAR ∧
        (PKT_IS_LAST s.packet = 0 →
          x.1 = ct ∧ x.2.2 = [] ∧ x.2.1.is_active = s.is_active) ∧
        (PKT_IS_LAST s.packet ≠ 0 →
          x.1 = (deactivate_channel mode ct CLOSE_CHANNEL_SENDER).1 ∧
          x.2.2 = (deactivate_channel mode ct CLOSE_CHANNEL_SENDER).2 ∧
          x.2.1.is_active = 0)) := by
  have hack : tcp_sender_ack mode ct s packet_addr =
      tcp_sender_window mode ct { s with epoch := PKT_EPOCH s.packet } packet_addr := by
    unfold tcp_sender_ack
    rw [if_neg (by omega), if_neg hact, if_neg (not_not.mpr hep)]
  refine ⟨next_seq_num_mod s.LAR, rfl, fun hw => ?_, fun hn => ⟨?_, ?_⟩⟩
  · rw [hack]
    exact ⟨_, tcp_sender_window_stale mode ct { s with epoch := PKT_EPOCH s.packet }
      packet_addr hw, rfl, rfl⟩
  · rw [hn]
    simp [SWP_BUFFER_SIZE]
  · rw [hack]
    obtain ⟨x, hx, h1, -, h3, h4⟩ := tcp_sender_window_next mode ct
      { s with epoch := PKT_EPOCH s.packet } packet_addr hn
    exact ⟨x, hx, h1, h3, h4⟩

/-- Witness for C22: `LAR == 5` and an ACK of epoch 5 with sequence number 5,
which is below the advanced `LAR` 6. -/
theorem sender_window_check_witness :
    (2 : Int) ≤ sender_duplicate.len ∧ sender_duplicate.is_active ≠ 0 ∧
    PKT_EPOCH sender_duplicate.packet = channel_example.epoch ∧
    NEXT_SEQ_NUM sender_duplicate.LAR = 6 ∧
    PKT_SEQ_NUM sender_duplicate.packet < NEXT_SEQ_NUM sender_duplicate.LAR ∧
    ∃ s1, tcp_sender_ack MODE_TCP_TARGET channel_example sender_duplicate 0x1000 =
        some ((deactivate_channel MODE_TCP_TARGET channel_example CLOSE_CHANNEL_SENDER).1, s1,
          (deactivate_channel MODE_TCP_TARGET channel_example CLOSE_CHANNEL_SENDER).2) ∧
      s1.LAR = NEXT_SEQ_NUM sender_duplicate.LAR ∧ s1.is_active = 0 :=
  have h := sender_window_check MODE_TCP_TARGET channel_example sender_duplicate 0x1000
    (by decide) (by decide) (by decide)
  have h6 : NEXT_SEQ_NUM sender_duplicate.LAR = 6 := h.1.trans (by decide)
  have hlt : PKT_SEQ_NUM sender_duplicate.packet < NEXT_SEQ_NUM sender_duplicate.LAR := by
    rw [h6]; decide
  ⟨by decide, by decide, by decide, h6, hlt, h.2.2.1 (Or.inl hlt)⟩

theorem next_seq_num_ne (p : List Nat) : NEXT_SEQ_NUM (PKT_SEQ_NUM p) ≠ PKT_SEQ_NUM p := by
  have h := pkt_seq_num_range p
  rw [next_seq_num_mod]
  omega

theorem tcp_receiver_ack_not_last (mode : relay_mode_t) (env : relay_env) (ct : channel_t)
    (r : receiver_t) (ev : List relay_event) (h : r.NFE ≠ r.seq_num) :
    tcp_receiver_ack mode env ct r ev =
      some (ct, { r with packet := env.make_header r.packet 1 0 ct.number r.seq_num r.epoch r.len },
        ev ++ [.udp_send ((env.make_header r.packet 1 0 ct.number r.seq_num r.epoch r.len).take
          256)]) := by
  unfold tcp_receiver_ack
  simp only []
  rw [if_neg (fun hh => h hh.2)]

theorem tcp_receiver_deliver_in_order_eq (mode : relay_mode_t) (env : relay_env) (ct : channel_t)
    (r : receiver_t) (ev : List relay_event) (hseq : PKT_SEQ_NUM r.packet = r.NFE)
    (hlen : 5 < r.len) (hlen2 : r.len ≤ 256) (hw : env.writes = [r.len - 5]) :
    tcp_receiver_deliver mode env ct r ev =
      some (ct,
        { r with
          seq_num := PKT_SEQ_NUM r.packet
          NFE := NEXT_SEQ_NUM (PKT_SEQ_NUM r.packet)
          buffer := (move_buffers_down r.buffer r.bufferValid).1
          bufferValid := (move_buffers_down r.buffer r.bufferValid).2
          packet := env.make_header r.packet 1 0 ct.number (PKT_SEQ_NUM r.packet) r.epoch r.len },
        ev ++ [.tcp_write ct.fd ((r.packet.drop 4).take (r.len - 5).toNat)] ++
          [.udp_send ((env.make_header r.packet 1 0 ct.number (PKT_SEQ_NUM r.packet) r.epoch
            r.len).take 256)]) := by
  have hm := my_write_all ct.fd (r.packet.drop 4) (r.len - 5) (by omega) (by omega)
  unfold tcp_receiver_deliver
  simp only []
  rw [if_pos ⟨le_of_eq hseq.symm, by rw [hseq]; simp [SWP_BUFFER_SIZE]⟩,
    if_pos hseq.symm, hw, hm]
  simp only []
  rw [if_neg (not_not.mpr rfl)]
  exact tcp_receiver_ack_not_last mode env ct _ _ (next_seq_num_ne r.packet)

theorem tcp_receiver_deliver_park (mode : relay_mode_t) (env : relay_env) (ct : channel_t)
    (r : receiver_t) (ev : List relay_event) (h1 : r.NFE < PKT_SEQ_NUM r.packet)
    (h2 : PKT_SEQ_NUM r.packet < r.NFE + SWP_BUFFER_SIZE) :
    park_packet r.buffer r.bufferValid (r.NFE - PKT_SEQ_NUM r.packet) env.packet_addr = none ∧
    tcp_receiver_deliver mode env ct r ev = none := by
  have hp : park_packet r.buffer r.bufferValid (r.NFE - PKT_SEQ_NUM r.packet) env.packet_addr
      = none := by
    unfold park_packet
    rw [if_neg (by omega)]
  refine ⟨hp, ?_⟩
  unfold tcp_receiver_deliver
  simp only []
  rw [if_pos ⟨by omega, h2⟩, if_neg (by omega), hp]

theorem tcp_sender_window_park (mode : relay_mode_t) (ct : channel_t) (s : sender_t)
    (packet_addr : Nat) (h1 : NEXT_SEQ_NUM s.LAR < PKT_SEQ_NUM s.packet)
    (h2 : PKT_SEQ_NUM s.packet ≤ NEXT_SEQ_NUM s.LAR + SWP_BUFFER_SIZE) :
    park_packet (move_buffers_down s.buffer s.bufferValid).1
      (move_buffers_down s.buffer s.bufferValid).2
      (NEXT_SEQ_NUM s.LAR - PKT_SEQ_NUM s.packet) packet_addr = none ∧
    tcp_sender_window mode ct s packet_addr = none := by
  have hp : park_packet (move_buffers_down s.buffer s.bufferValid).1
      (move_buffers_down s.buffer s.bufferValid).2
      (NEXT_SEQ_NUM s.LAR - PKT_SEQ_NUM s.packet) packet_addr = none := by
    unfold park_packet
    rw [if_neg (by omega)]
  refine ⟨hp, ?_⟩
  unfold tcp_sender_window
  simp only []
  rw [if_neg (by omega), if_pos (Or.inl (by omega)), hp]

theorem tcp_receiver_packet_active (mode : relay_mode_t) (env : relay_env) (ct : channel_t)
    (r : receiver_t) (hlen : 2 ≤ r.len) (hact : r.is_active ≠ 0)
    (hep : PKT_EPOCH r.packet = ct.epoch) :
    tcp_receiver_packet mode env ct r =
      tcp_receiver_deliver mode env ct { r with epoch := PKT_EPOCH r.packet } [] := by
  unfold tcp_receiver_packet
  rw [if_neg (by omega)]
  cases mode with
  | MODE_TCP_TARGET =>
    rw [if_pos rfl, if_neg hact, if_neg (not_not.mpr hep)]
  | MODE_TCP_FORWARD =>
    rw [if_neg (by decide), if_neg (fun hh => hh.1 hep)]
    have hc : ¬ (PKT_EPOCH r.packet ≠ ct.epoch ∧ r.is_active ≠ 0) := fun hh => hh.1 hep
    unfold tcp_receiver_forward
    simp only []
    rw [if_neg hc]
    simp only []
    rw [if_neg hact]

/-- C23 fails on the code.  When the packet with sequence number `NFE` arrives
(receiver active, epoch of the channel, dequeued length 6..256, the `write`
taking all bytes), `tcp_receiver` advances `NFE` by one, to `(NFE + 1) mod 128`,
and writes that one packet to the TCP socket, whatever `buffer` and
`bufferValid` hold: nothing is read back from the reorder buffer.  A packet
with a sequence number in `NFE + 1 .. NFE + 31` that arrives first is stored at
index `NFE - seq_num`, which is negative, outside the two arrays. -/
theorem receiver_no_reordering (mode : relay_mode_t) (env : relay_env) (ct : channel_t)
    (r : receiver_t) (hact : r.is_active ≠ 0) (hep : PKT_EPOCH r.packet = ct.epoch)
    (hlen : 5 < r.len) (hlen2 : r.len ≤ 256) (hw : env.writes = [r.len - 5]) :
    (PKT_SEQ_NUM r.packet = r.NFE →
      ∃ x, tcp_receiver_packet mode env ct r = some x ∧ x.2.1.NFE = (r.NFE + 1) % 128 ∧
        x.2.2.filter (fun e => e matches .tcp_write _ _)
          = [.tcp_write ct.fd ((r.packet.drop 4).take (r.len - 5).toNat)]) ∧
    (r.NFE < PKT_SEQ_NUM r.packet → PKT_SEQ_NUM r.packet < r.NFE + SWP_BUFFER_SIZE →
      r.NFE - PKT_SEQ_NUM r.packet < 0 ∧ tcp_receiver_packet mode env ct r = none) := by
  have hp := tcp_receiver_packet_active mode env ct r (by omega) hact hep
  refine ⟨fun hseq => ?_, fun h1 h2 => ⟨by omega, ?_⟩⟩
  · rw [hp, tcp_receiver_deliver_in_order_eq mode env ct { r with epoch := PKT_EPOCH r.packet }
      [] hseq hlen hlen2 hw]
    refine ⟨_, rfl, ?_, rfl⟩
    show NEXT_SEQ_NUM (PKT_SEQ_NUM r.packet) = (r.NFE + 1) % 128
    rw [hseq, next_seq_num_mod]
  · rw [hp]
    exact (tcp_receiver_deliver_park mode env ct { r with epoch := PKT_EPOCH r.packet } []
      h1 h2).2

set_option maxRecDepth 100000 in
/-- Witness for C23: a receiver with `NFE == 0` whose reorder buffer has every
slot tagged valid; the packet with sequence number 0 moves `NFE` to 1 and is the
only one written, and the packet with sequence number 1 would be stored at
index -1. -/
theorem receiver_no_reordering_witness :
    receiver_in_order.is_active ≠ 0 ∧
    PKT_EPOCH receiver_in_order.packet = channel_example.epoch ∧
    PKT_SEQ_NUM receiver_in_order.packet = receiver_in_order.NFE ∧
    PKT_SEQ_NUM receiver_ahead.packet = receiver_ahead.NFE + 1 ∧
    (∃ x, tcp_receiver_packet MODE_TCP_TARGET env_write_all channel_example receiver_in_order
        = some x ∧ x.2.1.NFE = 1 ∧
      x.2.2.filter (fun e => e matches .tcp_write _ _)
        = [.tcp_write 7 (List.replicate 251 0)]) ∧
    tcp_receiver_packet MODE_TCP_TARGET env_write_all channel_example receiver_ahead = none :=
  have h0 := receiver_no_reordering MODE_TCP_TARGET env_write_all channel_example
    receiver_in_order (by decide) rfl (by decide) (by decide) rfl
  have h1 := receiver_no_reordering MODE_TCP_TARGET env_write_all channel_example
    receiver_ahead (by decide) rfl (by decide) (by decide) rfl
  ⟨by decide, rfl, rfl, rfl, h0.1 rfl, (h1.2 (by decide) (by decide)).2⟩

/-- C24 fails on the code.  For an active receiver and a packet of the channel's
epoch with `seq_num == NFE` (dequeued length 6..256, the `write` taking all
bytes), also one with the last bit set: `tcp_receiver` sets
`NFE = NEXT_SEQ_NUM (seq_num)` before the write, so the test
`PKT_IS_LAST (packet) && NFE == seq_num` made after the ACK is false;
`deactivate_channel` is not called, the channel record is unchanged, the only
events are the write and the ACK, and the receiver stays active. -/
theorem receiver_last_stays_active (mode : relay_mode_t) (env : relay_env) (ct : channel_t)
    (r : receiver_t) (hact : r.is_active ≠ 0) (hep : PKT_EPOCH r.packet = ct.epoch)
    (hseq : PKT_SEQ_NUM r.packet = r.NFE) (hlen : 5 < r.len) (hlen2 : r.len ≤ 256)
    (hw : env.writes = [r.len - 5]) :
    ∃ r1, tcp_receiver_packet mode env ct r = some (ct, r1,
        [.tcp_write ct.fd ((r.packet.drop 4).take (r.len - 5).toNat),
         .udp_send ((env.make_header r.packet 1 0 ct.number (PKT_SEQ_NUM r.packet)
           (PKT_EPOCH r.packet) r.len).take 256)]) ∧
      r1.is_active = r.is_active ∧ r1.NFE = NEXT_SEQ_NUM (PKT_SEQ_NUM r.packet) ∧
      r1.NFE ≠ PKT_SEQ_NUM r.packet := by
  rw [tcp_receiver_packet_active mode env ct r (by omega) hact hep,
    tcp_receiver_deliver_in_order_eq mode env ct { r with epoch := PKT_EPOCH r.packet } []
      hseq hlen hlen2 hw]
  exact ⟨_, rfl, rfl, rfl, next_seq_num_ne r.packet⟩

set_option maxRecDepth 100000 in
/-- Witness for C24: the packet with sequence number 0 and the last bit set,
for a receiver with `NFE == 0`; the receiver is active afterwards. -/
theorem receiver_last_stays_active_witness :
    PKT_IS_LAST receiver_last.packet = 1 ∧ receiver_last.is_active ≠ 0 ∧
    PKT_EPOCH receiver_last.packet = channel_example.epoch ∧
    PKT_SEQ_NUM receiver_last.packet = receiver_last.NFE ∧
    ∃ r1, tcp_receiver_packet MODE_TCP_TARGET env_write_all channel_example receiver_last
        = some (channel_example, r1,
          [.tcp_write 7 (List.replicate 251 0), .udp_send receiver_last.packet]) ∧
      r1.is_active = 1 ∧ r1.NFE = 1 :=
  have h := receiver_last_stays_active MODE_TCP_TARGET env_write_all channel_example
    receiver_last (by decide) rfl rfl (by decide) (by decide) rfl
  ⟨by decide, by decide, rfl, rfl,
    h.elim fun r1 hr1 => ⟨r1, hr1.1, hr1.2.1, hr1.2.2.1.trans (by decide)⟩⟩

/-- C28 fails on the code.  When `tcp_receiver` parks an out-of-order packet
(`NFE < seq_num < NFE + 32`) the index it uses, `NFE - seq_num`, is negative;
when `tcp_sender` records an ACK that passed the window test with a sequence
number above the advanced `LAR` (`LAR < seq_num <= LAR + 32`) the index
`LAR - seq_num` is negative.  In both cases `bufferValid[index]` and
`buffer[index * MAX_PKT_LEN]` lie before the arrays, and the handler has no
defined result. -/
theorem park_index_negative (mode : relay_mode_t) (env : relay_env) (ct : channel_t)
    (r : receiver_t) (s : sender_t) (ev : List relay_event)
    (h1 : r.NFE < PKT_SEQ_NUM r.packet) (h2 : PKT_SEQ_NUM r.packet < r.NFE + SWP_BUFFER_SIZE)
    (h3 : NEXT_SEQ_NUM s.LAR < PKT_SEQ_NUM s.packet)
    (h4 : PKT_SEQ_NUM s.packet ≤ NEXT_SEQ_NUM s.LAR + SWP_BUFFER_SIZE) :
    (r.NFE - PKT_SEQ_NUM r.packet < 0 ∧
      park_packet r.buffer r.bufferValid (r.NFE - PKT_SEQ_NUM r.packet) env.packet_addr = none ∧
      tcp_receiver_deliver mode env ct r ev = none) ∧
    (NEXT_SEQ_NUM s.LAR - PKT_SEQ_NUM s.packet < 0 ∧
      tcp_sender_window mode ct s env.packet_addr = none) := by
  obtain ⟨a, b⟩ := tcp_receiver_deliver_park mode env ct r ev h1 h2
  exact ⟨⟨by omega, a, b⟩, by omega, (tcp_sender_window_park mode ct s env.packet_addr h3 h4).2⟩

set_option maxRecDepth 100000 in
/-- Witness for C28: a receiver with `NFE == 0` and a packet with sequence
number 1 (index -1); a sender with `LAR == 5`, advanced to 6, and an ACK with
sequence number 7 (index -1). -/
theorem park_index_negative_witness :
    receiver_ahead.NFE < PKT_SEQ_NUM receiver_ahead.packet ∧
    PKT_SEQ_NUM receiver_ahead.packet < receiver_ahead.NFE + SWP_BUFFER_SIZE ∧
    NEXT_SEQ_NUM sender_ahead.LAR < PKT_SEQ_NUM sender_ahead.packet ∧
    PKT_SEQ_NUM sender_ahead.packet ≤ NEXT_SEQ_NUM sender_ahead.LAR + SWP_BUFFER_SIZE ∧
    receiver_ahead.NFE - PKT_SEQ_NUM receiver_ahead.packet = -1 ∧
    tcp_receiver_deliver MODE_TCP_TARGET env_example channel_example receiver_ahead [] = none ∧
    NEXT_SEQ_NUM sender_ahead.LAR - PKT_SEQ_NUM sender_ahead.packet = -1 ∧
    tcp_sender_window MODE_TCP_TARGET channel_example sender_ahead env_example.packet_addr
      = none :=
  have e : NEXT_SEQ_NUM sender_ahead.LAR = 6 := (next_seq_num_mod _).trans (by decide)
  have h3 : NEXT_SEQ_NUM sender_ahead.LAR < PKT_SEQ_NUM sender_ahead.packet := by
    rw [e]; decide
  have h4 : PKT_SEQ_NUM sender_ahead.packet ≤ NEXT_SEQ_NUM sender_ahead.LAR + SWP_BUFFER_SIZE := by
    rw [e]; decide
  have h := park_index_negative MODE_TCP_TARGET env_example channel_example receiver_ahead
    sender_ahead [] (by decide) (by decide) h3 h4
  ⟨by decide, by decide, h3, h4, by decide, h.1.2.2, by rw [e]; decide, h.2.2⟩

/-! ### A new epoch in forward mode -/

theorem tcp_receiver_forward_inactive (env : relay_env) (ct : channel_t) (r : receiver_t)
    (hlen : 2 ≤ r.len) (hact : r.is_active = 0)
    (hnot : EPOCH_IS_EARLIER (PKT_EPOCH r.packet) ct.epoch = false) :
    tcp_receiver_packet MODE_TCP_FORWARD env ct r =
      tcp_receiver_deliver MODE_TCP_FORWARD env
        { ct with fd := env.connect_fd, channel_state := CLOSE_CHANNEL_NONE }
        { r with epoch := PKT_EPOCH r.packet, is_active := 1, NFE := 0 }
        ([] ++ [.tcp_connect env.connect_fd, .wake_threads CLOSE_CHANNEL_RECEIVER]) := by
  have hc : ¬ (PKT_EPOCH r.packet ≠ ct.epoch ∧ r.is_active ≠ 0) := fun hh => hh.2 hact
  unfold tcp_receiver_packet
  rw [if_neg (by omega), if_neg (by decide), if_neg (fun hh => by rw [hnot] at hh; cases hh.2)]
  unfold tcp_receiver_forward
  simp only []
  rw [if_neg hc]
  simp only []
  rw [if_pos hact]
  rfl

theorem tcp_receiver_forward_active (env : relay_env) (ct : channel_t) (r : receiver_t)
    (hlen : 2 ≤ r.len) (hact : r.is_active ≠ 0) (hne : PKT_EPOCH r.packet ≠ ct.epoch)
    (hnot : EPOCH_IS_EARLIER (PKT_EPOCH r.packet) ct.epoch = false) :
    ∃ ct1 : channel_t, tcp_receiver_packet MODE_TCP_FORWARD env ct r =
      tcp_receiver_deliver MODE_TCP_FORWARD env
        { ct1 with epoch := PKT_EPOCH r.packet, fd := env.connect_fd,
                   channel_state := CLOSE_CHANNEL_NONE }
        { r with epoch := PKT_EPOCH r.packet, is_active := 1, NFE := 0 }
        ((deactivate_channel MODE_TCP_FORWARD ct CLOSE_CHANNEL_RECEIVER).2 ++
          [.tcp_connect env.connect_fd, .wake_threads CLOSE_CHANNEL_RECEIVER]) := by
  have hc : PKT_EPOCH r.packet ≠ ct.epoch ∧ r.is_active ≠ 0 := ⟨hne, hact⟩
  unfold tcp_receiver_packet
  rw [if_neg (by omega), if_neg (by decide), if_neg (fun hh => by rw [hnot] at hh; cases hh.2)]
  unfold tcp_receiver_forward
  simp only []
  rw [if_pos hc]
  simp only []
  rw [if_pos True.intro]
  exact ⟨_, rfl⟩

/-- C25 fails on the code for an inactive receiver.  In forward mode, for a
packet whose epoch `e` differs from the channel's and is not earlier (and which
carries sequence number 0, with dequeued length 6..256 and the `write` taking
all bytes): an inactive receiver calls `open_and_activate_channel` and resets
`NFE` to 0 before it looks at the sequence number, but the assignment
`ct->epoch = epoch` sits inside `if (is_active)` and is skipped, so the channel
keeps its old epoch; an active receiver deactivates, waits, stores `e` in the
channel, then activates in the same way. -/
theorem forward_new_epoch (env : relay_env) (ct : channel_t) (r : receiver_t)
    (hlen : 5 < r.len) (hlen2 : r.len ≤ 256) (hne : PKT_EPOCH r.packet ≠ ct.epoch)
    (hnot : EPOCH_IS_EARLIER (PKT_EPOCH r.packet) ct.epoch = false)
    (hseq : PKT_SEQ_NUM r.packet = 0) (hw : env.writes = [r.len - 5]) :
    (r.is_active = 0 →
      ∃ x, tcp_receiver_packet MODE_TCP_FORWARD env ct r = some x ∧
        x.1.epoch = ct.epoch ∧ x.1.epoch ≠ PKT_EPOCH r.packet ∧
        x.1.fd = env.connect_fd ∧ x.1.channel_state = CLOSE_CHANNEL_NONE ∧
        x.2.1.is_active = 1 ∧ x.2.1.NFE = 1 ∧
        x.2.2.take 2 = [.tcp_connect env.connect_fd, .wake_threads CLOSE_CHANNEL_RECEIVER]) ∧
    (r.is_active ≠ 0 →
      ∃ x, tcp_receiver_packet MODE_TCP_FORWARD env ct r = some x ∧
        x.1.epoch = PKT_EPOCH r.packet ∧
        x.1.fd = env.connect_fd ∧ x.1.channel_state = CLOSE_CHANNEL_NONE ∧
        x.2.1.is_active = 1 ∧ x.2.1.NFE = 1 ∧
        relay_event.tcp_connect env.connect_fd ∈ x.2.2) := by
  have h1 : NEXT_SEQ_NUM (PKT_SEQ_NUM r.packet) = 1 := by rw [hseq]; decide
  refine ⟨fun hact => ?_, fun hact => ?_⟩
  · rw [tcp_receiver_forward_inactive env ct r (by omega) hact hnot,
      tcp_receiver_deliver_in_order_eq MODE_TCP_FORWARD env
        { ct with fd := env.connect_fd, channel_state := CLOSE_CHANNEL_NONE }
        { r with epoch := PKT_EPOCH r.packet, is_active := 1, NFE := 0 } _ hseq hlen hlen2 hw]
    exact ⟨_, rfl, rfl, Ne.symm hne, rfl, rfl, rfl, h1, rfl⟩
  · obtain ⟨ct1, hx⟩ := tcp_receiver_forward_active env ct r (by omega) hact hne hnot
    rw [hx, tcp_receiver_deliver_in_order_eq MODE_TCP_FORWARD env
        { ct1 with epoch := PKT_EPOCH r.packet, fd := env.connect_fd,
                   channel_state := CLOSE_CHANNEL_NONE }
        { r with epoch := PKT_EPOCH r.packet, is_active := 1, NFE := 0 } _ hseq hlen hlen2 hw]
    refine ⟨_, rfl, rfl, rfl, rfl, rfl, h1, ?_⟩
    simp

set_option maxRecDepth 100000 in
/-- Witness for C25: an inactive receiver on a channel of epoch 5 gets the first
packet of epoch 6; afterwards the channel is active with epoch 5. -/
theorem forward_new_epoch_witness :
    PKT_EPOCH receiver_idle.packet = 6 ∧ channel_idle.epoch = 5 ∧
    EPOCH_IS_EARLIER (PKT_EPOCH receiver_idle.packet) channel_idle.epoch = false ∧
    PKT_SEQ_NUM receiver_idle.packet = 0 ∧ receiver_idle.is_active = 0 ∧
    ∃ x, tcp_receiver_packet MODE_TCP_FORWARD env_write_all channel_idle receiver_idle
        = some x ∧ x.1.epoch = 5 ∧ x.1.channel_state = CLOSE_CHANNEL_NONE ∧
      x.2.1.is_active = 1 ∧ x.2.1.NFE = 1 :=
  have h := (forward_new_epoch env_write_all channel_idle receiver_idle (by decide) (by decide)
    (by decide) (by decide) rfl rfl).1 rfl
  ⟨rfl, rfl, by decide, rfl, rfl,
    h.elim fun x hx => ⟨x, hx.1, hx.2.1, hx.2.2.2.2.1, hx.2.2.2.2.2.1, hx.2.2.2.2.2.2.1⟩⟩

/-! ### The write loop `my_write` -/

theorem list_sum_pos (ks : List Int) (h : ∀ k ∈ ks, 0 < k) : 0 ≤ ks.sum := by
  induction ks with
  | nil => simp
  | cons k ks ih =>
    rw [List.sum_cons]
    have := h k (List.mem_cons_self _ _)
    have := ih (fun x hx => h x (List.mem_cons_of_mem _ hx))
    omega

theorem my_write_loop_partial (fd : Int) (buf : List Nat) (n : Nat) (hn : n < 2 ^ 31) :
    ∀ (ks : List Int) (written : Nat), (∀ k ∈ ks, 0 < k) → (written : Int) + ks.sum = n →
      ∃ ev, my_write_loop fd buf n written ks = some ((n : Int), ev) ∧
        tcp_written ev = (buf.drop written).take (n - written) := by
  have e2 : int_of_size_t n = n := by
    unfold int_of_size_t
    omega
  intro ks
  induction ks with
  | nil =>
    intro written _ hs
    rw [List.sum_nil] at hs
    unfold my_write_loop
    rw [if_neg (by omega), e2]
    refine ⟨[], rfl, ?_⟩
    have : n - written = 0 := by omega
    rw [this]
    rfl
  | cons k ks ih =>
    intro written hp hs
    rw [List.sum_cons] at hs
    have hk := hp k (List.mem_cons_self _ _)
    have hks := list_sum_pos ks (fun x hx => hp x (List.mem_cons_of_mem _ hx))
    have e3 : size_t_of_int ((written : Int) + k) = written + k.toNat := by
      unfold size_t_of_int
      rw [Int.emod_eq_of_lt (by omega) (by omega)]
      omega
    obtain ⟨ev, hev, hb⟩ := ih (written + k.toNat)
      (fun x hx => hp x (List.mem_cons_of_mem _ hx)) (by push_cast; omega)
    unfold my_write_loop
    rw [if_pos (by omega), if_neg (by omega), e3, hev]
    refine ⟨_, rfl, ?_⟩
    show (buf.drop written).take k.toNat ++ tcp_written ev = _
    rw [hb, ← List.drop_drop]
    have e4 : n - written = k.toNat + (n - (written + k.toNat)) := by omega
    rw [e4, List.take_add]

/-- C26 fails on the code.  A `write` that returns -1 ends `my_write (fd, buf, n)`
(`n > 0`) with -1 at once, whatever it left in `errno` and whatever the later
calls would do: the test `once == EINTR` compares the return value, which is -1
there, with `EINTR`, so the loop is never restarted; in particular a first
`write` interrupted with `errno == EINTR` followed by one that would take all
`n` bytes returns -1 with nothing written.  When no `write` fails, each taking
a positive number of bytes that total `n` (below `2 ^ 31`), `my_write` returns
`n` and has passed the first `n` bytes of `buf` in order. -/
theorem my_write_no_restart (fd : Int) (buf : List Nat) (n : Nat) (hn : 0 < n)
    (hn2 : n < 2 ^ 31) :
    (∀ (e : Int) (rs : List write_result),
      my_write_results fd buf n (⟨-1, e⟩ :: rs) = some (-1, [])) ∧
    my_write_results fd buf n [⟨-1, EINTR⟩, ⟨n, 0⟩] = some (-1, []) ∧
    (∀ rs : List write_result, (∀ r ∈ rs, 0 < r.ret) → (rs.map fun r => r.ret).sum = n →
      ∃ ev, my_write_results fd buf n rs = some ((n : Int), ev) ∧
        tcp_written ev = buf.take n) := by
  have h1 : ∀ (e : Int) (rs : List write_result),
      my_write_results fd buf n (⟨-1, e⟩ :: rs) = some (-1, []) := by
    intro e rs
    unfold my_write_results my_write
    rw [List.map_cons]
    unfold my_write_loop
    rw [if_pos hn, if_pos rfl, if_neg (show ¬ ((-1 : Int) = EINTR) by decide)]
  refine ⟨h1, h1 EINTR _, fun rs hp hs => ?_⟩
  unfold my_write_results my_write
  have h := my_write_loop_partial fd buf n hn2 (rs.map fun r => r.ret) 0
    (fun k hk => by
      obtain ⟨r, hr, rfl⟩ := List.mem_map.mp hk
      exact hp r hr)
    (by rw [hs]; simp)
  simpa using h

/-- Witness for C26: three bytes to write; the first `write` is interrupted
(`errno == EINTR`), the second would take all three. -/
theorem my_write_no_restart_witness :
    0 < 3 ∧ 3 < 2 ^ 31 ∧
    my_write_results 7 [0x61, 0x62, 0x63] 3 [⟨-1, EINTR⟩, ⟨3, 0⟩] = some (-1, []) ∧
    my_write_results 7 [0x61, 0x62, 0x63] 3 [⟨1, 0⟩, ⟨2, 0⟩]
      = some (3, [.tcp_write 7 [0x61], .tcp_write 7 [0x62, 0x63]]) :=
  ⟨by decide, by decide,
    (my_write_no_restart 7 [0x61, 0x62, 0x63] 3 (by decide) (by decide)).2.1, by decide⟩

/-! ### The framing of a packet by the sender -/

theorem zero_fill_range (packet : List Nat) (start : Int) (n : Nat) :
    ((List.range n).foldl (fun (p : List Nat) (i : Nat) => if start ≤ (i : Int) then p.set i 0 else p)
      packet).length = packet.length ∧
    ∀ i : Nat, ((List.range n).foldl (fun (p : List Nat) (i : Nat) => if start ≤ (i : Int) then p.set i 0 else p)
      packet)[i]? =
        if start ≤ (i : Int) ∧ i < n ∧ i < packet.length then some 0 else packet[i]? := by
  induction n with
  | zero =>
    refine ⟨rfl, fun i => ?_⟩
    rw [if_neg (by omega)]
    rfl
  | succ n ih =>
    obtain ⟨hl, hg⟩ := ih
    rw [List.range_succ, List.foldl_append, List.foldl_cons, List.foldl_nil]
    by_cases hs : start ≤ (n : Int)
    · rw [if_pos hs]
      refine ⟨by rw [List.length_set, hl], fun i => ?_⟩
      by_cases hi : n = i
      · subst hi
        by_cases hlt : n < packet.length
        · rw [List.getElem?_set_self (by rw [hl]; exact hlt), if_pos ⟨hs, by omega, hlt⟩]
        · have e1 : packet[n]? = none := List.getElem?_eq_none (by omega)
          rw [if_neg (by omega), e1]
          exact List.getElem?_eq_none (by rw [List.length_set, hl]; omega)
      · rw [List.getElem?_set_ne hi, hg i]
        by_cases hc : start ≤ (i : Int) ∧ i < n ∧ i < packet.length
        · rw [if_pos hc, if_pos ⟨hc.1, by omega, hc.2.2⟩]
        · rw [if_neg hc, if_neg (by omega)]
    · rw [if_neg hs]
      refine ⟨hl, fun i => ?_⟩
      rw [hg i]
      by_cases hc : start ≤ (i : Int) ∧ i < n ∧ i < packet.length
      · rw [if_pos hc, if_pos ⟨hc.1, by omega, hc.2.2⟩]
      · rw [if_neg hc, if_neg (by omega)]

theorem zero_fill_spec (packet : List Nat) (start : Int) :
    (zero_fill packet start).length = packet.length ∧
    ∀ i : Nat, (zero_fill packet start)[i]? =
      if start ≤ (i : Int) ∧ i < 255 ∧ i < packet.length then some 0 else packet[i]? :=
  zero_fill_range packet start 255

theorem pkt_make_header7_spec (p : List Nat) (a b number seq_num epoch len : Int) :
    (PKT_MAKE_HEADER7 p a b number seq_num epoch len).length = p.length ∧
    (∀ i : Nat, 4 ≤ i → i ≤ 254 →
      (PKT_MAKE_HEADER7 p a b number seq_num epoch len)[i]? = p[i]?) ∧
    (255 < p.length → (PKT_MAKE_HEADER7 p a b number seq_num epoch len)[255]? =
      some (calculate_crc8
        (((PKT_MAKE_HEADER7 p a b number seq_num epoch len).take 255).map Int.ofNat) 255)) := by
  unfold PKT_MAKE_HEADER7
  simp only []
  refine ⟨by simp only [List.length_set], fun i h4 h254 => ?_, fun hl => ?_⟩
  · rw [List.getElem?_set_ne (by omega), List.getElem?_set_ne (by omega),
      List.getElem?_set_ne (by omega), List.getElem?_set_ne (by omega),
      List.getElem?_set_ne (by omega)]
  · have ht : ∀ (l : List Nat) (c : Nat), (l.set 255 c).take 255 = l.take 255 := by
      intro l c
      rw [List.set_take, List.set_eq_of_length_le (by rw [List.length_take]; omega)]
    rw [List.getElem?_set_self (by simp only [List.length_set]; exact hl), ht]

theorem sender_frame_bytes (p data : List Nat) (a b number seq_num epoch len : Int)
    (hp : p.length = 256) (hd : data.length ≤ 251) :
    (PKT_MAKE_HEADER7 (zero_fill (p.take 4 ++ data ++ p.drop (4 + data.length))
      ((data.length : Int) + 4)) a b number seq_num epoch len).length = 256 ∧
    ((PKT_MAKE_HEADER7 (zero_fill (p.take 4 ++ data ++ p.drop (4 + data.length))
      ((data.length : Int) + 4)) a b number seq_num epoch len).drop 4).take data.length
        = data ∧
    (∀ i : Nat, 4 + data.length ≤ i → i ≤ 254 →
      (PKT_MAKE_HEADER7 (zero_fill (p.take 4 ++ data ++ p.drop (4 + data.length))
        ((data.length : Int) + 4)) a b number seq_num epoch len)[i]? = some 0) ∧
    (PKT_MAKE_HEADER7 (zero_fill (p.take 4 ++ data ++ p.drop (4 + data.length))
      ((data.length : Int) + 4)) a b number seq_num epoch len)[255]? =
        some (calculate_crc8 (((PKT_MAKE_HEADER7 (zero_fill
          (p.take 4 ++ data ++ p.drop (4 + data.length)) ((data.length : Int) + 4))
          a b number seq_num epoch len).take 255).map Int.ofNat) 255) := by
  have hp1 : (p.take 4 ++ data ++ p.drop (4 + data.length)).length = 256 := by
    simp only [List.length_append, List.length_take, List.length_drop]
    omega
  obtain ⟨hzl, hz⟩ := zero_fill_spec (p.take 4 ++ data ++ p.drop (4 + data.length))
    ((data.length : Int) + 4)
  obtain ⟨hhl, hh, hcrc⟩ := pkt_make_header7_spec
    (zero_fill (p.take 4 ++ data ++ p.drop (4 + data.length)) ((data.length : Int) + 4))
    a b number seq_num epoch len
  rw [hzl, hp1] at hhl
  refine ⟨hhl, ?_, fun i h1 h2 => ?_, hcrc (by rw [hzl, hp1]; decide)⟩
  · apply List.ext_getElem?
    intro j
    rw [List.getElem?_take, List.getElem?_drop]
    by_cases hj : j < data.length
    · rw [if_pos hj, hh (4 + j) (by omega) (by omega), hz (4 + j), if_neg (by omega),
        List.getElem?_append_left (by
          simp only [List.length_append, List.length_take]
          omega),
        List.getElem?_append_right (by
          simp only [List.length_take]
          omega)]
      have e : 4 + j - (List.take 4 p).length = j := by
        simp only [List.length_take]
        omega
      rw [e]
    · rw [if_neg hj, List.getElem?_eq_none (by omega)]
  · rw [hh i (by omega) h2, hz i, if_pos ⟨by omega, by omega, by omega⟩]

set_option maxRecDepth 10000 in
/-- C27, with the seven-argument `PKT_MAKE_HEADER` as the specification
describes the frame: when an active `tcp_sender` whose channel has data reads
`len` bytes from TCP, `0 <= len <= 251`, it passes one datagram to `send`; the
datagram has 256 bytes, the bytes read at offsets `4 .. 4 + len - 1`, zero
bytes at offsets `4 + len .. 254` and at offset 255 the value `calculate_crc8`
of its bytes 0..254. -/
theorem sender_framing (mode : relay_mode_t) (ct : channel_t) (s : sender_t) (len : Int)
    (data : List Nat) (hact : s.is_active ≠ 0) (hd : ct.has_data ≠ 0)
    (hp : s.packet.length = 256) (h0 : 0 ≤ len) (h1 : len ≤ 251)
    (hdata : (data.length : Int) = len) :
    ∃ dg, (tcp_sender_send mode PKT_MAKE_HEADER7 ct s len data).2.2 = [.udp_send dg] ∧
      dg.length = 256 ∧ (dg.drop 4).take len.toNat = data ∧
      (∀ i : Nat, 4 + len ≤ i → i ≤ 254 → dg[i]? = some 0) ∧
      dg[255]? = some (calculate_crc8 ((dg.take 255).map Int.ofNat) 255) := by
  subst hdata
  have hdl : data.length ≤ 251 := by omega
  unfold tcp_sender_send
  rw [if_pos ⟨hact, hd⟩]
  simp only []
  rw [if_neg (by omega)]
  have etn : (data.length : Int).toNat = data.length := by omega
  by_cases hz : (data.length : Int) = 0
  · rw [if_pos hz]
    simp only []
    obtain ⟨hl, hb, hzr, hc⟩ := sender_frame_bytes s.packet data 0 1 ct.number s.SEQ ct.epoch
      data.length hp hdl
    refine ⟨_, rfl, ?_⟩
    rw [List.take_of_length_le (le_of_eq hl), etn]
    exact ⟨hl, hb, fun i hi1 hi2 => hzr i (by omega) hi2, hc⟩
  · rw [if_neg hz]
    simp only []
    obtain ⟨hl, hb, hzr, hc⟩ := sender_frame_bytes s.packet data 0 s.tcp_closed ct.number s.SEQ
      ct.epoch data.length hp hdl
    refine ⟨_, rfl, ?_⟩
    rw [List.take_of_length_le (le_of_eq hl), etn]
    exact ⟨hl, hb, fun i hi1 hi2 => hzr i (by omega) hi2, hc⟩

set_option maxRecDepth 100000 in
/-- Witness for C27: the 18 bytes of `"GET / HTTP/1.0\r\n\r\n"` read by an active
sender on channel 3 in epoch 5. -/
theorem sender_framing_witness :
    sender_ready.is_active ≠ 0 ∧ channel_has_data.has_data ≠ 0 ∧
    sender_ready.packet.length = 256 ∧ (get_payload.length : Int) = 18 ∧
    ∃ dg, (tcp_sender_send MODE_TCP_TARGET PKT_MAKE_HEADER7 channel_has_data sender_ready 18
        get_payload).2.2 = [.udp_send dg] ∧
      dg.length = 256 ∧ (dg.drop 4).take 18 = get_payload ∧
      (∀ i : Nat, 22 ≤ i → i ≤ 254 → dg[i]? = some 0) ∧
      dg[255]? = some (calculate_crc8 ((dg.take 255).map Int.ofNat) 255) :=
  have h := sender_framing MODE_TCP_TARGET channel_has_data sender_ready 18 get_payload
    (by decide) (by decide) (by decide) (by decide) (by decide) (by decide)
  ⟨by decide, by decide, by decide, by decide,
    h.elim fun dg hdg => ⟨dg, hdg.1, hdg.2.1, hdg.2.2.1,
      fun i hi1 hi2 => hdg.2.2.2.1 i (by omega) hi2, hdg.2.2.2.2⟩⟩

/-! ### Single-bit errors and the CRC-8 -/

theorem mul_pow_xor (x y : Nat) : (x ^^^ y) * 2 ^ 8 = x * 2 ^ 8 ^^^ y * 2 ^ 8 := by
  have e : ∀ q : Nat, q * 2 ^ 8 = 2 * (2 * (2 * (2 * (2 * (2 * (2 * (2 * q))))))) := by
    intro q; omega
  rw [e, e x, e y]
  simp only [two_mul_xor]

theorem msg_poly_byte (l : List Nat) (a : Nat) (ha : a < 256) :
    msg_poly ((l ++ [a]).map Int.ofNat) = msg_poly (l.map Int.ofNat) * 2 ^ 8 ^^^ a := by
  rw [List.map_append, List.map_singleton, msg_poly_append]
  have e : (Int.ofNat a % 256).toNat = a := by
    show ((a : Int) % 256).toNat = a
    omega
  rw [e, mul_pow_add_eq_xor _ _ (by omega)]

theorem msg_poly_flip (l : List Nat) (hl : ∀ b ∈ l, b < 256) (i j : Nat) (hi : i < l.length)
    (hj : j < 8) :
    msg_poly ((flip_bit l i j).map Int.ofNat)
      = msg_poly (l.map Int.ofNat) ^^^ 2 ^ (8 * (l.length - 1 - i) + j) := by
  induction l using List.reverseRecOn with
  | nil => simp at hi
  | append_singleton l a ih =>
    have ha : a < 256 := hl a (by simp)
    have hl2 : ∀ b ∈ l, b < 256 := fun b hb => hl b (by simp [hb])
    rw [List.length_append, List.length_singleton] at hi
    rw [msg_poly_byte l a ha]
    by_cases hlt : i < l.length
    · have e1 : flip_bit (l ++ [a]) i j = flip_bit l i j ++ [a] := by
        unfold flip_bit
        rw [List.set_append_left _ _ hlt, List.getD_eq_getElem?_getD, List.getD_eq_getElem?_getD,
          List.getElem?_append_left hlt]
      have e2 : 8 * ((l ++ [a]).length - 1 - i) + j = (8 * (l.length - 1 - i) + j) + 8 := by
        rw [List.length_append, List.length_singleton]
        omega
      rw [e1, msg_poly_byte _ a ha, ih hl2 hlt, mul_pow_xor, e2,
        Nat.pow_add 2 (8 * (l.length - 1 - i) + j) 8, Nat.xor_assoc, Nat.xor_comm _ a,
        ← Nat.xor_assoc]
    · have hil : i = l.length := by omega
      subst hil
      have hx : a ^^^ 2 ^ j < 256 :=
        Nat.xor_lt_two_pow (n := 8) ha (Nat.pow_lt_pow_right (by omega) hj)
      have e1 : flip_bit (l ++ [a]) l.length j = l ++ [a ^^^ 2 ^ j] := by
        unfold flip_bit
        rw [List.set_append_right _ _ (le_refl _), List.getD_eq_getElem?_getD,
          List.getElem?_append_right (le_refl _)]
        simp
      have e2 : 8 * ((l ++ [a]).length - 1 - l.length) + j = j := by
        rw [List.length_append, List.length_singleton]
        omega
      rw [e1, msg_poly_byte _ _ hx, e2, Nat.xor_assoc]

theorem crc8_shift_ne_zero (r : Nat) (h0 : 0 < r) (h1 : r < 256) : crc8_shift r 0 ≠ 0 := by
  rw [crc8_shift_eq r 0 (by omega) (by omega)]
  split
  · intro h
    have : (2 * r + 0) = 0x107 := by
      have := Nat.xor_cancel_right 0x107 (2 * r + 0)
      rw [h] at this
      simpa using this.symm
    omega
  · omega

theorem pow_two_remainder (k : Nat) :
    ∃ r q, 0 < r ∧ r < 256 ∧ 2 ^ k = gf2_mul q 0x107 ^^^ r := by
  induction k with
  | zero => exact ⟨1, 0, by omega, by omega, by rw [gf2_mul_zero_left]; rfl⟩
  | succ k ih =>
    obtain ⟨r, q, h0, h1, hq⟩ := ih
    obtain ⟨hlt, q', hq'⟩ := crc8_shift_inv (2 ^ k) r 0 (by omega) ⟨h1, q, hq⟩
    refine ⟨crc8_shift r 0, q', Nat.pos_of_ne_zero (crc8_shift_ne_zero r h0 h1), hlt, ?_⟩
    rw [← hq', Nat.pow_succ]
    omega

theorem gf2_mul_ne_pow_two (q k : Nat) : gf2_mul q 0x107 ≠ 2 ^ k := by
  intro h
  obtain ⟨r, q', h0, h1, hq'⟩ := pow_two_remainder k
  have := gf2_remainder_unique q q' 0 r (by omega) h1 (by rw [Nat.xor_zero, h, hq'])
  omega

theorem xor_cancel_mid (g c g' : Nat) : (g ^^^ c) ^^^ (g' ^^^ c) = g ^^^ g' := by
  rw [Nat.xor_comm g' c, ← Nat.xor_assoc, Nat.xor_assoc g c c, Nat.xor_self, Nat.xor_zero]

theorem xor_solve (g c t g' : Nat) (h : g ^^^ c ^^^ t = g' ^^^ c) : t = g ^^^ g' := by
  have h1 := Nat.xor_cancel_left (g ^^^ c) t
  rw [h, xor_cancel_mid] at h1
  exact h1.symm

theorem crc8_flip_ne (m : List Nat) (hb : ∀ b ∈ m, b < 256) (i j : Nat) (hi : i < m.length)
    (hj : j < 8) :
    calculate_crc8 ((flip_bit m i j).map Int.ofNat) m.length
      ≠ calculate_crc8 (m.map Int.ofNat) m.length := by
  intro heq
  obtain ⟨-, q, hq⟩ := calculate_crc8_inv (m.map Int.ofNat)
  obtain ⟨-, q', hq'⟩ := calculate_crc8_inv ((flip_bit m i j).map Int.ofNat)
  have hlen : (flip_bit m i j).length = m.length := by
    unfold flip_bit
    rw [List.length_set]
  rw [List.length_map] at hq hq'
  rw [hlen, heq, msg_poly_flip m hb i j hi hj, mul_pow_xor, hq] at hq'
  have key := xor_solve _ _ _ _ hq'
  rw [← gf2_mul_xor, ← Nat.pow_add] at key
  exact gf2_mul_ne_pow_two _ _ key.symm

/-- C29: for every message `m` of 255 bytes, let `f` be the 256-byte frame `m`
followed by the byte `calculate_crc8 (m, 255)`; for every frame obtained from
`f` by inverting one of its 2048 bits (bit `j` of byte `i`), the last byte
differs from `calculate_crc8` of the first 255 bytes: the corrupted frame fails
the CRC comparison. -/
theorem crc8_single_bit (m : List Nat) (hm : m.length = 255) (hb : ∀ b ∈ m, b < 256)
    (i j : Nat) (hi : i < 256) (hj : j < 8) :
    (flip_bit (m ++ [calculate_crc8 (m.map Int.ofNat) 255]) i j).length = 256 ∧
    (flip_bit (m ++ [calculate_crc8 (m.map Int.ofNat) 255]) i j).getD 255 0 ≠
      calculate_crc8
        (((flip_bit (m ++ [calculate_crc8 (m.map Int.ofNat) 255]) i j).take 255).map Int.ofNat)
        255 := by
  refine ⟨by unfold flip_bit; rw [List.length_set, List.length_append, hm]; rfl, ?_⟩
  by_cases hlt : i < 255
  · have hlt2 : i < m.length := by omega
    have e1 : flip_bit (m ++ [calculate_crc8 (m.map Int.ofNat) 255]) i j
        = flip_bit m i j ++ [calculate_crc8 (m.map Int.ofNat) 255] := by
      unfold flip_bit
      rw [List.set_append_left _ _ hlt2, List.getD_eq_getElem?_getD, List.getD_eq_getElem?_getD,
        List.getElem?_append_left hlt2]
    have hlen : (flip_bit m i j).length = 255 := by
      unfold flip_bit
      rw [List.length_set, hm]
    rw [e1, List.take_left' hlen, List.getD_eq_getElem?_getD,
      List.getElem?_append_right (by omega), hlen]
    have h := crc8_flip_ne m hb i j hlt2 hj
    rw [hm] at h
    simpa using Ne.symm h
  · have hi2 : i = m.length := by omega
    subst hi2
    have e1 : flip_bit (m ++ [calculate_crc8 (m.map Int.ofNat) 255]) m.length j
        = m ++ [calculate_crc8 (m.map Int.ofNat) 255 ^^^ 2 ^ j] := by
      unfold flip_bit
      rw [List.set_append_right _ _ (le_refl _), List.getD_eq_getElem?_getD,
        List.getElem?_append_right (le_refl _)]
      simp
    rw [e1, List.take_left' hm, List.getD_eq_getElem?_getD,
      List.getElem?_append_right (by omega), hm]
    intro h
    have h2 : calculate_crc8 (m.map Int.ofNat) 255 ^^^ 2 ^ j
        = calculate_crc8 (m.map Int.ofNat) 255 ^^^ 0 := by
      rw [Nat.xor_zero]
      simpa using h
    have h3 := Nat.xor_right_injective h2
    have : 0 < 2 ^ j := Nat.two_pow_pos j
    omega

/-- Witness for C29: the message of 255 zero bytes, whose CRC-8 is 0, with bit
3 of byte 10 inverted. -/
theorem crc8_single_bit_witness :
    (List.replicate 255 0).length = 255 ∧ (∀ b ∈ List.replicate 255 0, b < 256) ∧
    (flip_bit (List.replicate 255 0 ++
        [calculate_crc8 ((List.replicate 255 0).map Int.ofNat) 255]) 10 3).getD 255 0 ≠
      calculate_crc8
        (((flip_bit (List.replicate 255 0 ++
          [calculate_crc8 ((List.replicate 255 0).map Int.ofNat) 255]) 10 3).take 255).map
            Int.ofNat) 255 :=
  have hb : ∀ b ∈ List.replicate 255 0, b < 256 := fun b h => by
    rw [List.eq_of_mem_replicate h]; decide
  ⟨List.length_replicate _ _, hb,
    (crc8_single_bit (List.replicate 255 0) (List.length_replicate _ _) hb 10 3 (by decide)
      (by decide)).2⟩
